import Mathlib

/-!
# Sound rendering core of `src/pico/i_picosound.c`

A shallow embedding of the ADPCM block decoder, the channel start-up code and
the channel mixer, followed by the properties proved about them.

Conventions of the embedding.

* C `int` / `int32_t` values are `Int`; a conversion to a narrower or an
  unsigned type is an explicit wrap (`int8_cast`, `int16_cast`, `int32_cast`,
  `uint8_cast`, `uint16_cast`, `uint32_cast`).
* A byte (`uint8_t`) is a `Nat`; a byte buffer is a `List Nat`, an `int8_t` or
  `int16_t` buffer is a `List Int`.
* A pointer into a buffer is the buffer together with an index.
* `assert` is not executed by the state functions (they follow the build in
  which it expands to nothing).
* Constants that come from headers outside the translated file
  (`PICO_SOUND_SAMPLE_FREQ`, `NORM_PITCH`, `NUM_SOUND_CHANNELS`) are parameters.
-/

namespace PicoSound

/-! ## Integer conversions -/

/-- Conversion of an integer value to `int8_t`. -/
def int8_cast (v : Int) : Int := (v + 128) % 256 - 128

/-- Conversion of an integer value to `int16_t`. -/
def int16_cast (v : Int) : Int := (v + 32768) % 65536 - 32768

/-- Conversion of an integer value to `int32_t`. -/
def int32_cast (v : Int) : Int := (v + 2147483648) % 4294967296 - 2147483648

/-- Conversion of an integer value to `uint8_t`. -/
def uint8_cast (v : Int) : Nat := (v % 256).toNat

/-- Conversion of an integer value to `uint16_t`. -/
def uint16_cast (v : Int) : Nat := (v % 65536).toNat

/-- Conversion of an integer value to `uint32_t`. -/
def uint32_cast (v : Int) : Nat := (v % 4294967296).toNat

/-! ## ADPCM block decoder -/

/-- The macro `CLIP(data, min, max)`, as the value `data` holds afterwards. -/
def CLIP (data min max : Int) : Int :=
  if data > max then max else if data < min then min else data

/-- The table `step_table[89]`. -/
def step_table : List Int :=
  [7, 8, 9, 10, 11, 12, 13, 14,
   16, 17, 19, 21, 23, 25, 28, 31,
   34, 37, 41, 45, 50, 55, 60, 66,
   73, 80, 88, 97, 107, 118, 130, 143,
   157, 173, 190, 209, 230, 253, 279, 307,
   337, 371, 408, 449, 494, 544, 598, 658,
   724, 796, 876, 963, 1060, 1166, 1282, 1411,
   1552, 1707, 1878, 2066, 2272, 2499, 2749, 3024,
   3327, 3660, 4026, 4428, 4871, 5358, 5894, 6484,
   7132, 7845, 8630, 9493, 10442, 11487, 12635, 13899,
   15289, 16818, 18500, 20350, 22385, 24623, 27086, 29794,
   32767]

/-- The table `index_table[]`. -/
def index_table : List Int := [-1, -1, -1, -1, 2, 4, 6, 8]

/-- One record of the decoder's history: accumulator, step index and emitted
sample after a nibble. -/
structure adpcm_event where
  pcmdata : Int
  index : Int
  sample : Int
deriving DecidableEq, Repr

/-- Local state of `adpcm_decode_block_s8` inside its loops: the variables
`pcmdata` and `index`, the output buffer, and (as a history variable, not
present in the C code) the list of events so far. -/
structure adpcm_state where
  pcmdata : Int
  index : Int
  outbuf : List Int
  trace : List adpcm_event
deriving DecidableEq, Repr

/-- The value of `delta` computed for the low nibble of the byte `b = *inbuf`
from `step` (the four `if (*inbuf & ...)` lines with masks 1, 2, 4, 8). -/
def adpcm_low_delta (step : Int) (b : Nat) : Int :=
  let delta := step >>> (3 : Nat)
  let delta := if b &&& 1 ≠ 0 then delta + (step >>> (2 : Nat)) else delta
  let delta := if b &&& 2 ≠ 0 then delta + (step >>> (1 : Nat)) else delta
  let delta := if b &&& 4 ≠ 0 then delta + step else delta
  if b &&& 8 ≠ 0 then -delta else delta

/-- The value of `delta` computed for the high nibble of the byte `b = *inbuf`
from `step` (the four `if (*inbuf & ...)` lines with masks 0x10 to 0x80). -/
def adpcm_high_delta (step : Int) (b : Nat) : Int :=
  let delta := step >>> (3 : Nat)
  let delta := if b &&& 16 ≠ 0 then delta + (step >>> (2 : Nat)) else delta
  let delta := if b &&& 32 ≠ 0 then delta + (step >>> (1 : Nat)) else delta
  let delta := if b &&& 64 ≠ 0 then delta + step else delta
  if b &&& 128 ≠ 0 then -delta else delta

/-- First half of the inner loop body (low nibble of the byte `b = *inbuf`);
`o` is the absolute index of `outbuf[i * 2]`. -/
def adpcm_low_nibble (b : Nat) (o : Nat) (st : adpcm_state) : adpcm_state :=
  let step := step_table.getD st.index.toNat 0
  let delta := adpcm_low_delta step b
  let pcmdata := st.pcmdata + delta
  let index := st.index + index_table.getD (b &&& 7) 0
  let index := CLIP index 0 88
  let pcmdata := CLIP pcmdata (-32768) 32767
  let s := int8_cast (pcmdata >>> (8 : Nat))
  { pcmdata := pcmdata, index := index, outbuf := st.outbuf.set o s,
    trace := st.trace ++ [⟨pcmdata, index, s⟩] }

/-- Second half of the inner loop body (high nibble of the byte `b = *inbuf`);
`o` is the absolute index of `outbuf[i * 2 + 1]`. -/
def adpcm_high_nibble (b : Nat) (o : Nat) (st : adpcm_state) : adpcm_state :=
  let step := step_table.getD st.index.toNat 0
  let delta := adpcm_high_delta step b
  let pcmdata := st.pcmdata + delta
  let index := st.index + index_table.getD ((b >>> 4) &&& 7) 0
  let index := CLIP index 0 88
  let pcmdata := CLIP pcmdata (-32768) 32767
  let s := int8_cast (pcmdata >>> (8 : Nat))
  { pcmdata := pcmdata, index := index, outbuf := st.outbuf.set o s,
    trace := st.trace ++ [⟨pcmdata, index, s⟩] }

/-- One iteration of `for (int i = 0; i < 4; ++i)`: `ip` is the index of
`inbuf` and `op` the index of `outbuf` at the start of the chunk. -/
def adpcm_byte (inbuf : List Nat) (ip op i : Nat) (st : adpcm_state) : adpcm_state :=
  let b := inbuf.getD (ip + i) 0
  adpcm_high_nibble b (op + (i * 2 + 1)) (adpcm_low_nibble b (op + i * 2) st)

/-- The loop `for (int i = 0; i < 4; ++i)` of one chunk. -/
def adpcm_chunk (inbuf : List Nat) (ip op : Nat) (st : adpcm_state) : adpcm_state :=
  (List.range 4).foldl (fun s i => adpcm_byte inbuf ip op i s) st

/-- The loop `while (chunks--)`; each round leaves `inbuf` advanced by 4 and
`outbuf` advanced by 8. -/
def adpcm_chunks (inbuf : List Nat) : Nat → Nat → Nat → adpcm_state → adpcm_state
  | 0, _, _, st => st
  | c + 1, ip, op, st => adpcm_chunks inbuf c (ip + 4) (op + 8) (adpcm_chunk inbuf ip op st)

/-- Result of `adpcm_decode_block_s8`: the returned count, the output buffer
after the call, and the history of the nibbles processed. -/
structure adpcm_result where
  samples : Int
  outbuf : List Int
  trace : List adpcm_event
deriving DecidableEq, Repr

/-- The function `adpcm_decode_block_s8(outbuf, inbuf, inbufsize)`. -/
def adpcm_decode_block_s8 (outbuf : List Int) (inbuf : List Nat) (inbufsize : Int) :
    adpcm_result :=
  if inbufsize < 4 then ⟨0, outbuf, []⟩
  else
    let pcmdata := int16_cast ((inbuf.getD 0 0 ||| (inbuf.getD 1 0 <<< 8) : Nat) : Int)
    let outbuf := outbuf.set 0 (int8_cast (pcmdata >>> (8 : Nat)))
    let index : Int := (inbuf.getD 2 0 : Nat)
    if index < 0 ∨ index > 88 ∨ inbuf.getD 3 0 ≠ 0 then ⟨0, outbuf, []⟩
    else
      let chunks := Int.tdiv (inbufsize - 4) 4
      let samples := 1 + chunks * 8
      let st := adpcm_chunks inbuf chunks.toNat 4 1 ⟨pcmdata, index, outbuf, []⟩
      ⟨samples, st.outbuf, st.trace⟩

/-! ### Reference recurrence of the decoder (from the specification's wording) -/

/-- Reference: `clamp(x, lo, hi)`. -/
def spec_clamp (x lo hi : Int) : Int := max lo (min x hi)

/-- Reference: `delta = (step>>3) + (step>>2 if bit 0) + (step>>1 if bit 1) +
(step if bit 2)`, negated when bit 3 of the nibble is set. -/
def spec_delta (step : Int) (nibble : Nat) : Int :=
  let d := (step >>> (3 : Nat)) + (if nibble.testBit 0 then step >>> (2 : Nat) else 0)
    + (if nibble.testBit 1 then step >>> (1 : Nat) else 0)
    + (if nibble.testBit 2 then step else 0)
  if nibble.testBit 3 then -d else d

/-- Reference: one nibble takes `(acc, index)` to
`(clamp(acc + delta, -32768, 32767), clamp(index + index_table[nibble & 7], 0, 88))`
with `step = step_table[index]`. -/
def spec_nibble (acc index : Int) (nibble : Nat) : Int × Int :=
  (spec_clamp (acc + spec_delta (step_table.getD index.toNat 0) nibble) (-32768) 32767,
   spec_clamp (index + index_table.getD (nibble % 8) 0) 0 88)

/-- Reference: the samples emitted for a sequence of nibbles, `acc >> 8` after
each one. -/
def spec_samples : Int → Int → List Nat → List Int
  | _, _, [] => []
  | acc, index, nibble :: rest =>
    ((spec_nibble acc index nibble).1 >>> (8 : Nat)) ::
      spec_samples (spec_nibble acc index nibble).1 (spec_nibble acc index nibble).2 rest

/-- Reference: the accumulator and the step index after a sequence of nibbles. -/
def spec_state : Int → Int → List Nat → Int × Int
  | acc, index, [] => (acc, index)
  | acc, index, nibble :: rest =>
    spec_state (spec_nibble acc index nibble).1 (spec_nibble acc index nibble).2 rest

/-- Reference: accumulator, step index and emitted sample after each nibble of
a sequence. -/
def spec_events : Int → Int → List Nat → List adpcm_event
  | _, _, [] => []
  | acc, index, nibble :: rest =>
    ⟨(spec_nibble acc index nibble).1, (spec_nibble acc index nibble).2,
      (spec_nibble acc index nibble).1 >>> (8 : Nat)⟩ ::
      spec_events (spec_nibble acc index nibble).1 (spec_nibble acc index nibble).2 rest

/-- Reference: the nibbles of the data bytes, low nibble first and high nibble
second. -/
def spec_nibbles : List Nat → List Nat
  | [] => []
  | b :: rest => (b % 16) :: (b / 16 % 16) :: spec_nibbles rest

/-- Reference: the little-endian signed 16-bit value of two bytes. -/
def spec_seed (b0 b1 : Nat) : Int :=
  if b0 + 256 * b1 < 32768 then ((b0 + 256 * b1 : Nat) : Int)
  else ((b0 + 256 * b1 : Nat) : Int) - 65536

/-- Reference: sample 0 is the seed shifted right by 8, followed by the samples
of the nibbles of the given data bytes, starting from the seed and the
header's step index. -/
def spec_decode (b0 b1 b2 : Nat) (data : List Nat) : List Int :=
  (spec_seed b0 b1 >>> (8 : Nat)) :: spec_samples (spec_seed b0 b1) (b2 : Int) (spec_nibbles data)

/-- The loop state `st` is what the reference recurrence gives from the state
`st0` after the nibbles `nibs`, the samples being stored from index `p` of
the output buffer on. -/
def Decoded (st0 st : adpcm_state) (p : Nat) (nibs : List Nat) : Prop :=
  st.pcmdata = (spec_state st0.pcmdata st0.index nibs).1 ∧
  st.index = (spec_state st0.pcmdata st0.index nibs).2 ∧
  st.outbuf.length = st0.outbuf.length ∧
  st.outbuf.take (p + nibs.length) = st0.outbuf.take p ++ spec_samples st0.pcmdata st0.index nibs ∧
  st.outbuf.drop (p + nibs.length) = st0.outbuf.drop (p + nibs.length) ∧
  st.trace = st0.trace ++ spec_events st0.pcmdata st0.index nibs

/-- The bounds on one record of the decoder's history: accumulator in
`[-32768, 32767]`, step index in `[0, 88]` and inside `step_table`, emitted
sample in `[-128, 127]` and equal to the accumulator shifted right by 8. -/
def adpcm_event_ok (e : adpcm_event) : Prop :=
  (-32768 ≤ e.pcmdata ∧ e.pcmdata ≤ 32767) ∧
  (0 ≤ e.index ∧ e.index ≤ 88 ∧ e.index.toNat < step_table.length) ∧
  (-128 ≤ e.sample ∧ e.sample ≤ 127) ∧ e.sample = e.pcmdata >>> (8 : Nat)

/-- Loop invariant of the decoder: the step index is in `[0, 88]`, every
record of the history is within bounds, and every entry of the output buffer
is either the entry of the buffer `orig` passed in or lies in `[-128, 127]`. -/
def DecInv (orig : List Int) (st : adpcm_state) : Prop :=
  (0 ≤ st.index ∧ st.index ≤ 88) ∧ (∀ e ∈ st.trace, adpcm_event_ok e) ∧
  (∀ i : Nat, st.outbuf.getD i 0 = orig.getD i 0 ∨
    (-128 ≤ st.outbuf.getD i 0 ∧ st.outbuf.getD i 0 ≤ 127))

/-! ## Channels -/

/-- The constant `ADPCM_BLOCK_SIZE`. -/
def ADPCM_BLOCK_SIZE : Int := 128

/-- The constant `ADPCM_SAMPLES_PER_BLOCK_SIZE`. -/
def ADPCM_SAMPLES_PER_BLOCK_SIZE : Nat := 249

/-- The record `struct channel_s`. The pointers `data` and `data_end` are
indices into the memory `mem` they point into. -/
structure pico_channel_t where
  mem : List Nat
  data : Int
  data_end : Int
  offset : Nat
  step : Nat
  left : Nat
  right : Nat
  decompressed_size : Nat
  is_adpcm : Bool
  alpha256 : Nat
  decompressed : List Int
deriving DecidableEq, Repr

/-- The copy loop of the raw branch of `decompress_buffer`:
`decompressed[i] = (int8_t)src[i]` for `i < block_size`. -/
def raw_copy (src : List Nat) (block_size : Nat) (decompressed : List Int) : List Int :=
  (List.range block_size).foldl (fun d i => d.set i (int8_cast (src.getD i 0))) decompressed

/-- The function `decompress_buffer(channel)`. -/
def decompress_buffer (channel : pico_channel_t) : pico_channel_t :=
  if channel.data = channel.data_end then
    { channel with decompressed_size := 0 }
  else if channel.is_adpcm then
    let block_size := min ADPCM_BLOCK_SIZE (channel.data_end - channel.data)
    let r := adpcm_decode_block_s8 channel.decompressed
      (channel.mem.drop channel.data.toNat) block_size
    { channel with
      decompressed_size := uint8_cast r.samples
      decompressed := r.outbuf
      data := channel.data + block_size }
  else
    let block_size := min (ADPCM_SAMPLES_PER_BLOCK_SIZE : Int) (channel.data_end - channel.data)
    { channel with
      decompressed_size := uint8_cast block_size
      decompressed := raw_copy (channel.mem.drop channel.data.toNat) block_size.toNat
        channel.decompressed
      data := channel.data + block_size }

/-! ## Asset collaborator -/

/-- The record `sfxinfo_t`, reduced to the fields the sound code reads. -/
inductive sfxinfo_t where
  | mk (name : String) (lumpnum : Int) (link : Option sfxinfo_t)

/-- Field `name` of an `sfxinfo_t`. -/
def sfxinfo_t.name : sfxinfo_t → String
  | .mk n _ _ => n

/-- Field `lumpnum` of an `sfxinfo_t`. -/
def sfxinfo_t.lumpnum : sfxinfo_t → Int
  | .mk _ l _ => l

/-- Field `link` of an `sfxinfo_t`. -/
def sfxinfo_t.link : sfxinfo_t → Option sfxinfo_t
  | .mk _ _ l => l

/-- Modelled from the spec: the asset collaborator (`W_GetNumForName`,
`W_LumpLength`, `W_CacheLumpNum`, `DEH_String`), which is not part of the
translated file. Given a lump name it answers a lump number or a negative
miss signal; given a lump number it returns a read-only byte span and its
length. -/
structure wad_t where
  W_GetNumForName : String → Int
  lump : Int → List Nat
  DEH_String : String → String

/-- Modelled from the spec: `W_LumpLength`, the length of the span. -/
def wad_t.W_LumpLength (wad : wad_t) (lumpnum : Int) : Int := ((wad.lump lumpnum).length : Int)

/-- Modelled from the spec: `W_CacheLumpNum`, the span itself. -/
def wad_t.W_CacheLumpNum (wad : wad_t) (lumpnum : Int) : List Nat := wad.lump lumpnum

/-- The function `base_sfxinfo(sfx)` (for a non-null `sfx`). -/
def base_sfxinfo (sfx : sfxinfo_t) : sfxinfo_t :=
  match sfx.link with
  | some l => l
  | none => sfx

/-- The function `GetSfxLumpName(sfx, buf, buf_len)`, as the string left in
`buf` (at most `buf_len - 1` characters). -/
def GetSfxLumpName (wad : wad_t) ( use_sfx_prefix : Bool) (sfx : sfxinfo_t) (buf_len : Nat) :
    String :=
  let sfx := match sfx.link with
    | some l => l
    | none => sfx
  if use_sfx_prefix then
    ("ds" ++ wad.DEH_String sfx.name).take (buf_len - 1)
  else
    (wad.DEH_String sfx.name).take (buf_len - 1)

/-! ## Starting a sound -/

/-- The function `read_le16(p)`, reading at index `o` of the buffer. -/
def read_le16 (p : List Nat) (o : Nat) : Nat :=
  (p.getD o 0 ||| (p.getD (o + 1) 0 <<< 8)) % 65536

/-- The function `read_le32(p)`, reading at index `o` of the buffer. -/
def read_le32 (p : List Nat) (o : Nat) : Nat :=
  (p.getD o 0 ||| (p.getD (o + 1) 0 <<< 8) ||| (p.getD (o + 2) 0 <<< 16)
    ||| (p.getD (o + 3) 0 <<< 24)) % 4294967296

/-- Constants of `i_picosound.h`, which is not part of the translated file:
the output rate `PICO_SOUND_SAMPLE_FREQ` and the pitch `NORM_PITCH`. -/
structure config_t where
  PICO_SOUND_SAMPLE_FREQ : Int
  NORM_PITCH : Int

/-- The variable `lumpnum` of `init_channel_for_sfx` when `W_LumpLength` is
reached or the function has returned for `lumpnum < 0`: the cached
`base->lumpnum`, or the answer of `W_GetNumForName` when that is negative. -/
def sfx_lumpnum (wad : wad_t) ( use_sfx_prefix : Bool) (sfxinfo : sfxinfo_t) : Int :=
  let base := base_sfxinfo sfxinfo
  let lumpnum := base.lumpnum
  if lumpnum < 0 then
    wad.W_GetNumForName (GetSfxLumpName wad use_sfx_prefix base 9)
  else lumpnum

/-- The variable `payload_length` of `init_channel_for_sfx` when it is tested
against 0 (lines `int payload_length = lumplen - 8;` to the end of the `if`
that follows). -/
def sfx_payload_length (lumplen : Int) (declared_length : Nat) : Int :=
  let payload_length := lumplen - 8
  if declared_length ≠ 0 ∧ declared_length < uint32_cast payload_length then
    int32_cast (declared_length : Int)
  else payload_length

/-- The value stored in `ch->step` by `init_channel_for_sfx`. -/
def sfx_step (cfg : config_t) (sample_freq : Nat) (pitch : Int) : Nat :=
  if pitch = cfg.NORM_PITCH then
    uint32_cast ((uint32_cast ((sample_freq : Int) * 65536) : Int) /
      (uint32_cast cfg.PICO_SOUND_SAMPLE_FREQ : Int))
  else
    uint32_cast ((((uint32_cast ((sample_freq : Int) * pitch) * 65536 % 18446744073709551616 : Nat) : Int)) /
      (int32_cast (cfg.PICO_SOUND_SAMPLE_FREQ * pitch) % 18446744073709551616))

/-- The value stored in `ch->alpha256` by `init_channel_for_sfx`. -/
def sfx_alpha256 (cfg : config_t) (sample_freq : Nat) : Nat :=
  uint8_cast ((uint32_cast (256 * 201 * (sample_freq : Int)) : Int) /
    (uint32_cast (201 * (sample_freq : Int)
      + (uint32_cast (64 * (uint32_cast cfg.PICO_SOUND_SAMPLE_FREQ : Int)) : Int)) : Int))

/-- The function `init_channel_for_sfx(ch, sfxinfo, pitch)`: the returned
boolean and the channel afterwards. -/
def init_channel_for_sfx (cfg : config_t) (wad : wad_t) ( use_sfx_prefix : Bool)
    (ch : pico_channel_t) (sfxinfo : sfxinfo_t) (pitch : Int) : Bool × pico_channel_t :=
  let lumpnum := sfx_lumpnum wad use_sfx_prefix sfxinfo
  if lumpnum < 0 then (false, ch)
  else
    let lumplen := wad.W_LumpLength lumpnum
    let data := wad.W_CacheLumpNum lumpnum
    if lumplen < 8 then (false, ch)
    else
      let format := read_le16 data 0
      let is_adpcm := decide (format = 0x8003)
      let ch := { ch with is_adpcm := is_adpcm }
      let declared_length := read_le32 data 4
      let payload_length := sfx_payload_length lumplen declared_length
      if payload_length ≤ 0 then (false, ch)
      else
        let ch := { ch with mem := data, data := 8, data_end := 8 + payload_length }
        let sample_freq := read_le16 data 2
        let ch := { ch with step := sfx_step cfg sample_freq pitch }
        let ch := decompress_buffer ch
        let ch := { ch with offset := 0 }
        let ch := { ch with alpha256 := sfx_alpha256 cfg sample_freq }
        (true, ch)

/-! ## Module state and the channel operations -/

/-- The enumeration of `fade_state`. -/
inductive fade_state_t where
  | FS_NONE
  | FS_FADE_OUT
  | FS_FADE_IN
  | FS_SILENT
deriving DecidableEq, Repr

/-- The record `audio_buffer_t`, reduced to what the mixer touches:
`buffer->bytes` viewed as interleaved `int16_t` samples, `max_sample_count`
and `sample_count`. -/
structure audio_buffer_t where
  samples : List Int
  max_sample_count : Nat
  sample_count : Nat
deriving DecidableEq, Repr

/-- The file-scope variables of `i_picosound.c`. The array `channels` is a
list; its length is `NUM_SOUND_CHANNELS`. -/
structure sound_t where
  sound_initialized : Bool
  use_sfx_prefix : Bool
  channels : List pico_channel_t
  fade_state : fade_state_t
  fade_level : Nat
  music_generator : Option (audio_buffer_t → audio_buffer_t)

/-- The constant `NUM_SOUND_CHANNELS`: the size of the array `channels`. -/
def NUM_SOUND_CHANNELS (g : sound_t) : Nat := g.channels.length

/-- The channel record every channel starts from (zero-initialised static
storage); also the value read for an index outside the array in the model. -/
def pico_channel_t.zero : pico_channel_t :=
  { mem := [], data := 0, data_end := 0, offset := 0, step := 0, left := 0, right := 0,
    decompressed_size := 0, is_adpcm := false, alpha256 := 0,
    decompressed := List.replicate ADPCM_SAMPLES_PER_BLOCK_SIZE 0 }

/-- The element `channels[channel]`. -/
def get_channel (g : sound_t) (channel : Int) : pico_channel_t :=
  g.channels.getD channel.toNat pico_channel_t.zero

/-- The state after an assignment to `channels[channel]`. -/
def set_channel (g : sound_t) (channel : Int) (ch : pico_channel_t) : sound_t :=
  { g with channels := g.channels.set channel.toNat ch }

/-- The function `is_channel_playing(channel)`. -/
def is_channel_playing (g : sound_t) (channel : Int) : Bool :=
  decide ((get_channel g channel).decompressed_size ≠ 0)

/-- The function `stop_channel(channel)`. -/
def stop_channel (g : sound_t) (channel : Int) : sound_t :=
  set_channel g channel { get_channel g channel with decompressed_size := 0 }

/-- The function `check_and_init_channel(channel)`. -/
def check_and_init_channel (g : sound_t) (channel : Int) : Bool :=
  g.sound_initialized && decide (uint32_cast channel < NUM_SOUND_CHANNELS g)

/-- The value that `I_Pico_UpdateSoundParams` stores in `channels[handle].left`
for the arguments `vol` and `sep`; the difference and the product are 32-bit
`int` operations. -/
def params_left (vol sep : Int) : Nat :=
  let left := Int.tdiv (int32_cast (int32_cast (254 - sep) * vol)) 127
  let left := Int.tdiv left 4
  let left := if left < 0 then 0 else if left > 255 then 255 else left
  uint8_cast left

/-- The value that `I_Pico_UpdateSoundParams` stores in
`channels[handle].right` for the arguments `vol` and `sep`; the product is a
32-bit `int` operation. -/
def params_right (vol sep : Int) : Nat :=
  let right := Int.tdiv (int32_cast (sep * vol)) 127
  let right := Int.tdiv right 4
  let right := if right < 0 then 0 else if right > 255 then 255 else right
  uint8_cast right

/-- The function `I_Pico_UpdateSoundParams(handle, vol, sep)`. -/
def I_Pico_UpdateSoundParams (g : sound_t) (handle vol sep : Int) : sound_t :=
  if !g.sound_initialized ∨ handle < 0 ∨ handle ≥ (NUM_SOUND_CHANNELS g : Int) then g
  else
    let left := Int.tdiv (int32_cast (int32_cast (254 - sep) * vol)) 127
    let right := Int.tdiv (int32_cast (sep * vol)) 127
    let left := Int.tdiv left 4
    let right := Int.tdiv right 4
    let left := if left < 0 then 0 else if left > 255 then 255 else left
    let right := if right < 0 then 0 else if right > 255 then 255 else right
    let g := set_channel g handle { get_channel g handle with left := uint8_cast left }
    set_channel g handle { get_channel g handle with right := uint8_cast right }

/-- The function `I_Pico_StartSound(sfxinfo, channel, vol, sep, pitch)`: the
returned value and the module state afterwards. -/
def I_Pico_StartSound (cfg : config_t) (wad : wad_t) (g : sound_t) (sfxinfo : sfxinfo_t)
    (channel vol sep pitch : Int) : Int × sound_t :=
  if !check_and_init_channel g channel then (-1, g)
  else
    let g := stop_channel g channel
    let r := init_channel_for_sfx cfg wad g.use_sfx_prefix (get_channel g channel) sfxinfo pitch
    let g := set_channel g channel r.2
    let g := I_Pico_UpdateSoundParams g channel vol sep
    (channel, g)

/-- The function `I_Pico_StopSound(channel)`. -/
def I_Pico_StopSound (g : sound_t) (channel : Int) : sound_t :=
  if check_and_init_channel g channel then stop_channel g channel else g

/-- The function `I_Pico_SoundIsPlaying(channel)`. -/
def I_Pico_SoundIsPlaying (g : sound_t) (channel : Int) : Bool :=
  if !check_and_init_channel g channel then false else is_channel_playing g channel

/-! ## Mixer -/

/-- The function `clamp_s16(v)`. -/
def clamp_s16 (v : Int) : Int :=
  if v > 32767 then int16_cast 32767
  else if v < -32768 then int16_cast (-32768)
  else int16_cast v

/-- Local state of the sample loop of `mix_audio_buffer` for one channel: the
channel record, the buffer, the variables `sample` and `offset_end`, and
whether the loop was left through `break`. -/
structure mix_state where
  channel : pico_channel_t
  samples : List Int
  sample : Int
  offset_end : Nat
  stopped : Bool
deriving DecidableEq, Repr

/-- One iteration of `for(int s=0;s<buffer->max_sample_count;s++)` (with
`SOUND_LOW_PASS` set), at slot `s`. -/
def mix_slot (voll volr alpha256 beta256 : Int) (s : Nat) (m : mix_state) : mix_state :=
  let sample := Int.tdiv
    (beta256 * m.sample + alpha256 * m.channel.decompressed.getD (m.channel.offset >>> 16) 0) 256
  let mixed_left := m.samples.getD (2 * s) 0
  let mixed_left := int32_cast (mixed_left + int32_cast (sample * voll))
  let samples := m.samples.set (2 * s) (clamp_s16 mixed_left)
  let mixed_right := samples.getD (2 * s + 1) 0
  let mixed_right := int32_cast (mixed_right + int32_cast (sample * volr))
  let samples := samples.set (2 * s + 1) (clamp_s16 mixed_right)
  let channel := { m.channel with offset := uint32_cast (m.channel.offset + m.channel.step) }
  if channel.offset ≥ m.offset_end then
    let channel := { channel with offset := uint32_cast ((channel.offset : Int) - m.offset_end) }
    let channel := decompress_buffer channel
    let offset_end := uint32_cast ((channel.decompressed_size : Int) * 65536)
    if channel.offset ≥ offset_end then
      { channel := { channel with decompressed_size := 0 }, samples := samples,
        sample := sample, offset_end := offset_end, stopped := true }
    else
      { channel := channel, samples := samples, sample := sample, offset_end := offset_end,
        stopped := false }
  else
    { channel := channel, samples := samples, sample := sample, offset_end := m.offset_end,
      stopped := false }

/-- The first `n` iterations of the sample loop from slot `s` on; the loop
ends early at a `break`. -/
def mix_slots (voll volr alpha256 beta256 : Int) : Nat → Nat → mix_state → mix_state
  | 0, _, m => m
  | n + 1, s, m =>
    if (mix_slot voll volr alpha256 beta256 s m).stopped then
      mix_slot voll volr alpha256 beta256 s m
    else mix_slots voll volr alpha256 beta256 n (s + 1) (mix_slot voll volr alpha256 beta256 s m)

/-- The state in which the sample loop of a playing channel is entered. -/
def mix_enter (channel : pico_channel_t) (samples : List Int) : mix_state :=
  { channel := channel, samples := samples,
    sample := channel.decompressed.getD (channel.offset >>> 16) 0,
    offset_end := uint32_cast ((channel.decompressed_size : Int) * 65536),
    stopped := false }

/-- The first `n` sample slots of the pass of one playing channel over the
buffer. -/
def mix_channel_slots (n : Nat) (channel : pico_channel_t) (samples : List Int) : mix_state :=
  mix_slots (channel.left : Int) (channel.right : Int) (channel.alpha256 : Int)
    (256 - (channel.alpha256 : Int)) n 0 (mix_enter channel samples)

/-- The body of `for(int ch=0; ch < NUM_SOUND_CHANNELS; ch++)` for one
channel: the channel and the buffer afterwards. -/
def mix_channel (max_sample_count : Nat) (channel : pico_channel_t) (samples : List Int) :
    pico_channel_t × List Int :=
  if channel.decompressed_size = 0 then (channel, samples)
  else
    ((mix_channel_slots max_sample_count channel samples).channel,
     (mix_channel_slots max_sample_count channel samples).samples)

/-- The loop `for(int ch=0; ch < NUM_SOUND_CHANNELS; ch++)`, over the channels
in array order: the channels and the buffer afterwards. -/
def mix_channels (max_sample_count : Nat) :
    List pico_channel_t → List Int → List pico_channel_t × List Int
  | [], samples => ([], samples)
  | channel :: rest, samples =>
    ((mix_channel max_sample_count channel samples).1 ::
      (mix_channels max_sample_count rest (mix_channel max_sample_count channel samples).2).1,
     (mix_channels max_sample_count rest (mix_channel max_sample_count channel samples).2).2)

/-- Every entry of an `int8_t` buffer lies in `[-128, 127]`. -/
def int8_buffer (l : List Int) : Prop := ∀ x ∈ l, -128 ≤ x ∧ x ≤ 127

/-- Every entry of an `int16_t` buffer lies in `[-32768, 32767]`. -/
def int16_buffer (l : List Int) : Prop := ∀ x ∈ l, -32768 ≤ x ∧ x ≤ 32767

/-- The ranges that the field types of `struct channel_s` impose: `left`,
`right`, `alpha256` and `decompressed_size` are `uint8_t`, the entries of
`decompressed` are `int8_t`. -/
def channel_typed (ch : pico_channel_t) : Prop :=
  ch.left < 256 ∧ ch.right < 256 ∧ ch.alpha256 < 256 ∧ ch.decompressed_size < 256 ∧
  int8_buffer ch.decompressed

/-- Loop invariant of the sample loop for the ranges: the channel is well
typed, the smoothed `sample` lies in `[-128, 127]` and the buffer holds
`int16_t` values. -/
def MixInv (m : mix_state) : Prop :=
  channel_typed m.channel ∧ (-128 ≤ m.sample ∧ m.sample ≤ 127) ∧ int16_buffer m.samples

/-- Loop invariant of the sample loop for the playback position: either the
loop was left through `break` with the channel stopped, or `offset_end` is
`decompressed_size * 65536` and `offset` is below it. -/
def OffsetInv (m : mix_state) : Prop :=
  (m.stopped = true ∧ m.channel.decompressed_size = 0) ∨
  (m.stopped = false ∧ m.offset_end = m.channel.decompressed_size * 65536 ∧
    m.channel.offset < m.channel.decompressed_size * 65536)

/-! ## Concrete inputs used by the closed statements -/

/-- An asset collaborator that misses every name and returns the span `lump`
for every lump number. -/
def test_wad (lump : List Nat) : wad_t :=
  { W_GetNumForName := fun _ => -1, lump := fun _ => lump, DEH_String := fun s => s }

/-- Output rate 44100 and normal pitch 127. -/
def test_cfg : config_t := { PICO_SOUND_SAMPLE_FREQ := 44100, NORM_PITCH := 127 }

/-- A sound whose lump number 5 is already cached in the record. -/
def test_sfx : sfxinfo_t := sfxinfo_t.mk "gldhit" 5 none

/-- A sound without a cached lump number, to be resolved by name. -/
def test_sfx_unknown : sfxinfo_t := sfxinfo_t.mk "nosuch" (-1) none

/-- An initialized module state with `k` idle channels. -/
def test_sound (k : Nat) : sound_t :=
  { sound_initialized := true, use_sfx_prefix := false,
    channels := List.replicate k pico_channel_t.zero,
    fade_state := fade_state_t.FS_NONE, fade_level := 0, music_generator := none }

/-- A playing raw channel with a three-sample decoded block, full left gain
and its payload exhausted. -/
def test_channel : pico_channel_t :=
  { mem := [1, 2, 3, 4, 5, 6], data := 6, data_end := 6, offset := 0, step := 40000,
    left := 255, right := 128, decompressed_size := 3, is_adpcm := false, alpha256 := 112,
    decompressed := [127, -128, 5] }

/-- The playing channel of `test_channel` with the decode buffer at the
array's full 249 entries. -/
def test_channel_full : pico_channel_t :=
  { test_channel with decompressed := [127, -128, 5] ++ List.replicate 246 0 }

/-- A raw lump (tag 3, rate 11025, declared length 4) with four payload
bytes. -/
def test_lump_raw : List Nat := [3, 0, 0x11, 0x2b, 4, 0, 0, 0, 128, 255, 0, 64]

/-- An initialized module state whose channel 1 of two is playing. -/
def test_sound_playing : sound_t :=
  { sound_initialized := true, use_sfx_prefix := false,
    channels := [pico_channel_t.zero, test_channel],
    fade_state := fade_state_t.FS_NONE, fade_level := 0, music_generator := none }

/-- An ADPCM lump (tag 0x8003, rate 11025, declared length 8) whose first
block has a nonzero reserved byte. -/
def test_lump_reserved : List Nat := [0x03, 0x80, 0x11, 0x2b, 8, 0, 0, 0, 0, 0, 10, 1, 0, 0, 0, 0]

/-- An output buffer of `k` sample pairs, all zero. -/
def test_buffer (k : Nat) : audio_buffer_t :=
  { samples := List.replicate (2 * k) 0, max_sample_count := k, sample_count := 0 }

/-- The lump of the scenario: tag 0x8003, rate 11025, declared length 100,
followed by 96 payload bytes (104 bytes in all). -/
def test_lump_adpcm : List Nat := [0x03, 0x80, 0x11, 0x2b, 100, 0, 0, 0] ++ List.replicate 96 0

/-! ## Fade stage and the whole mix pass -/

/-- The constant `FADE_STEP`. -/
def FADE_STEP : Int := 8

/-- The loop `for(i=0;i<buffer->sample_count * 2 && fade_level;i+=2)` of the
fade stage, with `limit = sample_count * 2`: the buffer, `fade_level` and `i`
when the loop is left. The first argument bounds the number of rounds. -/
def fade_loop (fade_step : Int) (limit : Nat) :
    Nat → Nat → List Int → Nat → List Int × Nat × Nat
  | 0, i, samples, fade_level => (samples, fade_level, i)
  | fuel + 1, i, samples, fade_level =>
    if i < limit ∧ fade_level ≠ 0 then
      let samples := samples.set i
        (int16_cast ((samples.getD i 0 * (fade_level : Int)) >>> (16 : Nat)))
      let samples := samples.set (i + 1)
        (int16_cast ((samples.getD (i + 1) 0 * (fade_level : Int)) >>> (16 : Nat)))
      fade_loop fade_step limit fuel (i + 2) samples
        (uint16_cast ((fade_level : Int) + fade_step))
    else (samples, fade_level, i)

/-- The loop `for(;i<buffer->sample_count * 2;i++) samples[i] = 0;`. -/
def fade_zero_rest (limit : Nat) (i : Nat) (samples : List Int) : List Int :=
  (List.range (limit - i)).foldl (fun d k => d.set (i + k) 0) samples

/-- The fade stage of `mix_audio_buffer` (from `if (fade_state == FS_SILENT)`
on): the fade state, the fade level and the buffer samples afterwards. -/
def fade_stage (fade_state : fade_state_t) (fade_level : Nat) (sample_count : Nat)
    (samples : List Int) : fade_state_t × Nat × List Int :=
  if fade_state = fade_state_t.FS_SILENT then
    (fade_state, fade_level, List.replicate samples.length 0)
  else if fade_state ≠ fade_state_t.FS_NONE then
    let fade_step := if fade_state = fade_state_t.FS_FADE_IN then FADE_STEP else -FADE_STEP
    let r := fade_loop fade_step (sample_count * 2) sample_count 0 samples fade_level
    if r.2.1 = 0 then
      if fade_state = fade_state_t.FS_FADE_OUT then
        (fade_state_t.FS_SILENT, r.2.1, fade_zero_rest (sample_count * 2) r.2.2 r.1)
      else (fade_state_t.FS_NONE, r.2.1, r.1)
    else (fade_state, r.2.1, r.1)
  else (fade_state, fade_level, samples)

/-- The function `mix_audio_buffer(buffer)`: the module state and the buffer
handed to `give_audio_buffer`. -/
def mix_audio_buffer (g : sound_t) (buffer : audio_buffer_t) : sound_t × audio_buffer_t :=
  let buffer := match g.music_generator with
    | some generator => generator buffer
    | none => { buffer with samples := List.replicate buffer.samples.length 0 }
  let mixed := mix_channels buffer.max_sample_count g.channels buffer.samples
  let buffer := { buffer with samples := mixed.2, sample_count := buffer.max_sample_count }
  let faded := fade_stage g.fade_state g.fade_level buffer.sample_count buffer.samples
  ({ g with channels := mixed.1, fade_state := faded.1, fade_level := faded.2.1 },
   { buffer with samples := faded.2.2 })

/-- The function `I_PicoSoundFade(in)`. -/
def I_PicoSoundFade (g : sound_t) (fade_in : Bool) : sound_t :=
  { g with
    fade_state := if fade_in then fade_state_t.FS_FADE_IN else fade_state_t.FS_FADE_OUT
    fade_level := if fade_in then uint16_cast FADE_STEP else uint16_cast (0x10000 - FADE_STEP) }

/-- The function `I_PicoSoundFading()`. -/
def I_PicoSoundFading (g : sound_t) : Bool :=
  decide (g.fade_state = fade_state_t.FS_FADE_IN ∨ g.fade_state = fade_state_t.FS_FADE_OUT)

/-! ## Assertions

The state functions above do not execute `assert`. The functions of this
section give, for one call, whether the expressions it asserts hold. -/

/-- The value of the expression asserted by `decompress_buffer(channel)`,
`channel->decompressed_size && channel->decompressed_size <=
sizeof(channel->decompressed)`, evaluated after the block has been decoded;
`true` when the call asserts nothing (`data == data_end`). -/
def decompress_buffer_assert (channel : pico_channel_t) : Bool :=
  if channel.data = channel.data_end then true
  else
    decide ((decompress_buffer channel).decompressed_size ≠ 0 ∧
      (decompress_buffer channel).decompressed_size ≤ ADPCM_SAMPLES_PER_BLOCK_SIZE)

/-- Whether the assertions evaluated during
`init_channel_for_sfx(ch, sfxinfo, pitch)` hold: none is evaluated when
validation fails, otherwise the one of the call `decompress_buffer(ch)`. -/
def init_channel_for_sfx_assert (cfg : config_t) (wad : wad_t) ( use_sfx_prefix : Bool)
    (ch : pico_channel_t) (sfxinfo : sfxinfo_t) (pitch : Int) : Bool :=
  let lumpnum := sfx_lumpnum wad use_sfx_prefix sfxinfo
  if lumpnum < 0 then true
  else
    let lumplen := wad.W_LumpLength lumpnum
    let data := wad.W_CacheLumpNum lumpnum
    if lumplen < 8 then true
    else
      let format := read_le16 data 0
      let is_adpcm := decide (format = 0x8003)
      let ch := { ch with is_adpcm := is_adpcm }
      let declared_length := read_le32 data 4
      let payload_length := sfx_payload_length lumplen declared_length
      if payload_length ≤ 0 then true
      else
        let ch := { ch with mem := data, data := 8, data_end := 8 + payload_length }
        let sample_freq := read_le16 data 2
        let ch := { ch with step := sfx_step cfg sample_freq pitch }
        decompress_buffer_assert ch

/-- Whether the assertions evaluated during
`I_Pico_StartSound(sfxinfo, channel, vol, sep, pitch)` hold: those of
`init_channel_for_sfx` and, when it returns false,
`assert(!is_channel_playing(channel))`. -/
def I_Pico_StartSound_assert (cfg : config_t) (wad : wad_t) (g : sound_t) (sfxinfo : sfxinfo_t)
    (channel pitch : Int) : Bool :=
  if !check_and_init_channel g channel then true
  else
    let g := stop_channel g channel
    let r := init_channel_for_sfx cfg wad g.use_sfx_prefix (get_channel g channel) sfxinfo pitch
    let a := init_channel_for_sfx_assert cfg wad g.use_sfx_prefix (get_channel g channel)
      sfxinfo pitch
    let g := set_channel g channel r.2
    a && (if !r.1 then !is_channel_playing g channel else true)

/-! ## Gains (from the specification's wording) -/

/-- Reference: `left = clamp(((254-sep)*vol)/127 / 4, 0, 255)`, with C
(truncating) division. -/
def spec_left (vol sep : Int) : Int :=
  spec_clamp (Int.tdiv (Int.tdiv ((254 - sep) * vol) 127) 4) 0 255

/-- Reference: `right = clamp((sep*vol)/127 / 4, 0, 255)`, with C
(truncating) division. -/
def spec_right (vol sep : Int) : Int :=
  spec_clamp (Int.tdiv (Int.tdiv (sep * vol) 127) 4) 0 255

/-! ## Buffer exchange -/

/-- The first stage of `mix_audio_buffer`: the buffer after the music
generator has been called on it or, without a generator, after `memset`. -/
def mix_base (g : sound_t) (buffer : audio_buffer_t) : audio_buffer_t :=
  match g.music_generator with
  | some generator => generator buffer
  | none => { buffer with samples := List.replicate buffer.samples.length 0 }

/-- Modelled from the spec: the hardware audio sink's buffer pool
(`take_audio_buffer`, `give_audio_buffer`), which is not part of the
translated file. `takes` holds the answers the non-blocking take will give,
in order (`none` is "none available", as is an exhausted list); `given`
holds the buffers handed back, in order. -/
structure audio_pool_t where
  takes : List (Option audio_buffer_t)
  given : List audio_buffer_t

/-- The loop `while ((buffer = take_audio_buffer(producer_pool, false)) !=
NULL) { mixed = true; mix_audio_buffer(buffer); }` of `I_Pico_UpdateSound`,
over the answers of the take still to come; `mix_audio_buffer` ends by giving
the buffer back. -/
def I_Pico_UpdateSound_loop :
    List (Option audio_buffer_t) → sound_t → List audio_buffer_t → sound_t × audio_pool_t
  | [], g, given => (g, { takes := [], given := given })
  | none :: rest, g, given => (g, { takes := rest, given := given })
  | some buffer :: rest, g, given =>
    I_Pico_UpdateSound_loop rest (mix_audio_buffer g buffer).1
      (given ++ [(mix_audio_buffer g buffer).2])

/-- The function `I_Pico_UpdateSound()`: the module state and the pool
afterwards. -/
def I_Pico_UpdateSound (g : sound_t) (pool : audio_pool_t) : sound_t × audio_pool_t :=
  if !g.sound_initialized then (g, pool)
  else I_Pico_UpdateSound_loop pool.takes g pool.given

/-- Reference: the buffers the take yields before its first "none
available" answer. -/
def spec_taken : List (Option audio_buffer_t) → List audio_buffer_t
  | some buffer :: rest => buffer :: spec_taken rest
  | _ => []

/-- Reference: one full mix per buffer, in order: the module state
afterwards and the mixed buffers. -/
def spec_mix_all (g : sound_t) : List audio_buffer_t → sound_t × List audio_buffer_t
  | [] => (g, [])
  | buffer :: rest =>
    ((spec_mix_all (mix_audio_buffer g buffer).1 rest).1,
     (mix_audio_buffer g buffer).2 :: (spec_mix_all (mix_audio_buffer g buffer).1 rest).2)

/-- The module state after the mix passes over the buffers `bs`, in order. -/
def mix_passes (g : sound_t) (bs : List audio_buffer_t) : sound_t :=
  bs.foldl (fun s b => (mix_audio_buffer s b).1) g

/-- The number of sample pairs the fade stage of the pass over `b` is given:
`sample_count` after it has been set to `max_sample_count`. -/
def pass_pairs (g : sound_t) (b : audio_buffer_t) : Nat := (mix_base g b).max_sample_count

/-! ## Vocabulary for the independence of a started channel from its past -/

/-- The data bytes the `c` rounds of `while (chunks--)` read from index `ip`
of `inbuf` on (a byte outside the list reads as 0). -/
def chunk_bytes (inbuf : List Nat) : Nat → Nat → List Nat
  | _, 0 => []
  | ip, c + 1 =>
    inbuf.getD ip 0 :: inbuf.getD (ip + 1) 0 :: inbuf.getD (ip + 2) 0 :: inbuf.getD (ip + 3) 0 ::
      chunk_bytes inbuf (ip + 4) c

/-- The channel record at the call `decompress_buffer(ch)` of
`init_channel_for_sfx`, when validation has passed. -/
def sfx_prepared (cfg : config_t) (wad : wad_t) ( use_sfx_prefix : Bool)
    (ch : pico_channel_t) (sfxinfo : sfxinfo_t) (pitch : Int) : pico_channel_t :=
  { ch with
    is_adpcm := decide (read_le16
      (wad.W_CacheLumpNum (sfx_lumpnum wad use_sfx_prefix sfxinfo)) 0 = 0x8003)
    mem := wad.W_CacheLumpNum (sfx_lumpnum wad use_sfx_prefix sfxinfo)
    data := 8
    data_end := 8 + sfx_payload_length
      (wad.W_LumpLength (sfx_lumpnum wad use_sfx_prefix sfxinfo))
      (read_le32 (wad.W_CacheLumpNum (sfx_lumpnum wad use_sfx_prefix sfxinfo)) 4)
    step := sfx_step cfg (read_le16
      (wad.W_CacheLumpNum (sfx_lumpnum wad use_sfx_prefix sfxinfo)) 2) pitch }

/-- Two channel records agree on everything a mix pass reads: the source
span and cursor, the format, step, smoothing coefficient, gains, offset,
`decompressed_size` and the first `decompressed_size` decoded samples; their
decode buffers have the array's 249 entries and the cursor is not past the
end. -/
def SameSound (c1 c2 : pico_channel_t) : Prop :=
  c1.mem = c2.mem ∧ c1.data = c2.data ∧ c1.data_end = c2.data_end ∧
  c1.is_adpcm = c2.is_adpcm ∧ c1.step = c2.step ∧ c1.alpha256 = c2.alpha256 ∧
  c1.left = c2.left ∧ c1.right = c2.right ∧ c1.offset = c2.offset ∧
  c1.decompressed_size = c2.decompressed_size ∧
  c1.decompressed.take c1.decompressed_size = c2.decompressed.take c2.decompressed_size ∧
  c1.decompressed.length = ADPCM_SAMPLES_PER_BLOCK_SIZE ∧
  c2.decompressed.length = ADPCM_SAMPLES_PER_BLOCK_SIZE ∧
  c1.data ≤ c1.data_end

/-- The end of one iteration of the sample loop, from
`channel->offset += channel->step;` on: the channel record, `offset_end` and
whether the loop is left through `break`. -/
def mix_advance (channel : pico_channel_t) (offset_end : Nat) : pico_channel_t × Nat × Bool :=
  let channel := { channel with offset := uint32_cast (channel.offset + channel.step) }
  if channel.offset ≥ offset_end then
    let channel := { channel with offset := uint32_cast ((channel.offset : Int) - offset_end) }
    let channel := decompress_buffer channel
    let offset_end := uint32_cast ((channel.decompressed_size : Int) * 65536)
    if channel.offset ≥ offset_end then
      ({ channel with decompressed_size := 0 }, offset_end, true)
    else
      (channel, offset_end, false)
  else
    (channel, offset_end, false)

/-- A sequence of mix passes seen from one channel: each pass runs the
channel's loop body over a buffer of the given size and prior content; the
result is the channel afterwards and the buffer after each pass. -/
def mix_channel_passes (channel : pico_channel_t) :
    List (Nat × List Int) → pico_channel_t × List (List Int)
  | [] => (channel, [])
  | p :: rest =>
    ((mix_channel_passes (mix_channel p.1 channel p.2).1 rest).1,
     (mix_channel p.1 channel p.2).2 ::
       (mix_channel_passes (mix_channel p.1 channel p.2).1 rest).2)

/-- Two states of the sample loop agree on everything but the parts of the two
channel records that `SameSound` leaves open. -/
def SameMix (m1 m2 : mix_state) : Prop :=
  SameSound m1.channel m2.channel ∧ m1.samples = m2.samples ∧ m1.sample = m2.sample ∧
  m1.offset_end = m2.offset_end ∧ m1.stopped = m2.stopped

/-- The state in which a channel is between mix passes: `decompressed_size`
is an 8-bit value, and the channel is stopped or its `offset` lies inside the
decoded block. -/
def Playable (c : pico_channel_t) : Prop :=
  c.decompressed_size < 256 ∧
  (c.decompressed_size = 0 ∨ c.offset < c.decompressed_size * 65536)

/-! ## Smoothing (from the specification's wording) -/

/-- Reference: the blend as the specification writes it,
`prev*beta/256 + new*alpha/256` with `beta = 256 - alpha`, each quotient a C
(truncating) division. -/
def spec_blend (prev new alpha : Int) : Int :=
  Int.tdiv (prev * (256 - alpha)) 256 + Int.tdiv (new * alpha) 256

/-- A playing raw channel whose decoded block is the three samples 3, 2, 2,
with smoothing coefficient 100 and a step of one sample per slot. -/
def test_channel_blend : pico_channel_t :=
  { mem := [], data := 0, data_end := 0, offset := 0, step := 65536,
    left := 63, right := 63, decompressed_size := 3, is_adpcm := false, alpha256 := 100,
    decompressed := [3, 2, 2] }

/-! ## Step and smoothing coefficient (from the specification's wording) -/

/-- Reference: `floor(sourceRate * 65536 / outputRate)`. -/
def spec_step (sample_freq : Nat) (output_freq : Int) : Int :=
  (sample_freq : Int) * 65536 / output_freq

/-- Reference: `floor(256 * 201 * s / (201 * s + 64 * F))`. -/
def spec_alpha256 (sample_freq : Nat) (output_freq : Int) : Int :=
  256 * 201 * (sample_freq : Int) / (201 * (sample_freq : Int) + 64 * output_freq)

/-- Normal pitch 127 and an output rate of `2^26 + 1000`, for which
`64 * rate` does not fit in 32 bits. -/
def test_cfg_fast : config_t := { PICO_SOUND_SAMPLE_FREQ := 67109864, NORM_PITCH := 127 }

/-! ## Successive blocks of a channel -/

/-- The blocks produced by successive calls `decompress_buffer(channel)`, at
most `n` of them, up to the first call that leaves `decompressed_size = 0`:
each block is the first `decompressed_size` entries of `decompressed` after
the call. -/
def decompress_blocks : Nat → pico_channel_t → List (List Int)
  | 0, _ => []
  | n + 1, channel =>
    if (decompress_buffer channel).decompressed_size = 0 then []
    else
      (decompress_buffer channel).decompressed.take (decompress_buffer channel).decompressed_size
        :: decompress_blocks n (decompress_buffer channel)

/-- Reference: a byte reinterpreted as a signed 8-bit value (`b >= 128`
becomes `b - 256`). -/
def spec_signed (b : Nat) : Int := if b ≥ 128 then (b : Int) - 256 else b

/-- Reference: the unread payload of a channel, the bytes from the cursor to
the end in order, each reinterpreted as a signed 8-bit value. -/
def spec_payload (channel : pico_channel_t) : List Int :=
  (List.range (channel.data_end - channel.data).toNat).map
    (fun i => spec_signed (channel.mem.getD (channel.data.toNat + i) 0))

/-- A raw channel not yet decoded, with 300 payload bytes of values
`0, 1, ..., 255, 0, ..., 43` after an 8-byte header. -/
def test_channel_raw : pico_channel_t :=
  { mem := List.replicate 8 0 ++ (List.range 300).map (fun i => i % 256),
    data := 8, data_end := 308, offset := 0, step := 16384, left := 63, right := 63,
    decompressed_size := 0, is_adpcm := false, alpha256 := 112,
    decompressed := List.replicate 249 0 }

/-! ## One channel's pass on the module state -/

/-- The channel after a block boundary has been crossed in the sample loop:
`channel->offset += channel->step; channel->offset -= offset_end;
decompress_buffer(channel);`. -/
def mix_rewind (channel : pico_channel_t) (offset_end : Nat) : pico_channel_t :=
  let offset := uint32_cast ((channel.offset : Int) + channel.step)
  decompress_buffer { channel with offset := uint32_cast ((offset : Int) - offset_end) }

/-- The body of `for(int ch=0; ch < NUM_SOUND_CHANNELS; ch++)` at index `ch`,
on the module state: `continue` for a channel that is not playing, otherwise
the sample loop on `channels[ch]`. -/
def mix_channel_at (max_sample_count : Nat) (g : sound_t) (ch : Int) (samples : List Int) :
    sound_t × List Int :=
  if !is_channel_playing g ch then (g, samples)
  else
    (set_channel g ch (mix_channel_slots max_sample_count (get_channel g ch) samples).channel,
     (mix_channel_slots max_sample_count (get_channel g ch) samples).samples)

/-- The loop `for(int ch=0; ch < NUM_SOUND_CHANNELS; ch++)` on the module
state, from index `ch` for `n` indices. -/
def mix_channels_at (max_sample_count : Nat) : Nat → Int → sound_t → List Int →
    sound_t × List Int
  | 0, _, g, samples => (g, samples)
  | n + 1, ch, g, samples =>
    mix_channels_at max_sample_count n (ch + 1) (mix_channel_at max_sample_count g ch samples).1
      (mix_channel_at max_sample_count g ch samples).2

/-! ## Fade level during the ramp -/

/-- The value of `fade_level` after `q` rounds of the fade loop that started at
`fade_level`: each round performs `fade_level += fade_step` on the 16-bit
variable. -/
def fade_level_at (fade_step : Int) (fade_level : Nat) : Nat → Nat
  | 0 => fade_level
  | q + 1 => fade_level_at fade_step (uint16_cast ((fade_level : Int) + fade_step)) q

/-! ## Sequences of fade calls and mix passes -/

/-- One call that touches the fade variables: `I_PicoSoundFade(in)` or a mix
pass `mix_audio_buffer(buffer)`. -/
inductive fade_call_t where
  | fade (fade_in : Bool)
  | mix (buffer : audio_buffer_t)

/-- The module state after a sequence of `I_PicoSoundFade` calls and mix
passes, in order. -/
def fade_calls (g : sound_t) : List fade_call_t → sound_t
  | [] => g
  | fade_call_t.fade fade_in :: rest => fade_calls (I_PicoSoundFade g fade_in) rest
  | fade_call_t.mix buffer :: rest => fade_calls (mix_audio_buffer g buffer).1 rest

/-- The invariant of the fade variables at the boundaries of mix passes: the
16-bit level is a multiple of `FADE_STEP`, nonzero in `FS_FADE_IN` and
`FS_FADE_OUT`, and 0 in `FS_NONE` and `FS_SILENT`. -/
def FadeInv (g : sound_t) : Prop :=
  FADE_STEP ∣ (g.fade_level : Int) ∧ g.fade_level < 65536 ∧
  ((g.fade_state = fade_state_t.FS_FADE_IN ∨ g.fade_state = fade_state_t.FS_FADE_OUT) →
    g.fade_level ≠ 0) ∧
  ((g.fade_state = fade_state_t.FS_NONE ∨ g.fade_state = fade_state_t.FS_SILENT) →
    g.fade_level = 0)

/-! ## Divisors of the step and coefficient computations -/

/-- Whether the division that computes `ch->step` in `init_channel_for_sfx`
has a nonzero divisor: `PICO_SOUND_SAMPLE_FREQ` converted to `uint32_t` when
`pitch == NORM_PITCH`, otherwise the `int` product
`PICO_SOUND_SAMPLE_FREQ * pitch` converted to `unsigned long long`. -/
def sfx_step_defined (cfg : config_t) (pitch : Int) : Bool :=
  if pitch = cfg.NORM_PITCH then decide (uint32_cast cfg.PICO_SOUND_SAMPLE_FREQ ≠ 0)
  else decide (int32_cast (cfg.PICO_SOUND_SAMPLE_FREQ * pitch) % 18446744073709551616 ≠ 0)

/-- Whether the division that computes `ch->alpha256` in
`init_channel_for_sfx` has a nonzero divisor
`201u * sample_freq + 64u * (uint)PICO_SOUND_SAMPLE_FREQ`. -/
def sfx_alpha256_defined (cfg : config_t) (sample_freq : Nat) : Bool :=
  decide (uint32_cast (201 * (sample_freq : Int)
    + (uint32_cast (64 * (uint32_cast cfg.PICO_SOUND_SAMPLE_FREQ : Int)) : Int)) ≠ 0)

/-! ## Arithmetic and bit-level lemmas -/

theorem asr_eq_div (x : Int) (k : Nat) : x >>> k = x / ((2 ^ k : Nat) : Int) :=
  Int.shiftRight_eq_div_pow x k

theorem asr8_range (x : Int) (h1 : -32768 ≤ x) (h2 : x ≤ 32767) :
    -128 ≤ x >>> (8 : Nat) ∧ x >>> (8 : Nat) ≤ 127 := by
  rw [asr_eq_div]
  norm_num
  omega

theorem int8_cast_of_range (v : Int) (h1 : -128 ≤ v) (h2 : v ≤ 127) : int8_cast v = v := by
  unfold int8_cast
  omega

theorem int8_cast_range (v : Int) : -128 ≤ int8_cast v ∧ int8_cast v ≤ 127 := by
  unfold int8_cast
  omega

theorem int16_cast_of_range (v : Int) (h1 : -32768 ≤ v) (h2 : v ≤ 32767) :
    int16_cast v = v := by
  unfold int16_cast
  omega

theorem int16_cast_range (v : Int) : -32768 ≤ int16_cast v ∧ int16_cast v ≤ 32767 := by
  unfold int16_cast
  omega

theorem int32_cast_of_range (v : Int) (h1 : -2147483648 ≤ v) (h2 : v ≤ 2147483647) :
    int32_cast v = v := by
  unfold int32_cast
  omega

theorem CLIP_range (x lo hi : Int) (h : lo ≤ hi) : lo ≤ CLIP x lo hi ∧ CLIP x lo hi ≤ hi := by
  unfold CLIP
  split_ifs <;> omega

theorem CLIP_eq_spec_clamp (x lo hi : Int) (h : lo ≤ hi) : CLIP x lo hi = spec_clamp x lo hi := by
  unfold CLIP spec_clamp
  split_ifs <;> omega

theorem and_two_pow_ne_zero (b i : Nat) : (b &&& 2 ^ i ≠ 0) ↔ b.testBit i = true := by
  rw [Nat.and_two_pow]
  cases h : b.testBit i <;> simp

theorem testBit_low_nibble (b i : Nat) (hi : i < 4) : (b % 16).testBit i = b.testBit i := by
  rw [show (16 : Nat) = 2 ^ 4 by norm_num, Nat.testBit_mod_two_pow]
  simp [hi]

theorem testBit_high_nibble (b i : Nat) (hi : i < 4) :
    (b / 16 % 16).testBit i = b.testBit (4 + i) := by
  rw [show (16 : Nat) = 2 ^ 4 by norm_num, Nat.testBit_mod_two_pow, ← Nat.shiftRight_eq_div_pow,
    Nat.testBit_shiftRight]
  simp [hi]

theorem and7_low (b : Nat) : b &&& 7 = b % 16 % 8 := by
  rw [show (7 : Nat) = 2 ^ 3 - 1 by norm_num, Nat.and_pow_two_sub_one_eq_mod]
  omega

theorem and7_high (b : Nat) : (b >>> 4) &&& 7 = b / 16 % 16 % 8 := by
  rw [Nat.shiftRight_eq_div_pow, show (7 : Nat) = 2 ^ 3 - 1 by norm_num,
    Nat.and_pow_two_sub_one_eq_mod]
  omega

theorem le16_or_eq_add (b0 b1 : Nat) (h0 : b0 < 256) : b0 ||| (b1 <<< 8) = b0 + 256 * b1 := by
  rw [Nat.shiftLeft_eq, Nat.or_comm, Nat.mul_comm, show (2 : Nat) ^ 8 = 256 by norm_num]
  have h := Nat.mul_add_lt_is_or (i := 8) (b := b0) (by simpa using h0) b1
  rw [show (2 : Nat) ^ 8 = 256 by norm_num] at h
  omega

theorem seed_eq_spec_seed (b0 b1 : Nat) (h0 : b0 < 256) (h1 : b1 < 256) :
    int16_cast ((b0 ||| (b1 <<< 8) : Nat) : Int) = spec_seed b0 b1 := by
  rw [le16_or_eq_add b0 b1 h0]
  unfold int16_cast spec_seed
  split_ifs <;> omega

/-! ## The decoder's loop body against the reference recurrence -/

theorem low_bits (b : Nat) :
    ((b &&& 1 ≠ 0) ↔ (b % 16).testBit 0 = true) ∧ ((b &&& 2 ≠ 0) ↔ (b % 16).testBit 1 = true) ∧
    ((b &&& 4 ≠ 0) ↔ (b % 16).testBit 2 = true) ∧ ((b &&& 8 ≠ 0) ↔ (b % 16).testBit 3 = true) := by
  refine ⟨?_, ?_, ?_, ?_⟩
  · rw [testBit_low_nibble b 0 (by norm_num)]; exact and_two_pow_ne_zero b 0
  · rw [testBit_low_nibble b 1 (by norm_num)]; exact and_two_pow_ne_zero b 1
  · rw [testBit_low_nibble b 2 (by norm_num)]; exact and_two_pow_ne_zero b 2
  · rw [testBit_low_nibble b 3 (by norm_num)]; exact and_two_pow_ne_zero b 3

theorem high_bits (b : Nat) :
    ((b &&& 16 ≠ 0) ↔ (b / 16 % 16).testBit 0 = true) ∧
    ((b &&& 32 ≠ 0) ↔ (b / 16 % 16).testBit 1 = true) ∧
    ((b &&& 64 ≠ 0) ↔ (b / 16 % 16).testBit 2 = true) ∧
    ((b &&& 128 ≠ 0) ↔ (b / 16 % 16).testBit 3 = true) := by
  refine ⟨?_, ?_, ?_, ?_⟩
  · rw [testBit_high_nibble b 0 (by norm_num)]; exact and_two_pow_ne_zero b 4
  · rw [testBit_high_nibble b 1 (by norm_num)]; exact and_two_pow_ne_zero b 5
  · rw [testBit_high_nibble b 2 (by norm_num)]; exact and_two_pow_ne_zero b 6
  · rw [testBit_high_nibble b 3 (by norm_num)]; exact and_two_pow_ne_zero b 7

theorem spec_nibble_range (acc index : Int) (nibble : Nat) :
    (-32768 ≤ (spec_nibble acc index nibble).1 ∧ (spec_nibble acc index nibble).1 ≤ 32767) ∧
    (0 ≤ (spec_nibble acc index nibble).2 ∧ (spec_nibble acc index nibble).2 ≤ 88) := by
  unfold spec_nibble spec_clamp
  simp only
  omega

theorem adpcm_low_delta_eq (step : Int) (b : Nat) :
    adpcm_low_delta step b = spec_delta step (b % 16) := by
  obtain ⟨h0, h1, h2, h3⟩ := low_bits b
  unfold adpcm_low_delta spec_delta
  simp only
  by_cases c0 : (b % 16).testBit 0 = true <;> by_cases c1 : (b % 16).testBit 1 = true <;>
    by_cases c2 : (b % 16).testBit 2 = true <;> by_cases c3 : (b % 16).testBit 3 = true <;>
    simp only [h0, h1, h2, h3, c0, c1, c2, c3, if_true, if_false, not_true, not_false_eq_true] <;>
    simp

theorem adpcm_high_delta_eq (step : Int) (b : Nat) :
    adpcm_high_delta step b = spec_delta step (b / 16 % 16) := by
  obtain ⟨h0, h1, h2, h3⟩ := high_bits b
  unfold adpcm_high_delta spec_delta
  simp only
  by_cases c0 : (b / 16 % 16).testBit 0 = true <;> by_cases c1 : (b / 16 % 16).testBit 1 = true <;>
    by_cases c2 : (b / 16 % 16).testBit 2 = true <;>
    by_cases c3 : (b / 16 % 16).testBit 3 = true <;>
    simp only [h0, h1, h2, h3, c0, c1, c2, c3, if_true, if_false, not_true, not_false_eq_true] <;>
    simp

theorem adpcm_low_nibble_eq (b o : Nat) (st : adpcm_state) :
    adpcm_low_nibble b o st =
      { pcmdata := (spec_nibble st.pcmdata st.index (b % 16)).1,
        index := (spec_nibble st.pcmdata st.index (b % 16)).2,
        outbuf := st.outbuf.set o ((spec_nibble st.pcmdata st.index (b % 16)).1 >>> (8 : Nat)),
        trace := st.trace ++ [⟨(spec_nibble st.pcmdata st.index (b % 16)).1,
          (spec_nibble st.pcmdata st.index (b % 16)).2,
          (spec_nibble st.pcmdata st.index (b % 16)).1 >>> (8 : Nat)⟩] } := by
  have hr := spec_nibble_range st.pcmdata st.index (b % 16)
  have h8 := asr8_range _ hr.1.1 hr.1.2
  have hp : CLIP (st.pcmdata + spec_delta (step_table.getD st.index.toNat 0) (b % 16)) (-32768) 32767
      = (spec_nibble st.pcmdata st.index (b % 16)).1 := by
    rw [CLIP_eq_spec_clamp _ _ _ (by norm_num)]; rfl
  have hi : CLIP (st.index + index_table.getD (b &&& 7) 0) 0 88
      = (spec_nibble st.pcmdata st.index (b % 16)).2 := by
    rw [CLIP_eq_spec_clamp _ _ _ (by norm_num), and7_low]; rfl
  unfold adpcm_low_nibble
  simp only [adpcm_low_delta_eq, hp, hi, int8_cast_of_range _ h8.1 h8.2]

theorem adpcm_high_nibble_eq (b o : Nat) (st : adpcm_state) :
    adpcm_high_nibble b o st =
      { pcmdata := (spec_nibble st.pcmdata st.index (b / 16 % 16)).1,
        index := (spec_nibble st.pcmdata st.index (b / 16 % 16)).2,
        outbuf := st.outbuf.set o
          ((spec_nibble st.pcmdata st.index (b / 16 % 16)).1 >>> (8 : Nat)),
        trace := st.trace ++ [⟨(spec_nibble st.pcmdata st.index (b / 16 % 16)).1,
          (spec_nibble st.pcmdata st.index (b / 16 % 16)).2,
          (spec_nibble st.pcmdata st.index (b / 16 % 16)).1 >>> (8 : Nat)⟩] } := by
  have hr := spec_nibble_range st.pcmdata st.index (b / 16 % 16)
  have h8 := asr8_range _ hr.1.1 hr.1.2
  have hp : CLIP (st.pcmdata + spec_delta (step_table.getD st.index.toNat 0) (b / 16 % 16))
      (-32768) 32767 = (spec_nibble st.pcmdata st.index (b / 16 % 16)).1 := by
    rw [CLIP_eq_spec_clamp _ _ _ (by norm_num)]; rfl
  have hi : CLIP (st.index + index_table.getD ((b >>> 4) &&& 7) 0) 0 88
      = (spec_nibble st.pcmdata st.index (b / 16 % 16)).2 := by
    rw [CLIP_eq_spec_clamp _ _ _ (by norm_num), and7_high]; rfl
  unfold adpcm_high_nibble
  simp only [adpcm_high_delta_eq, hp, hi, int8_cast_of_range _ h8.1 h8.2]

theorem spec_state_snoc (acc index : Int) (nibs : List Nat) (n : Nat) :
    spec_state acc index (nibs ++ [n]) =
      spec_nibble (spec_state acc index nibs).1 (spec_state acc index nibs).2 n := by
  induction nibs generalizing acc index with
  | nil => simp [spec_state]
  | cons x xs ih => simp [spec_state, ih]

theorem spec_samples_snoc (acc index : Int) (nibs : List Nat) (n : Nat) :
    spec_samples acc index (nibs ++ [n]) = spec_samples acc index nibs ++
      [(spec_nibble (spec_state acc index nibs).1 (spec_state acc index nibs).2 n).1
        >>> (8 : Nat)] := by
  induction nibs generalizing acc index with
  | nil => simp [spec_samples, spec_state]
  | cons x xs ih => simp [spec_samples, spec_state, ih]

theorem spec_events_snoc (acc index : Int) (nibs : List Nat) (n : Nat) :
    spec_events acc index (nibs ++ [n]) = spec_events acc index nibs ++
      [⟨(spec_nibble (spec_state acc index nibs).1 (spec_state acc index nibs).2 n).1,
        (spec_nibble (spec_state acc index nibs).1 (spec_state acc index nibs).2 n).2,
        (spec_nibble (spec_state acc index nibs).1 (spec_state acc index nibs).2 n).1
          >>> (8 : Nat)⟩] := by
  induction nibs generalizing acc index with
  | nil => simp [spec_events, spec_state]
  | cons x xs ih => simp [spec_events, spec_state, ih]

theorem spec_samples_length (acc index : Int) (nibs : List Nat) :
    (spec_samples acc index nibs).length = nibs.length := by
  induction nibs generalizing acc index with
  | nil => simp [spec_samples]
  | cons x xs ih => simp [spec_samples, ih]

theorem spec_events_length (acc index : Int) (nibs : List Nat) :
    (spec_events acc index nibs).length = nibs.length := by
  induction nibs generalizing acc index with
  | nil => simp [spec_events]
  | cons x xs ih => simp [spec_events, ih]

theorem spec_nibbles_length (data : List Nat) : (spec_nibbles data).length = 2 * data.length := by
  induction data with
  | nil => simp [spec_nibbles]
  | cons x xs ih => simp [spec_nibbles, ih]; omega

theorem spec_nibbles_append (xs ys : List Nat) :
    spec_nibbles (xs ++ ys) = spec_nibbles xs ++ spec_nibbles ys := by
  induction xs with
  | nil => simp [spec_nibbles]
  | cons x xs ih => simp [spec_nibbles, ih]

theorem take_succ_set (l pre : List Int) (p : Nat) (v : Int) (hp : p < l.length)
    (h : l.take p = pre) : (l.set p v).take (p + 1) = pre ++ [v] := by
  rw [List.take_succ]
  have h2 : List.take p (l.set p v) = pre := by
    rw [← h]
    apply List.ext_getElem
    · simp
    · intro n h1 h2
      simp at h1
      rw [List.getElem_take, List.getElem_take, List.getElem_set_ne (by omega)]
  rw [h2]
  simp [hp]

theorem drop_succ_set (l : List Int) (p : Nat) (v : Int) :
    (l.set p v).drop (p + 1) = l.drop (p + 1) := by
  rw [List.drop_set]
  simp

theorem Decoded_refl (st0 : adpcm_state) (p : Nat) : Decoded st0 st0 p [] := by
  simp [Decoded, spec_state, spec_samples, spec_events]

theorem Decoded_step (st0 st st1 : adpcm_state) (p : Nat) (nibs : List Nat) (n : Nat)
    (h : Decoded st0 st p nibs) (hp : p + nibs.length < st0.outbuf.length)
    (h1 : st1 = { pcmdata := (spec_nibble st.pcmdata st.index n).1,
                  index := (spec_nibble st.pcmdata st.index n).2,
                  outbuf := st.outbuf.set (p + nibs.length)
                    ((spec_nibble st.pcmdata st.index n).1 >>> (8 : Nat)),
                  trace := st.trace ++ [⟨(spec_nibble st.pcmdata st.index n).1,
                    (spec_nibble st.pcmdata st.index n).2,
                    (spec_nibble st.pcmdata st.index n).1 >>> (8 : Nat)⟩] }) :
    Decoded st0 st1 p (nibs ++ [n]) := by
  obtain ⟨ha, hi, hl, ht, hd, hr⟩ := h
  subst h1
  refine ⟨?_, ?_, ?_, ?_, ?_, ?_⟩
  · simp [spec_state_snoc, ha, hi]
  · simp [spec_state_snoc, ha, hi]
  · simp [hl]
  · simp only [List.length_append, List.length_singleton, ← Nat.add_assoc]
    rw [take_succ_set _ _ _ _ (by omega) ht, spec_samples_snoc, ha, hi]
    simp
  · simp only [List.length_append, List.length_singleton, ← Nat.add_assoc]
    rw [drop_succ_set]
    have := congrArg (List.drop 1) hd
    simpa [Nat.add_comm 1] using this
  · simp [spec_events_snoc, ha, hi, hr]

theorem Decoded_byte (st0 st : adpcm_state) (p : Nat) (nibs : List Nat) (inbuf : List Nat)
    (ip op i : Nat) (h : Decoded st0 st p nibs) (ho : op + i * 2 = p + nibs.length)
    (hp : p + nibs.length + 2 ≤ st0.outbuf.length) :
    Decoded st0 (adpcm_byte inbuf ip op i st) p
      (nibs ++ [inbuf.getD (ip + i) 0 % 16, inbuf.getD (ip + i) 0 / 16 % 16]) := by
  unfold adpcm_byte
  simp only
  rw [adpcm_high_nibble_eq, show op + (i * 2 + 1) = p + (nibs ++ [inbuf.getD (ip + i) 0 % 16]).length
    by simp; omega]
  have h1 : Decoded st0 (adpcm_low_nibble (inbuf.getD (ip + i) 0) (op + i * 2) st) p
      (nibs ++ [inbuf.getD (ip + i) 0 % 16]) := by
    rw [adpcm_low_nibble_eq, ho]
    exact Decoded_step st0 st _ p nibs _ h (by omega) rfl
  have h2 := Decoded_step st0 _ _ p _ (inbuf.getD (ip + i) 0 / 16 % 16) h1
    (by simp; omega) rfl
  simpa using h2

theorem Decoded_chunk (st0 st : adpcm_state) (p : Nat) (nibs : List Nat) (inbuf : List Nat)
    (ip op : Nat) (h : Decoded st0 st p nibs) (ho : op = p + nibs.length)
    (hp : op + 8 ≤ st0.outbuf.length) :
    Decoded st0 (adpcm_chunk inbuf ip op st) p
      (nibs ++ spec_nibbles [inbuf.getD ip 0, inbuf.getD (ip + 1) 0, inbuf.getD (ip + 2) 0,
        inbuf.getD (ip + 3) 0]) := by
  have r4 : List.range 4 = [0, 1, 2, 3] := by decide
  unfold adpcm_chunk
  rw [r4]
  simp only [List.foldl_cons, List.foldl_nil]
  have h0 := Decoded_byte st0 st p nibs inbuf ip op 0 h (by omega) (by omega)
  have h1 := Decoded_byte st0 _ p _ inbuf ip op 1 h0 (by simp; omega) (by simp; omega)
  have h2 := Decoded_byte st0 _ p _ inbuf ip op 2 h1 (by simp; omega) (by simp; omega)
  have h3 := Decoded_byte st0 _ p _ inbuf ip op 3 h2 (by simp; omega) (by simp; omega)
  simpa [spec_nibbles] using h3

theorem drop_take_four (inbuf : List Nat) (ip c : Nat) (h : ip + 4 ≤ inbuf.length) :
    (inbuf.drop ip).take (4 * (c + 1)) =
      [inbuf.getD ip 0, inbuf.getD (ip + 1) 0, inbuf.getD (ip + 2) 0, inbuf.getD (ip + 3) 0]
        ++ (inbuf.drop (ip + 4)).take (4 * c) := by
  rw [List.drop_eq_getElem_cons (by omega : ip < inbuf.length),
    List.drop_eq_getElem_cons (by omega : ip + 1 < inbuf.length),
    List.drop_eq_getElem_cons (by omega : ip + 1 + 1 < inbuf.length),
    List.drop_eq_getElem_cons (by omega : ip + 1 + 1 + 1 < inbuf.length),
    show 4 * (c + 1) = 4 * c + 1 + 1 + 1 + 1 by ring]
  simp only [List.take_succ_cons]
  rw [List.getD_eq_getElem _ _ (by omega : ip < inbuf.length),
    List.getD_eq_getElem _ _ (by omega : ip + 1 < inbuf.length),
    List.getD_eq_getElem _ _ (by omega : ip + 2 < inbuf.length),
    List.getD_eq_getElem _ _ (by omega : ip + 3 < inbuf.length)]
  rfl

theorem Decoded_chunks (st0 : adpcm_state) (p : Nat) (inbuf : List Nat) (c : Nat) :
    ∀ (st : adpcm_state) (nibs : List Nat) (ip op : Nat), Decoded st0 st p nibs →
      op = p + nibs.length → op + 8 * c ≤ st0.outbuf.length → ip + 4 * c ≤ inbuf.length →
      Decoded st0 (adpcm_chunks inbuf c ip op st) p
        (nibs ++ spec_nibbles ((inbuf.drop ip).take (4 * c))) := by
  induction c with
  | zero =>
    intro st nibs ip op h _ _ _
    simpa [adpcm_chunks, spec_nibbles] using h
  | succ c ih =>
    intro st nibs ip op h ho hp hi
    unfold adpcm_chunks
    have h1 := Decoded_chunk st0 st p nibs inbuf ip op h ho (by omega)
    have h2 := ih _ _ (ip + 4) (op + 8) h1
      (by simp [spec_nibbles_length]; omega) (by omega) (by omega)
    rw [drop_take_four inbuf ip c (by omega), spec_nibbles_append, ← List.append_assoc]
    exact h2

/-! ## The decoder as a whole -/

theorem adpcm_decode_reject_short (outbuf : List Int) (inbuf : List Nat) (n : Int) (h : n < 4) :
    adpcm_decode_block_s8 outbuf inbuf n = ⟨0, outbuf, []⟩ := by
  unfold adpcm_decode_block_s8
  simp [h]

theorem adpcm_decode_reject_header (outbuf : List Int) (inbuf : List Nat) (n : Int) (h : 4 ≤ n)
    (hb : inbuf.getD 2 0 > 88 ∨ inbuf.getD 3 0 ≠ 0) :
    adpcm_decode_block_s8 outbuf inbuf n =
      ⟨0, outbuf.set 0 (int8_cast
        (int16_cast ((inbuf.getD 0 0 ||| (inbuf.getD 1 0 <<< 8) : Nat) : Int) >>> (8 : Nat))), []⟩ := by
  unfold adpcm_decode_block_s8
  have h1 : ¬ n < 4 := by omega
  have h2 : ((inbuf.getD 2 0 : Nat) : Int) < 0 ∨ ((inbuf.getD 2 0 : Nat) : Int) > 88 ∨
      inbuf.getD 3 0 ≠ 0 := by
    rcases hb with hb | hb
    · exact Or.inr (Or.inl (by omega))
    · exact Or.inr (Or.inr hb)
  simp only [h1, if_false, h2, if_true]

theorem adpcm_decode_accept (outbuf : List Int) (inbuf : List Nat) (n : Int) (h : 4 ≤ n)
    (hidx : inbuf.getD 2 0 ≤ 88) (hres : inbuf.getD 3 0 = 0) :
    adpcm_decode_block_s8 outbuf inbuf n =
      ⟨1 + (n - 4) / 4 * 8,
       (adpcm_chunks inbuf ((n - 4) / 4).toNat 4 1
          ⟨int16_cast ((inbuf.getD 0 0 ||| (inbuf.getD 1 0 <<< 8) : Nat) : Int),
           ((inbuf.getD 2 0 : Nat) : Int),
           outbuf.set 0 (int8_cast
             (int16_cast ((inbuf.getD 0 0 ||| (inbuf.getD 1 0 <<< 8) : Nat) : Int) >>> (8 : Nat))),
           []⟩).outbuf,
       (adpcm_chunks inbuf ((n - 4) / 4).toNat 4 1
          ⟨int16_cast ((inbuf.getD 0 0 ||| (inbuf.getD 1 0 <<< 8) : Nat) : Int),
           ((inbuf.getD 2 0 : Nat) : Int),
           outbuf.set 0 (int8_cast
             (int16_cast ((inbuf.getD 0 0 ||| (inbuf.getD 1 0 <<< 8) : Nat) : Int) >>> (8 : Nat))),
           []⟩).trace⟩ := by
  unfold adpcm_decode_block_s8
  have h1 : ¬ n < 4 := by omega
  have h2 : ¬ (((inbuf.getD 2 0 : Nat) : Int) < 0 ∨ ((inbuf.getD 2 0 : Nat) : Int) > 88 ∨
      inbuf.getD 3 0 ≠ 0) := by
    intro hc
    rcases hc with hc | hc | hc
    · omega
    · omega
    · exact hc hres
  have h3 : Int.tdiv (n - 4) 4 = (n - 4) / 4 := Int.tdiv_eq_ediv (by omega) (by norm_num)
  simp only [h1, if_false, h2, h3]

theorem adpcm_decode_header_of_accept (outbuf : List Int) (inbuf : List Nat) (n : Int)
    (h : (adpcm_decode_block_s8 outbuf inbuf n).samples ≠ 0) :
    4 ≤ n ∧ inbuf.getD 2 0 ≤ 88 ∧ inbuf.getD 3 0 = 0 := by
  have h4 : 4 ≤ n := by
    by_contra hc
    exact h (by rw [adpcm_decode_reject_short _ _ _ (by omega)])
  refine ⟨h4, ?_, ?_⟩
  · by_contra hc
    exact h (by rw [adpcm_decode_reject_header _ _ _ h4 (Or.inl (by omega))])
  · by_contra hc
    exact h (by rw [adpcm_decode_reject_header _ _ _ h4 (Or.inr hc)])

/-- C4. `adpcm_decode_block_s8` returns 0 exactly when the block has fewer than
4 bytes, or its step-index byte (byte 2) is greater than 88, or its reserved
byte (byte 3) is nonzero; a returned count that is not 0 is at least 1. -/
theorem adpcm_decode_block_s8_zero_iff (outbuf : List Int) (inbuf : List Nat) (inbufsize : Int) :
    ((adpcm_decode_block_s8 outbuf inbuf inbufsize).samples = 0 ↔
      (inbufsize < 4 ∨ inbuf.getD 2 0 > 88 ∨ inbuf.getD 3 0 ≠ 0)) ∧
    ((adpcm_decode_block_s8 outbuf inbuf inbufsize).samples = 0 ∨
      1 ≤ (adpcm_decode_block_s8 outbuf inbuf inbufsize).samples) := by
  by_cases h : inbufsize < 4
  · rw [adpcm_decode_reject_short _ _ _ h]
    exact ⟨⟨fun _ => Or.inl h, fun _ => rfl⟩, Or.inl rfl⟩
  · by_cases hb : inbuf.getD 2 0 > 88 ∨ inbuf.getD 3 0 ≠ 0
    · rw [adpcm_decode_reject_header _ _ _ (by omega) hb]
      exact ⟨⟨fun _ => Or.inr hb, fun _ => rfl⟩, Or.inl rfl⟩
    · have hidx : inbuf.getD 2 0 ≤ 88 := by
        by_contra hc; exact hb (Or.inl (by omega))
      have hres : inbuf.getD 3 0 = 0 := by
        by_contra hc; exact hb (Or.inr hc)
      rw [adpcm_decode_accept _ _ _ (by omega) hidx hres]
      have hq : 0 ≤ (inbufsize - 4) / 4 := Int.ediv_nonneg (by omega) (by norm_num)
      simp only
      constructor
      · constructor
        · intro h0; omega
        · intro h0
          rcases h0 with h0 | h0 | h0
          · exact absurd h0 h
          · omega
          · exact absurd hres h0
      · right; omega

/-- C2 (as amended). The count `adpcm_decode_block_s8` returns is 0 for a block
of fewer than 4 bytes or with a rejected header, and `1 + 8 * floor((n-4)/4)`
for every accepted block of `n` bytes (`n >= 4`, step-index byte `<= 88`,
reserved byte 0): eight samples for each complete group of four data bytes. -/
theorem adpcm_decode_block_s8_count (outbuf : List Int) (inbuf : List Nat) (n : Int) :
    (adpcm_decode_block_s8 outbuf inbuf n).samples =
      if n < 4 ∨ inbuf.getD 2 0 > 88 ∨ inbuf.getD 3 0 ≠ 0 then 0
      else 1 + 8 * ((n - 4) / 4) := by
  by_cases h : n < 4
  · rw [adpcm_decode_reject_short _ _ _ h, if_pos (Or.inl h)]
  · by_cases hb : inbuf.getD 2 0 > 88 ∨ inbuf.getD 3 0 ≠ 0
    · rw [adpcm_decode_reject_header _ _ _ (by omega) hb, if_pos (Or.inr hb)]
    · have hidx : inbuf.getD 2 0 ≤ 88 := by
        by_contra hc; exact hb (Or.inl (by omega))
      have hres : inbuf.getD 3 0 = 0 := by
        by_contra hc; exact hb (Or.inr hc)
      rw [adpcm_decode_accept _ _ _ (by omega) hidx hres]
      have hc : ¬ (n < 4 ∨ inbuf.getD 2 0 > 88 ∨ inbuf.getD 3 0 ≠ 0) := by
        intro hc
        rcases hc with hc | hc
        · exact h hc
        · exact hb hc
      simp only [hc, if_false]
      ring

/-- C2 (counterexample). The accepted 8-byte block of zero bytes decodes to 9
samples, not to `1 + 2 * floor((8-4)/4) = 3`. -/
theorem adpcm_decode_block_s8_count_counterexample :
    (4 : Int) ≤ 8 ∧ [0, 0, 0, 0, 0, 0, 0, 0].getD 2 0 ≤ 88 ∧
    [0, 0, 0, 0, 0, 0, 0, 0].getD 3 0 = 0 ∧
    (adpcm_decode_block_s8 (List.replicate 249 0) [0, 0, 0, 0, 0, 0, 0, 0] 8).samples = 9 ∧
    ¬ ((adpcm_decode_block_s8 (List.replicate 249 0) [0, 0, 0, 0, 0, 0, 0, 0] 8).samples
        = 1 + 2 * (((8 : Int) - 4) / 4)) := by
  decide

/-- C3 (as amended). For every accepted block of `n` bytes,
`adpcm_decode_block_s8` returns `1 + 2 * (4 * floor((n-4)/4))` samples: the
seed sample plus two samples for each data byte of the complete 4-byte groups
that follow the 4-byte header. The count is `1 + 2 * (n-4)` exactly when the
number of data bytes `n - 4` is a multiple of 4. -/
theorem adpcm_decode_block_s8_count_groups (outbuf : List Int) (inbuf : List Nat) (n : Int)
    (h4 : 4 ≤ n) (hidx : inbuf.getD 2 0 ≤ 88) (hres : inbuf.getD 3 0 = 0) :
    (adpcm_decode_block_s8 outbuf inbuf n).samples = 1 + 2 * (4 * ((n - 4) / 4)) ∧
    ((adpcm_decode_block_s8 outbuf inbuf n).samples = 1 + 2 * (n - 4) ↔ (n - 4) % 4 = 0) := by
  rw [adpcm_decode_accept _ _ _ h4 hidx hres]
  simp only
  constructor
  · ring
  · constructor <;> intro h <;> omega

/-- C3 (witness). A 12-byte block with a valid header. -/
theorem adpcm_decode_block_s8_count_groups_witness :
    (4 : Int) ≤ 12 ∧ [1, 2, 3, 0, 5, 6, 7, 8, 9, 10, 11, 12].getD 2 0 ≤ 88 ∧
    [1, 2, 3, 0, 5, 6, 7, 8, 9, 10, 11, 12].getD 3 0 = 0 ∧
    (adpcm_decode_block_s8 [] [1, 2, 3, 0, 5, 6, 7, 8, 9, 10, 11, 12] 12).samples
      = 1 + 2 * (4 * (((12 : Int) - 4) / 4)) ∧
    ((adpcm_decode_block_s8 [] [1, 2, 3, 0, 5, 6, 7, 8, 9, 10, 11, 12] 12).samples
      = 1 + 2 * ((12 : Int) - 4) ↔ ((12 : Int) - 4) % 4 = 0) :=
  ⟨by decide, by decide, by decide,
    adpcm_decode_block_s8_count_groups [] [1, 2, 3, 0, 5, 6, 7, 8, 9, 10, 11, 12] 12
      (by decide) (by decide) (by decide)⟩

/-- C3 (counterexample). The accepted 5-byte block of zero bytes decodes to 1
sample, not to `1 + 2 * (5 - 4) = 3`: its single data byte is not decoded. -/
theorem adpcm_decode_block_s8_count_groups_counterexample :
    (4 : Int) ≤ 5 ∧ [0, 0, 0, 0, 0].getD 2 0 ≤ 88 ∧ [0, 0, 0, 0, 0].getD 3 0 = 0 ∧
    (adpcm_decode_block_s8 (List.replicate 249 0) [0, 0, 0, 0, 0] 5).samples = 1 ∧
    ¬ ((adpcm_decode_block_s8 (List.replicate 249 0) [0, 0, 0, 0, 0] 5).samples
        = 1 + 2 * ((5 : Int) - 4)) := by
  decide

theorem getD_set_cases (l : List Int) (o i : Nat) (v : Int) :
    (l.set o v).getD i 0 = l.getD i 0 ∨ (l.set o v).getD i 0 = v := by
  simp only [List.getD_eq_getElem?_getD, List.getElem?_set]
  by_cases h : o = i
  · by_cases h2 : i < l.length
    · right; simp [h, h2]
    · left
      have h3 : l[i]? = none := List.getElem?_eq_none (by omega)
      simp [h, h2, h3]
  · left; simp [h]

theorem set_keeps_range (orig l : List Int) (o : Nat) (v : Int) (hv : -128 ≤ v ∧ v ≤ 127)
    (h : ∀ i : Nat, l.getD i 0 = orig.getD i 0 ∨ (-128 ≤ l.getD i 0 ∧ l.getD i 0 ≤ 127)) :
    ∀ i : Nat, (l.set o v).getD i 0 = orig.getD i 0 ∨
      (-128 ≤ (l.set o v).getD i 0 ∧ (l.set o v).getD i 0 ≤ 127) := by
  intro i
  rcases getD_set_cases l o i v with h1 | h1
  · rw [h1]; exact h i
  · rw [h1]; exact Or.inr hv

theorem DecInv_step (orig : List Int) (st st1 : adpcm_state) (o n : Nat) (h : DecInv orig st)
    (h1 : st1 = { pcmdata := (spec_nibble st.pcmdata st.index n).1,
                  index := (spec_nibble st.pcmdata st.index n).2,
                  outbuf := st.outbuf.set o ((spec_nibble st.pcmdata st.index n).1 >>> (8 : Nat)),
                  trace := st.trace ++ [⟨(spec_nibble st.pcmdata st.index n).1,
                    (spec_nibble st.pcmdata st.index n).2,
                    (spec_nibble st.pcmdata st.index n).1 >>> (8 : Nat)⟩] }) :
    DecInv orig st1 ∧ st1.trace.length = st.trace.length + 1 := by
  obtain ⟨_, ht, ho⟩ := h
  have hr := spec_nibble_range st.pcmdata st.index n
  have h8 := asr8_range _ hr.1.1 hr.1.2
  have hlen : step_table.length = 89 := by decide
  subst h1
  refine ⟨⟨hr.2, ?_, set_keeps_range orig _ _ _ h8 ho⟩, by simp⟩
  intro e he
  simp only [List.mem_append, List.mem_singleton] at he
  rcases he with he | he
  · exact ht e he
  · subst he
    refine ⟨hr.1, ⟨hr.2.1, hr.2.2, ?_⟩, h8, rfl⟩
    simp only [hlen]
    omega

theorem DecInv_byte (orig : List Int) (st : adpcm_state) (inbuf : List Nat) (ip op i : Nat)
    (h : DecInv orig st) :
    DecInv orig (adpcm_byte inbuf ip op i st) ∧
      (adpcm_byte inbuf ip op i st).trace.length = st.trace.length + 2 := by
  unfold adpcm_byte
  simp only
  have h1 := DecInv_step orig st _ (op + i * 2) (inbuf.getD (ip + i) 0 % 16) h
    (adpcm_low_nibble_eq _ _ _)
  have h2 := DecInv_step orig _ _ (op + (i * 2 + 1)) (inbuf.getD (ip + i) 0 / 16 % 16) h1.1
    (adpcm_high_nibble_eq (inbuf.getD (ip + i) 0) _ _)
  exact ⟨h2.1, by rw [h2.2, h1.2]⟩

theorem DecInv_chunk (orig : List Int) (st : adpcm_state) (inbuf : List Nat) (ip op : Nat)
    (h : DecInv orig st) :
    DecInv orig (adpcm_chunk inbuf ip op st) ∧
      (adpcm_chunk inbuf ip op st).trace.length = st.trace.length + 8 := by
  have r4 : List.range 4 = [0, 1, 2, 3] := by decide
  unfold adpcm_chunk
  rw [r4]
  simp only [List.foldl_cons, List.foldl_nil]
  have h0 := DecInv_byte orig st inbuf ip op 0 h
  have h1 := DecInv_byte orig _ inbuf ip op 1 h0.1
  have h2 := DecInv_byte orig _ inbuf ip op 2 h1.1
  have h3 := DecInv_byte orig _ inbuf ip op 3 h2.1
  exact ⟨h3.1, by rw [h3.2, h2.2, h1.2, h0.2]⟩

theorem DecInv_chunks (orig : List Int) (inbuf : List Nat) (c : Nat) :
    ∀ (st : adpcm_state) (ip op : Nat), DecInv orig st →
      DecInv orig (adpcm_chunks inbuf c ip op st) ∧
        (adpcm_chunks inbuf c ip op st).trace.length = st.trace.length + 8 * c := by
  induction c with
  | zero =>
    intro st ip op h
    exact ⟨h, rfl⟩
  | succ c ih =>
    intro st ip op h
    unfold adpcm_chunks
    have h1 := DecInv_chunk orig st inbuf ip op h
    have h2 := ih _ (ip + 4) (op + 8) h1.1
    exact ⟨h2.1, by rw [h2.2, h1.2]; ring⟩

theorem adpcm_decode_outbuf_int8 (outbuf : List Int) (inbuf : List Nat) (inbufsize : Int)
    (i : Nat) :
    (adpcm_decode_block_s8 outbuf inbuf inbufsize).outbuf.getD i 0 = outbuf.getD i 0 ∨
      (-128 ≤ (adpcm_decode_block_s8 outbuf inbuf inbufsize).outbuf.getD i 0 ∧
        (adpcm_decode_block_s8 outbuf inbuf inbufsize).outbuf.getD i 0 ≤ 127) := by
  have hseed := int8_cast_range
    (int16_cast ((inbuf.getD 0 0 ||| (inbuf.getD 1 0 <<< 8) : Nat) : Int) >>> (8 : Nat))
  by_cases h : inbufsize < 4
  · rw [adpcm_decode_reject_short _ _ _ h]
    exact Or.inl rfl
  · by_cases hb : inbuf.getD 2 0 > 88 ∨ inbuf.getD 3 0 ≠ 0
    · rw [adpcm_decode_reject_header _ _ _ (by omega) hb]
      exact set_keeps_range outbuf outbuf 0 _ hseed (fun i => Or.inl rfl) i
    · have hidx : inbuf.getD 2 0 ≤ 88 := by
        by_contra hc; exact hb (Or.inl (by omega))
      have hres : inbuf.getD 3 0 = 0 := by
        by_contra hc; exact hb (Or.inr hc)
      rw [adpcm_decode_accept _ _ _ (by omega) hidx hres]
      have h0 : DecInv outbuf
          ⟨int16_cast ((inbuf.getD 0 0 ||| (inbuf.getD 1 0 <<< 8) : Nat) : Int),
           ((inbuf.getD 2 0 : Nat) : Int),
           outbuf.set 0 (int8_cast
             (int16_cast ((inbuf.getD 0 0 ||| (inbuf.getD 1 0 <<< 8) : Nat) : Int) >>> (8 : Nat))),
           []⟩ :=
        ⟨⟨by simp, by simp only; omega⟩, by simp,
          set_keeps_range outbuf outbuf 0 _ hseed (fun i => Or.inl rfl)⟩
      exact (DecInv_chunks outbuf inbuf ((inbufsize - 4) / 4).toNat _ 4 1 h0).1.2.2 i

/-- C5. For every input block, after every nibble `adpcm_decode_block_s8`
processes the accumulator lies in `[-32768, 32767]` and the step index lies in
`[0, 88]`, inside the 89-entry `step_table` (as does the header's step index
of an accepted block), and the emitted sample lies in `[-128, 127]`; the
history holds one record for each sample after the seed; every entry of the
output buffer that the call changes lies in `[-128, 127]`. -/
theorem adpcm_decode_block_s8_ranges (outbuf : List Int) (inbuf : List Nat) (inbufsize : Int) :
    (∀ e ∈ (adpcm_decode_block_s8 outbuf inbuf inbufsize).trace, adpcm_event_ok e) ∧
    (((adpcm_decode_block_s8 outbuf inbuf inbufsize).samples = 0 ∧
        (adpcm_decode_block_s8 outbuf inbuf inbufsize).trace = []) ∨
      ((adpcm_decode_block_s8 outbuf inbuf inbufsize).samples =
          1 + ((adpcm_decode_block_s8 outbuf inbuf inbufsize).trace.length : Int) ∧
        inbuf.getD 2 0 < step_table.length)) ∧
    (∀ i : Nat, (adpcm_decode_block_s8 outbuf inbuf inbufsize).outbuf.getD i 0 = outbuf.getD i 0 ∨
      (-128 ≤ (adpcm_decode_block_s8 outbuf inbuf inbufsize).outbuf.getD i 0 ∧
        (adpcm_decode_block_s8 outbuf inbuf inbufsize).outbuf.getD i 0 ≤ 127)) := by
  have hseed := int8_cast_range
    (int16_cast ((inbuf.getD 0 0 ||| (inbuf.getD 1 0 <<< 8) : Nat) : Int) >>> (8 : Nat))
  by_cases h : inbufsize < 4
  · rw [adpcm_decode_reject_short _ _ _ h]
    exact ⟨by simp, Or.inl ⟨rfl, rfl⟩, fun i => Or.inl rfl⟩
  · by_cases hb : inbuf.getD 2 0 > 88 ∨ inbuf.getD 3 0 ≠ 0
    · rw [adpcm_decode_reject_header _ _ _ (by omega) hb]
      exact ⟨by simp, Or.inl ⟨rfl, rfl⟩,
        set_keeps_range outbuf outbuf 0 _ hseed (fun i => Or.inl rfl)⟩
    · have hidx : inbuf.getD 2 0 ≤ 88 := by
        by_contra hc; exact hb (Or.inl (by omega))
      have hres : inbuf.getD 3 0 = 0 := by
        by_contra hc; exact hb (Or.inr hc)
      have hlen : step_table.length = 89 := by decide
      rw [adpcm_decode_accept _ _ _ (by omega) hidx hres]
      have hq : 0 ≤ (inbufsize - 4) / 4 := Int.ediv_nonneg (by omega) (by norm_num)
      have h0 : DecInv outbuf
          ⟨int16_cast ((inbuf.getD 0 0 ||| (inbuf.getD 1 0 <<< 8) : Nat) : Int),
           ((inbuf.getD 2 0 : Nat) : Int),
           outbuf.set 0 (int8_cast
             (int16_cast ((inbuf.getD 0 0 ||| (inbuf.getD 1 0 <<< 8) : Nat) : Int) >>> (8 : Nat))),
           []⟩ :=
        ⟨⟨by simp, by simp only; omega⟩, by simp,
          set_keeps_range outbuf outbuf 0 _ hseed (fun i => Or.inl rfl)⟩
      have h1 := DecInv_chunks outbuf inbuf ((inbufsize - 4) / 4).toNat _ 4 1 h0
      refine ⟨h1.1.2.1, Or.inr ⟨?_, by rw [hlen]; omega⟩, h1.1.2.2⟩
      simp only
      rw [h1.2]
      simp only [List.length_nil, Nat.zero_add, Nat.cast_mul, Nat.cast_ofNat,
        Int.toNat_of_nonneg hq]
      ring

theorem getD_lt_of_bytes (inbuf : List Nat) (hbytes : ∀ b ∈ inbuf, b < 256) (i : Nat) :
    inbuf.getD i 0 < 256 := by
  by_cases h : i < inbuf.length
  · rw [List.getD_eq_getElem _ _ h]
    exact hbytes _ (List.getElem_mem h)
  · rw [List.getD_eq_default _ _ (by omega)]
    norm_num

/-- C1. For every block of `n` bytes that `adpcm_decode_block_s8` accepts
(returns a nonzero count for), decoded into a buffer that has room for the
returned count, the samples it emits equal the reference recurrence over the
decoded data bytes (the complete 4-byte groups after the header): sample 0 is
the little-endian signed 16-bit seed shifted right by 8, and each data byte
gives two samples, low nibble first, by `spec_nibble`. -/
theorem adpcm_decode_block_s8_eq_reference (outbuf : List Int) (inbuf : List Nat) (n : Nat)
    (hbytes : ∀ b ∈ inbuf, b < 256) (hn : n ≤ inbuf.length)
    (hacc : (adpcm_decode_block_s8 outbuf inbuf (n : Int)).samples ≠ 0)
    (hout : (adpcm_decode_block_s8 outbuf inbuf (n : Int)).samples ≤ (outbuf.length : Int)) :
    (adpcm_decode_block_s8 outbuf inbuf (n : Int)).outbuf.take
        (adpcm_decode_block_s8 outbuf inbuf (n : Int)).samples.toNat
      = spec_decode (inbuf.getD 0 0) (inbuf.getD 1 0) (inbuf.getD 2 0)
          ((inbuf.drop 4).take (4 * ((n - 4) / 4))) := by
  obtain ⟨h4, hidx, hres⟩ := adpcm_decode_header_of_accept outbuf inbuf (n : Int) hacc
  rw [adpcm_decode_accept _ _ _ h4 hidx hres] at hout ⊢
  simp only at hout ⊢
  have hc : (((n : Int) - 4) / 4).toNat = (n - 4) / 4 := by omega
  have hs : (1 + ((n : Int) - 4) / 4 * 8).toNat = 1 + 8 * ((n - 4) / 4) := by omega
  rw [hc, hs]
  have hD := Decoded_chunks
    ⟨int16_cast ((inbuf.getD 0 0 ||| (inbuf.getD 1 0 <<< 8) : Nat) : Int),
      ((inbuf.getD 2 0 : Nat) : Int),
      outbuf.set 0 (int8_cast
        (int16_cast ((inbuf.getD 0 0 ||| (inbuf.getD 1 0 <<< 8) : Nat) : Int) >>> (8 : Nat))),
      []⟩ 1 inbuf ((n - 4) / 4) _ [] 4 1 (Decoded_refl _ 1) (by simp)
    (by simp only [List.length_set]; omega) (by omega)
  obtain ⟨_, _, _, ht, _, _⟩ := hD
  simp only [List.nil_append, spec_nibbles_length] at ht
  have hl : ((inbuf.drop 4).take (4 * ((n - 4) / 4))).length = 4 * ((n - 4) / 4) := by
    rw [List.length_take, List.length_drop]
    omega
  rw [hl] at ht
  rw [show 1 + 8 * ((n - 4) / 4) = 1 + 2 * (4 * ((n - 4) / 4)) by ring, ht]
  have hseed := seed_eq_spec_seed (inbuf.getD 0 0) (inbuf.getD 1 0)
    (getD_lt_of_bytes inbuf hbytes 0) (getD_lt_of_bytes inbuf hbytes 1)
  have hsr : -32768 ≤ spec_seed (inbuf.getD 0 0) (inbuf.getD 1 0) ∧
      spec_seed (inbuf.getD 0 0) (inbuf.getD 1 0) ≤ 32767 := by
    rw [← hseed]; exact int16_cast_range _
  have h8 := asr8_range _ hsr.1 hsr.2
  have ho : 0 < outbuf.length := by omega
  unfold spec_decode
  rw [hseed, int8_cast_of_range _ h8.1 h8.2]
  have htake : (outbuf.set 0 (spec_seed (inbuf.getD 0 0) (inbuf.getD 1 0) >>> (8 : Nat))).take 1
      = [spec_seed (inbuf.getD 0 0) (inbuf.getD 1 0) >>> (8 : Nat)] := by
    cases outbuf with
    | nil => simp at ho
    | cons x xs => simp
  rw [htake]
  rfl

/-- C1 (witness). A 12-byte block decoded into a 20-entry buffer. -/
theorem adpcm_decode_block_s8_eq_reference_witness :
    (∀ b ∈ [0x34, 0x12, 10, 0, 0x7f, 0x80, 0x13, 0xa5, 1, 2, 3, 4], b < 256) ∧
    12 ≤ [0x34, 0x12, 10, 0, 0x7f, 0x80, 0x13, 0xa5, 1, 2, 3, 4].length ∧
    (adpcm_decode_block_s8 (List.replicate 20 0)
        [0x34, 0x12, 10, 0, 0x7f, 0x80, 0x13, 0xa5, 1, 2, 3, 4] ((12 : Nat) : Int)).samples ≠ 0 ∧
    (adpcm_decode_block_s8 (List.replicate 20 0)
        [0x34, 0x12, 10, 0, 0x7f, 0x80, 0x13, 0xa5, 1, 2, 3, 4] ((12 : Nat) : Int)).samples
      ≤ ((List.replicate 20 (0 : Int)).length : Int) ∧
    (adpcm_decode_block_s8 (List.replicate 20 0)
        [0x34, 0x12, 10, 0, 0x7f, 0x80, 0x13, 0xa5, 1, 2, 3, 4] ((12 : Nat) : Int)).outbuf.take
        (adpcm_decode_block_s8 (List.replicate 20 0)
          [0x34, 0x12, 10, 0, 0x7f, 0x80, 0x13, 0xa5, 1, 2, 3, 4] ((12 : Nat) : Int)).samples.toNat
      = spec_decode ([0x34, 0x12, 10, 0, 0x7f, 0x80, 0x13, 0xa5, 1, 2, 3, 4].getD 0 0)
          ([0x34, 0x12, 10, 0, 0x7f, 0x80, 0x13, 0xa5, 1, 2, 3, 4].getD 1 0)
          ([0x34, 0x12, 10, 0, 0x7f, 0x80, 0x13, 0xa5, 1, 2, 3, 4].getD 2 0)
          (([0x34, 0x12, 10, 0, 0x7f, 0x80, 0x13, 0xa5, 1, 2, 3, 4].drop 4).take
            (4 * ((12 - 4) / 4))) :=
  ⟨by decide, by decide, by decide, by decide,
    adpcm_decode_block_s8_eq_reference (List.replicate 20 0)
      [0x34, 0x12, 10, 0, 0x7f, 0x80, 0x13, 0xa5, 1, 2, 3, 4] 12
      (by decide) (by decide) (by decide) (by decide)⟩

/-! ## Starting a sound -/

theorem decompress_buffer_fields (ch : pico_channel_t) :
    (decompress_buffer ch).mem = ch.mem ∧ (decompress_buffer ch).data_end = ch.data_end ∧
    (decompress_buffer ch).is_adpcm = ch.is_adpcm ∧ (decompress_buffer ch).offset = ch.offset ∧
    (decompress_buffer ch).step = ch.step ∧ (decompress_buffer ch).left = ch.left ∧
    (decompress_buffer ch).right = ch.right ∧ (decompress_buffer ch).alpha256 = ch.alpha256 := by
  unfold decompress_buffer
  split_ifs <;> simp

theorem init_channel_for_sfx_miss (cfg : config_t) (wad : wad_t) ( use_sfx_prefix : Bool)
    (ch : pico_channel_t) (sfxinfo : sfxinfo_t) (pitch : Int)
    (h : sfx_lumpnum wad use_sfx_prefix sfxinfo < 0) :
    init_channel_for_sfx cfg wad use_sfx_prefix ch sfxinfo pitch = (false, ch) := by
  unfold init_channel_for_sfx
  simp only [h, if_true]

theorem init_channel_for_sfx_short (cfg : config_t) (wad : wad_t) ( use_sfx_prefix : Bool)
    (ch : pico_channel_t) (sfxinfo : sfxinfo_t) (pitch : Int)
    (h : ¬ sfx_lumpnum wad use_sfx_prefix sfxinfo < 0)
    (h8 : wad.W_LumpLength (sfx_lumpnum wad use_sfx_prefix sfxinfo) < 8) :
    init_channel_for_sfx cfg wad use_sfx_prefix ch sfxinfo pitch = (false, ch) := by
  unfold init_channel_for_sfx
  simp only [h, if_false, h8, if_true]

theorem init_channel_for_sfx_no_payload (cfg : config_t) (wad : wad_t) ( use_sfx_prefix : Bool)
    (ch : pico_channel_t) (sfxinfo : sfxinfo_t) (pitch : Int)
    (h : ¬ sfx_lumpnum wad use_sfx_prefix sfxinfo < 0)
    (h8 : ¬ wad.W_LumpLength (sfx_lumpnum wad use_sfx_prefix sfxinfo) < 8)
    (hp : sfx_payload_length (wad.W_LumpLength (sfx_lumpnum wad use_sfx_prefix sfxinfo))
      (read_le32 (wad.W_CacheLumpNum (sfx_lumpnum wad use_sfx_prefix sfxinfo)) 4) ≤ 0) :
    init_channel_for_sfx cfg wad use_sfx_prefix ch sfxinfo pitch =
      (false, { ch with is_adpcm := decide (read_le16
        (wad.W_CacheLumpNum (sfx_lumpnum wad use_sfx_prefix sfxinfo)) 0 = 0x8003) }) := by
  unfold init_channel_for_sfx
  simp only [h, if_false, h8, hp, if_true]

theorem init_channel_for_sfx_ok (cfg : config_t) (wad : wad_t) ( use_sfx_prefix : Bool)
    (ch : pico_channel_t) (sfxinfo : sfxinfo_t) (pitch : Int)
    (h : ¬ sfx_lumpnum wad use_sfx_prefix sfxinfo < 0)
    (h8 : ¬ wad.W_LumpLength (sfx_lumpnum wad use_sfx_prefix sfxinfo) < 8)
    (hp : ¬ sfx_payload_length (wad.W_LumpLength (sfx_lumpnum wad use_sfx_prefix sfxinfo))
      (read_le32 (wad.W_CacheLumpNum (sfx_lumpnum wad use_sfx_prefix sfxinfo)) 4) ≤ 0) :
    init_channel_for_sfx cfg wad use_sfx_prefix ch sfxinfo pitch =
      (true,
        { decompress_buffer
            { ch with
              is_adpcm := decide (read_le16
                (wad.W_CacheLumpNum (sfx_lumpnum wad use_sfx_prefix sfxinfo)) 0 = 0x8003)
              mem := wad.W_CacheLumpNum (sfx_lumpnum wad use_sfx_prefix sfxinfo)
              data := 8
              data_end := 8 + sfx_payload_length
                (wad.W_LumpLength (sfx_lumpnum wad use_sfx_prefix sfxinfo))
                (read_le32 (wad.W_CacheLumpNum (sfx_lumpnum wad use_sfx_prefix sfxinfo)) 4)
              step := sfx_step cfg (read_le16
                (wad.W_CacheLumpNum (sfx_lumpnum wad use_sfx_prefix sfxinfo)) 2) pitch } with
          offset := 0
          alpha256 := sfx_alpha256 cfg (read_le16
            (wad.W_CacheLumpNum (sfx_lumpnum wad use_sfx_prefix sfxinfo)) 2) }) := by
  unfold init_channel_for_sfx
  simp only [h, if_false, h8, hp]

theorem sfx_payload_length_eq (lumplen : Int) (declared : Nat) (h8 : 8 ≤ lumplen)
    (hint : lumplen ≤ 2147483647) :
    sfx_payload_length lumplen declared =
      if declared = 0 then lumplen - 8 else min (declared : Int) (lumplen - 8) := by
  unfold sfx_payload_length uint32_cast int32_cast
  simp only
  have hu : ((lumplen - 8) % 4294967296).toNat = (lumplen - 8).toNat := by omega
  rw [hu]
  by_cases hd : declared = 0
  · simp [hd]
  · by_cases hl : declared < (lumplen - 8).toNat
    · rw [if_pos ⟨hd, hl⟩, if_neg hd]
      omega
    · have hn : ¬ (declared ≠ 0 ∧ declared < (lumplen - 8).toNat) := fun hc => hl hc.2
      rw [if_neg hn, if_neg hd]
      omega

/-- C10 (as amended). For every resolved lump of length `L >= 8` (an `int`)
whose header declares payload length `D`, the payload length
`init_channel_for_sfx` uses is `L - 8` when `D = 0` and `min(D, L - 8)`
otherwise; the start fails exactly when that value is `<= 0`, and on success
the channel reads the lump from index 8 up to `data_end = 8 + payload`, with
`is_adpcm` set exactly for tag 0x8003. -/
theorem init_channel_for_sfx_payload (cfg : config_t) (wad : wad_t) ( use_sfx_prefix : Bool)
    (ch : pico_channel_t) (sfxinfo : sfxinfo_t) (pitch : Int)
    (hk : 0 ≤ sfx_lumpnum wad use_sfx_prefix sfxinfo)
    (h8 : 8 ≤ (wad.lump (sfx_lumpnum wad use_sfx_prefix sfxinfo)).length)
    (hint : (wad.lump (sfx_lumpnum wad use_sfx_prefix sfxinfo)).length ≤ 2147483647) :
    sfx_payload_length ((wad.lump (sfx_lumpnum wad use_sfx_prefix sfxinfo)).length : Int)
        (read_le32 (wad.lump (sfx_lumpnum wad use_sfx_prefix sfxinfo)) 4) =
      (if read_le32 (wad.lump (sfx_lumpnum wad use_sfx_prefix sfxinfo)) 4 = 0 then
        ((wad.lump (sfx_lumpnum wad use_sfx_prefix sfxinfo)).length : Int) - 8
      else min ((read_le32 (wad.lump (sfx_lumpnum wad use_sfx_prefix sfxinfo)) 4 : Nat) : Int)
        (((wad.lump (sfx_lumpnum wad use_sfx_prefix sfxinfo)).length : Int) - 8)) ∧
    ((init_channel_for_sfx cfg wad use_sfx_prefix ch sfxinfo pitch).1 = false ↔
      sfx_payload_length ((wad.lump (sfx_lumpnum wad use_sfx_prefix sfxinfo)).length : Int)
        (read_le32 (wad.lump (sfx_lumpnum wad use_sfx_prefix sfxinfo)) 4) ≤ 0) ∧
    ((init_channel_for_sfx cfg wad use_sfx_prefix ch sfxinfo pitch).1 = true →
      (init_channel_for_sfx cfg wad use_sfx_prefix ch sfxinfo pitch).2.mem =
          wad.lump (sfx_lumpnum wad use_sfx_prefix sfxinfo) ∧
      (init_channel_for_sfx cfg wad use_sfx_prefix ch sfxinfo pitch).2.data_end - 8 =
          sfx_payload_length ((wad.lump (sfx_lumpnum wad use_sfx_prefix sfxinfo)).length : Int)
            (read_le32 (wad.lump (sfx_lumpnum wad use_sfx_prefix sfxinfo)) 4) ∧
      (init_channel_for_sfx cfg wad use_sfx_prefix ch sfxinfo pitch).2.is_adpcm =
          decide (read_le16 (wad.lump (sfx_lumpnum wad use_sfx_prefix sfxinfo)) 0 = 0x8003)) := by
  have hk' : ¬ sfx_lumpnum wad use_sfx_prefix sfxinfo < 0 := by omega
  have h8' : ¬ wad.W_LumpLength (sfx_lumpnum wad use_sfx_prefix sfxinfo) < 8 := by
    unfold wad_t.W_LumpLength; omega
  refine ⟨sfx_payload_length_eq _ _ (by omega) (by omega), ?_, ?_⟩
  · by_cases hp : sfx_payload_length
        ((wad.lump (sfx_lumpnum wad use_sfx_prefix sfxinfo)).length : Int)
        (read_le32 (wad.lump (sfx_lumpnum wad use_sfx_prefix sfxinfo)) 4) ≤ 0
    · rw [init_channel_for_sfx_no_payload cfg wad use_sfx_prefix ch sfxinfo pitch hk' h8' hp]
      simp [hp]
    · rw [init_channel_for_sfx_ok cfg wad use_sfx_prefix ch sfxinfo pitch hk' h8' hp]
      simp [hp]
  · intro hr
    by_cases hp : sfx_payload_length
        ((wad.lump (sfx_lumpnum wad use_sfx_prefix sfxinfo)).length : Int)
        (read_le32 (wad.lump (sfx_lumpnum wad use_sfx_prefix sfxinfo)) 4) ≤ 0
    · rw [init_channel_for_sfx_no_payload cfg wad use_sfx_prefix ch sfxinfo pitch hk' h8' hp]
        at hr
      simp at hr
    · rw [init_channel_for_sfx_ok cfg wad use_sfx_prefix ch sfxinfo pitch hk' h8' hp]
      simp only [(decompress_buffer_fields _).1, (decompress_buffer_fields _).2.1,
        (decompress_buffer_fields _).2.2.1]
      refine ⟨rfl, ?_, rfl⟩
      unfold wad_t.W_LumpLength wad_t.W_CacheLumpNum
      omega

/-- C10 (witness): the scenario of the specification. A 104-byte lump with tag
0x8003, rate 11025 and declared length 100 starts without validation failure,
with a 96-byte payload and `is_adpcm` true. -/
theorem init_channel_for_sfx_payload_witness :
    (0 ≤ sfx_lumpnum (test_wad test_lump_adpcm) false test_sfx ∧
     8 ≤ ((test_wad test_lump_adpcm).lump
        (sfx_lumpnum (test_wad test_lump_adpcm) false test_sfx)).length ∧
     ((test_wad test_lump_adpcm).lump
        (sfx_lumpnum (test_wad test_lump_adpcm) false test_sfx)).length ≤ 2147483647) ∧
    (test_lump_adpcm.length = 104 ∧ read_le16 test_lump_adpcm 0 = 0x8003 ∧
     read_le16 test_lump_adpcm 2 = 11025 ∧ read_le32 test_lump_adpcm 4 = 100) ∧
    (init_channel_for_sfx test_cfg (test_wad test_lump_adpcm) false pico_channel_t.zero
        test_sfx 127).1 = true ∧
    (init_channel_for_sfx test_cfg (test_wad test_lump_adpcm) false pico_channel_t.zero
        test_sfx 127).2.data_end - 8 = 96 ∧
    (init_channel_for_sfx test_cfg (test_wad test_lump_adpcm) false pico_channel_t.zero
        test_sfx 127).2.is_adpcm = true := by
  have hk : 0 ≤ sfx_lumpnum (test_wad test_lump_adpcm) false test_sfx := by decide
  have h8 : 8 ≤ ((test_wad test_lump_adpcm).lump
      (sfx_lumpnum (test_wad test_lump_adpcm) false test_sfx)).length := by decide
  have hint : ((test_wad test_lump_adpcm).lump
      (sfx_lumpnum (test_wad test_lump_adpcm) false test_sfx)).length ≤ 2147483647 := by decide
  have hlen : test_lump_adpcm.length = 104 := by decide
  have h16 : read_le16 test_lump_adpcm 0 = 0x8003 := by decide
  have hrate : read_le16 test_lump_adpcm 2 = 11025 := by decide
  have h32 : read_le32 test_lump_adpcm 4 = 100 := by decide
  have hlump : (test_wad test_lump_adpcm).lump
      (sfx_lumpnum (test_wad test_lump_adpcm) false test_sfx) = test_lump_adpcm := rfl
  have hp : sfx_payload_length (test_lump_adpcm.length : Int) (read_le32 test_lump_adpcm 4)
      = 96 := by
    rw [hlen, h32]; decide
  obtain ⟨_, hfail, hok⟩ := init_channel_for_sfx_payload test_cfg (test_wad test_lump_adpcm) false
    pico_channel_t.zero test_sfx 127 hk h8 hint
  rw [hlump, hp] at hfail hok
  have hr : (init_channel_for_sfx test_cfg (test_wad test_lump_adpcm) false pico_channel_t.zero
      test_sfx 127).1 = true := by
    cases hc : (init_channel_for_sfx test_cfg (test_wad test_lump_adpcm) false
      pico_channel_t.zero test_sfx 127).1
    · exact absurd (hfail.1 hc) (by norm_num)
    · rfl
  obtain ⟨_, hde, hia⟩ := hok hr
  exact ⟨⟨hk, h8, hint⟩, ⟨hlen, h16, hrate, h32⟩, hr, hde, by rw [hia, h16]; rfl⟩

/-- C10 (counterexample). A 12-byte lump whose header declares length 0 is
started with a 4-byte payload, although `min(0, 12 - 8) = 0`. -/
theorem init_channel_for_sfx_payload_counterexample :
    read_le32 [0x03, 0x00, 0x11, 0x2b, 0, 0, 0, 0, 1, 2, 3, 4] 4 = 0 ∧
    (init_channel_for_sfx test_cfg (test_wad [0x03, 0x00, 0x11, 0x2b, 0, 0, 0, 0, 1, 2, 3, 4])
        false pico_channel_t.zero test_sfx 127).1 = true ∧
    (init_channel_for_sfx test_cfg (test_wad [0x03, 0x00, 0x11, 0x2b, 0, 0, 0, 0, 1, 2, 3, 4])
        false pico_channel_t.zero test_sfx 127).2.data_end - 8 = 4 ∧
    ¬ ((init_channel_for_sfx test_cfg (test_wad [0x03, 0x00, 0x11, 0x2b, 0, 0, 0, 0, 1, 2, 3, 4])
        false pico_channel_t.zero test_sfx 127).2.data_end - 8 =
      min ((read_le32 [0x03, 0x00, 0x11, 0x2b, 0, 0, 0, 0, 1, 2, 3, 4] 4 : Nat) : Int)
        (([0x03, 0x00, 0x11, 0x2b, 0, 0, 0, 0, 1, 2, 3, 4].length : Int) - 8)) := by
  decide

/-! ## The channel array -/

theorem channels_getD_set_eq (l : List pico_channel_t) (i : Nat) (x d : pico_channel_t)
    (h : i < l.length) : (l.set i x).getD i d = x := by
  simp [List.getD_eq_getElem?_getD, List.getElem?_set, h]

theorem channels_getD_set_ne (l : List pico_channel_t) (i j : Nat) (x d : pico_channel_t)
    (h : i ≠ j) : (l.set i x).getD j d = l.getD j d := by
  simp [List.getD_eq_getElem?_getD, List.getElem?_set, h]

theorem get_set_channel (g : sound_t) (c : Int) (ch : pico_channel_t)
    (h : c.toNat < g.channels.length) : get_channel (set_channel g c ch) c = ch := by
  unfold get_channel set_channel
  exact channels_getD_set_eq _ _ _ _ h

theorem set_channel_length (g : sound_t) (c : Int) (ch : pico_channel_t) :
    (set_channel g c ch).channels.length = g.channels.length := by
  simp [set_channel]

theorem set_channel_fields (g : sound_t) (c : Int) (ch : pico_channel_t) :
    (set_channel g c ch).sound_initialized = g.sound_initialized ∧
    (set_channel g c ch).fade_state = g.fade_state ∧
    (set_channel g c ch).fade_level = g.fade_level := by
  simp [set_channel]

theorem I_Pico_UpdateSoundParams_size (g : sound_t) (handle vol sep c : Int)
    (hc : c.toNat < g.channels.length) :
    (get_channel (I_Pico_UpdateSoundParams g handle vol sep) c).decompressed_size =
        (get_channel g c).decompressed_size ∧
    (get_channel (I_Pico_UpdateSoundParams g handle vol sep) c).is_adpcm =
        (get_channel g c).is_adpcm ∧
    (get_channel (I_Pico_UpdateSoundParams g handle vol sep) c).decompressed =
        (get_channel g c).decompressed := by
  unfold I_Pico_UpdateSoundParams
  split_ifs with h
  · exact ⟨rfl, rfl, rfl⟩
  · simp only
    by_cases hh : handle.toNat = c.toNat
    · have e1 : ∀ (g' : sound_t) (x : pico_channel_t), c.toNat < g'.channels.length →
          get_channel (set_channel g' handle x) c = x := by
        intro g' x hx
        unfold get_channel set_channel
        rw [hh]
        exact channels_getD_set_eq _ _ _ _ hx
      have e2 : ∀ (g' : sound_t), get_channel g' handle = get_channel g' c := by
        intro g'
        unfold get_channel
        rw [hh]
      rw [e1 _ _ (by rw [set_channel_length]; exact hc), e2, e1 _ _ hc, e2]
      exact ⟨rfl, rfl, rfl⟩
    · have e1 : ∀ (g' : sound_t) (x : pico_channel_t),
          get_channel (set_channel g' handle x) c = get_channel g' c := by
        intro g' x
        unfold get_channel set_channel
        exact channels_getD_set_ne _ _ _ _ _ hh
      rw [e1, e1]
      exact ⟨rfl, rfl, rfl⟩

theorem I_Pico_UpdateSoundParams_fields (g : sound_t) (handle vol sep : Int) :
    (I_Pico_UpdateSoundParams g handle vol sep).sound_initialized = g.sound_initialized ∧
    (I_Pico_UpdateSoundParams g handle vol sep).channels.length = g.channels.length := by
  unfold I_Pico_UpdateSoundParams
  split_ifs with h
  · exact ⟨rfl, rfl⟩
  · simp [set_channel]

theorem check_and_init_channel_of_range (g : sound_t) (channel : Int)
    (hinit : g.sound_initialized = true) (h0 : 0 ≤ channel)
    (h1 : channel < (g.channels.length : Int)) (h32 : g.channels.length ≤ 4294967296) :
    check_and_init_channel g channel = true := by
  unfold check_and_init_channel NUM_SOUND_CHANNELS uint32_cast
  rw [hinit]
  simp only [Bool.true_and, decide_eq_true_eq]
  omega

/-- C8 (as amended). `I_Pico_StartSound` called on an initialized subsystem
with an in-range channel index returns the channel index it was given, not
the failure sentinel, also when validation of the sound fails — the asset
lookup misses, the lump is shorter than 8 bytes, or the payload length is not
positive — in which case `init_channel_for_sfx` reports the failure. -/
theorem I_Pico_StartSound_validation_failure (cfg : config_t) (wad : wad_t) (g : sound_t)
    (sfxinfo : sfxinfo_t) (channel vol sep pitch : Int)
    (hcheck : check_and_init_channel g channel = true)
    (hfail : sfx_lumpnum wad g.use_sfx_prefix sfxinfo < 0 ∨
      wad.W_LumpLength (sfx_lumpnum wad g.use_sfx_prefix sfxinfo) < 8 ∨
      sfx_payload_length (wad.W_LumpLength (sfx_lumpnum wad g.use_sfx_prefix sfxinfo))
        (read_le32 (wad.W_CacheLumpNum (sfx_lumpnum wad g.use_sfx_prefix sfxinfo)) 4) ≤ 0) :
    (init_channel_for_sfx cfg wad g.use_sfx_prefix (get_channel (stop_channel g channel) channel)
        sfxinfo pitch).1 = false ∧
    (I_Pico_StartSound cfg wad g sfxinfo channel vol sep pitch).1 = channel := by
  constructor
  · by_cases h1 : sfx_lumpnum wad g.use_sfx_prefix sfxinfo < 0
    · rw [init_channel_for_sfx_miss _ _ _ _ _ _ h1]
    · by_cases h2 : wad.W_LumpLength (sfx_lumpnum wad g.use_sfx_prefix sfxinfo) < 8
      · rw [init_channel_for_sfx_short _ _ _ _ _ _ h1 h2]
      · have h3 : sfx_payload_length
            (wad.W_LumpLength (sfx_lumpnum wad g.use_sfx_prefix sfxinfo))
            (read_le32 (wad.W_CacheLumpNum (sfx_lumpnum wad g.use_sfx_prefix sfxinfo)) 4) ≤ 0 := by
          rcases hfail with hf | hf | hf
          · exact absurd hf h1
          · exact absurd hf h2
          · exact hf
        rw [init_channel_for_sfx_no_payload _ _ _ _ _ _ h1 h2 h3]
  · unfold I_Pico_StartSound
    simp [hcheck]

/-- C8 (witness). An unknown sound requested on channel 1 of two. -/
theorem I_Pico_StartSound_validation_failure_witness :
    check_and_init_channel (test_sound 2) 1 = true ∧
    sfx_lumpnum (test_wad []) ( sound_t.use_sfx_prefix (test_sound 2)) test_sfx_unknown < 0 ∧
    (init_channel_for_sfx test_cfg (test_wad []) ( sound_t.use_sfx_prefix (test_sound 2))
        (get_channel (stop_channel (test_sound 2) 1) 1) test_sfx_unknown 127).1 = false ∧
    (I_Pico_StartSound test_cfg (test_wad []) (test_sound 2) test_sfx_unknown 1 127 128 127).1
      = 1 :=
  ⟨by decide, by decide,
    I_Pico_StartSound_validation_failure test_cfg (test_wad []) (test_sound 2) test_sfx_unknown
      1 127 128 127 (by decide) (Or.inl (by decide))⟩

/-- C8 (counterexample). On an initialized subsystem with two channels, a
request for a sound the asset collaborator cannot resolve, one for a 7-byte
lump and one for an 8-byte lump (no payload), each on channel 1, return 1 and
not the failure sentinel -1. -/
theorem I_Pico_StartSound_validation_failure_counterexample :
    (test_sound 2).sound_initialized = true ∧ (1 : Int) < NUM_SOUND_CHANNELS (test_sound 2) ∧
    sfx_lumpnum (test_wad []) false test_sfx_unknown < 0 ∧
    ¬ ((I_Pico_StartSound test_cfg (test_wad []) (test_sound 2) test_sfx_unknown 1 127 128 127).1
      = -1) ∧
    ¬ ((I_Pico_StartSound test_cfg (test_wad [3, 0, 0x11, 0x2b, 1, 0, 0]) (test_sound 2)
      test_sfx 1 127 128 127).1 = -1) ∧
    ¬ ((I_Pico_StartSound test_cfg (test_wad [3, 0, 0x11, 0x2b, 0, 0, 0, 0]) (test_sound 2)
      test_sfx 1 127 128 127).1 = -1) := by
  decide

theorem stop_channel_fields (g : sound_t) (channel : Int) :
    (stop_channel g channel).sound_initialized = g.sound_initialized ∧
    (stop_channel g channel).channels.length = g.channels.length := by
  simp [stop_channel, set_channel]

theorem decompress_buffer_raw (ch : pico_channel_t) (hraw : ch.is_adpcm = false)
    (hd : ch.data < ch.data_end) :
    (decompress_buffer ch).decompressed_size = (min 249 (ch.data_end - ch.data)).toNat ∧
    (decompress_buffer ch).decompressed =
      raw_copy (ch.mem.drop ch.data.toNat) (min 249 (ch.data_end - ch.data)).toNat
        ch.decompressed ∧
    (decompress_buffer ch).data = ch.data + min 249 (ch.data_end - ch.data) := by
  unfold decompress_buffer
  have h1 : ¬ ch.data = ch.data_end := by omega
  simp only [h1, if_false, hraw, Bool.false_eq_true, ADPCM_SAMPLES_PER_BLOCK_SIZE]
  refine ⟨?_, rfl, rfl⟩
  unfold uint8_cast
  simp only [Nat.cast_ofNat]
  omega

/-- C9 (as amended). `I_Pico_StartSound` does not test the format tag beyond
`== 0x8003`: for every lump of at least 8 bytes with a positive payload
length whose 16-bit tag is not 0x8003 — 0x0003 or any other value — the start
succeeds on an in-range channel of an initialized subsystem: the channel
index is returned, the channel is marked raw PCM, its first
`min(249, payload)` payload bytes are copied as signed 8-bit samples, and the
channel is playing. -/
theorem I_Pico_StartSound_other_tag (cfg : config_t) (wad : wad_t) (g : sound_t)
    (sfxinfo : sfxinfo_t) (channel vol sep pitch : Int)
    (hinit : g.sound_initialized = true) (h0 : 0 ≤ channel)
    (h1 : channel < (g.channels.length : Int)) (h32 : g.channels.length ≤ 4294967296)
    (hk : 0 ≤ sfx_lumpnum wad g.use_sfx_prefix sfxinfo)
    (h8 : 8 ≤ (wad.lump (sfx_lumpnum wad g.use_sfx_prefix sfxinfo)).length)
    (hp : 0 < sfx_payload_length
      ((wad.lump (sfx_lumpnum wad g.use_sfx_prefix sfxinfo)).length : Int)
      (read_le32 (wad.lump (sfx_lumpnum wad g.use_sfx_prefix sfxinfo)) 4))
    (htag : read_le16 (wad.lump (sfx_lumpnum wad g.use_sfx_prefix sfxinfo)) 0 ≠ 0x8003) :
    (I_Pico_StartSound cfg wad g sfxinfo channel vol sep pitch).1 = channel ∧
    (get_channel (I_Pico_StartSound cfg wad g sfxinfo channel vol sep pitch).2 channel).is_adpcm
      = false ∧
    (get_channel (I_Pico_StartSound cfg wad g sfxinfo channel vol sep pitch).2
        channel).decompressed_size =
      (min 249 (sfx_payload_length
        ((wad.lump (sfx_lumpnum wad g.use_sfx_prefix sfxinfo)).length : Int)
        (read_le32 (wad.lump (sfx_lumpnum wad g.use_sfx_prefix sfxinfo)) 4))).toNat ∧
    (get_channel (I_Pico_StartSound cfg wad g sfxinfo channel vol sep pitch).2
        channel).decompressed =
      raw_copy ((wad.lump (sfx_lumpnum wad g.use_sfx_prefix sfxinfo)).drop 8)
        (min 249 (sfx_payload_length
          ((wad.lump (sfx_lumpnum wad g.use_sfx_prefix sfxinfo)).length : Int)
          (read_le32 (wad.lump (sfx_lumpnum wad g.use_sfx_prefix sfxinfo)) 4))).toNat
        (get_channel g channel).decompressed ∧
    I_Pico_SoundIsPlaying (I_Pico_StartSound cfg wad g sfxinfo channel vol sep pitch).2 channel
      = true := by
  have hcheck := check_and_init_channel_of_range g channel hinit h0 h1 h32
  have hk' : ¬ sfx_lumpnum wad g.use_sfx_prefix sfxinfo < 0 := by omega
  have h8' : ¬ wad.W_LumpLength (sfx_lumpnum wad g.use_sfx_prefix sfxinfo) < 8 := by
    unfold wad_t.W_LumpLength; omega
  have hp' : ¬ sfx_payload_length (wad.W_LumpLength (sfx_lumpnum wad g.use_sfx_prefix sfxinfo))
      (read_le32 (wad.W_CacheLumpNum (sfx_lumpnum wad g.use_sfx_prefix sfxinfo)) 4) ≤ 0 := by
    unfold wad_t.W_LumpLength wad_t.W_CacheLumpNum; omega
  have hcn : channel.toNat < g.channels.length := by omega
  have hstop : sound_t.use_sfx_prefix (stop_channel g channel) = g.use_sfx_prefix := rfl
  have hsd : (get_channel (stop_channel g channel) channel).decompressed
      = (get_channel g channel).decompressed := by
    unfold stop_channel
    rw [get_set_channel _ _ _ hcn]
  have hret : (I_Pico_StartSound cfg wad g sfxinfo channel vol sep pitch).1 = channel := by
    unfold I_Pico_StartSound
    simp [hcheck]
  have hst : (I_Pico_StartSound cfg wad g sfxinfo channel vol sep pitch).2 =
      I_Pico_UpdateSoundParams (set_channel (stop_channel g channel) channel
        (init_channel_for_sfx cfg wad g.use_sfx_prefix
          (get_channel (stop_channel g channel) channel) sfxinfo pitch).2) channel vol sep := by
    unfold I_Pico_StartSound
    simp [hcheck, hstop]
  have hlen : channel.toNat < (set_channel (stop_channel g channel) channel
      (init_channel_for_sfx cfg wad g.use_sfx_prefix
        (get_channel (stop_channel g channel) channel) sfxinfo pitch).2).channels.length := by
    rw [set_channel_length, (stop_channel_fields g channel).2]; exact hcn
  have hupd := I_Pico_UpdateSoundParams_size (set_channel (stop_channel g channel) channel
      (init_channel_for_sfx cfg wad g.use_sfx_prefix
        (get_channel (stop_channel g channel) channel) sfxinfo pitch).2) channel vol sep channel
      hlen
  rw [get_set_channel _ _ _ (by rw [(stop_channel_fields g channel).2]; exact hcn)] at hupd
  have htag' : decide (read_le16
      (wad.W_CacheLumpNum (sfx_lumpnum wad g.use_sfx_prefix sfxinfo)) 0 = 0x8003) = false := by
    unfold wad_t.W_CacheLumpNum
    exact decide_eq_false htag
  have hraw := decompress_buffer_raw
    { get_channel (stop_channel g channel) channel with
      is_adpcm := decide (read_le16
        (wad.W_CacheLumpNum (sfx_lumpnum wad g.use_sfx_prefix sfxinfo)) 0 = 0x8003)
      mem := wad.W_CacheLumpNum (sfx_lumpnum wad g.use_sfx_prefix sfxinfo)
      data := 8
      data_end := 8 + sfx_payload_length
        (wad.W_LumpLength (sfx_lumpnum wad g.use_sfx_prefix sfxinfo))
        (read_le32 (wad.W_CacheLumpNum (sfx_lumpnum wad g.use_sfx_prefix sfxinfo)) 4)
      step := sfx_step cfg (read_le16
        (wad.W_CacheLumpNum (sfx_lumpnum wad g.use_sfx_prefix sfxinfo)) 2) pitch }
    htag' (by simp only; omega)
  simp only [add_sub_cancel_left] at hraw
  have hinit2 : (init_channel_for_sfx cfg wad g.use_sfx_prefix
        (get_channel (stop_channel g channel) channel) sfxinfo pitch).2.decompressed_size =
        (min 249 (sfx_payload_length
          ((wad.lump (sfx_lumpnum wad g.use_sfx_prefix sfxinfo)).length : Int)
          (read_le32 (wad.lump (sfx_lumpnum wad g.use_sfx_prefix sfxinfo)) 4))).toNat ∧
      (init_channel_for_sfx cfg wad g.use_sfx_prefix
        (get_channel (stop_channel g channel) channel) sfxinfo pitch).2.is_adpcm = false ∧
      (init_channel_for_sfx cfg wad g.use_sfx_prefix
        (get_channel (stop_channel g channel) channel) sfxinfo pitch).2.decompressed =
        raw_copy ((wad.lump (sfx_lumpnum wad g.use_sfx_prefix sfxinfo)).drop 8)
          (min 249 (sfx_payload_length
            ((wad.lump (sfx_lumpnum wad g.use_sfx_prefix sfxinfo)).length : Int)
            (read_le32 (wad.lump (sfx_lumpnum wad g.use_sfx_prefix sfxinfo)) 4))).toNat
          (get_channel g channel).decompressed := by
    rw [init_channel_for_sfx_ok cfg wad g.use_sfx_prefix _ sfxinfo pitch hk' h8' hp']
    refine ⟨hraw.1, ?_, ?_⟩
    · simp only [(decompress_buffer_fields _).2.2.1]
      exact htag'
    · rw [← hsd]
      exact hraw.2.1
  rw [hinit2.1, hinit2.2.1, hinit2.2.2] at hupd
  have hsize : (get_channel (I_Pico_StartSound cfg wad g sfxinfo channel vol sep pitch).2
      channel).decompressed_size = (min 249 (sfx_payload_length
        ((wad.lump (sfx_lumpnum wad g.use_sfx_prefix sfxinfo)).length : Int)
        (read_le32 (wad.lump (sfx_lumpnum wad g.use_sfx_prefix sfxinfo)) 4))).toNat := by
    rw [hst]; exact hupd.1
  refine ⟨hret, by rw [hst]; exact hupd.2.1, hsize, by rw [hst]; exact hupd.2.2, ?_⟩
  · have hcheck2 : check_and_init_channel
        (I_Pico_StartSound cfg wad g sfxinfo channel vol sep pitch).2 channel = true := by
      apply check_and_init_channel_of_range _ _ _ h0
      · rw [hst, (I_Pico_UpdateSoundParams_fields _ _ _ _).2, set_channel_length,
          (stop_channel_fields g channel).2]; exact h1
      · rw [hst, (I_Pico_UpdateSoundParams_fields _ _ _ _).2, set_channel_length,
          (stop_channel_fields g channel).2]; exact h32
      · rw [hst, (I_Pico_UpdateSoundParams_fields _ _ _ _).1, (set_channel_fields _ _ _).1,
          (stop_channel_fields g channel).1]; exact hinit
    unfold I_Pico_SoundIsPlaying is_channel_playing
    rw [hcheck2, hsize]
    simp only [Bool.not_true, Bool.false_eq_true, if_false, decide_eq_true_eq]
    unfold wad_t.W_LumpLength wad_t.W_CacheLumpNum at hp'
    omega

/-- C9 (witness). A 12-byte lump with tag 0x0003 started on channel 1 of two. -/
theorem I_Pico_StartSound_other_tag_witness :
    read_le16 [0x03, 0x00, 0x11, 0x2b, 4, 0, 0, 0, 1, 2, 0xfe, 0x80] 0 ≠ 0x8003 ∧
    I_Pico_SoundIsPlaying (I_Pico_StartSound test_cfg
      (test_wad [0x03, 0x00, 0x11, 0x2b, 4, 0, 0, 0, 1, 2, 0xfe, 0x80]) (test_sound 2) test_sfx
      1 127 128 127).2 1 = true :=
  ⟨by decide,
    (I_Pico_StartSound_other_tag test_cfg
      (test_wad [0x03, 0x00, 0x11, 0x2b, 4, 0, 0, 0, 1, 2, 0xfe, 0x80]) (test_sound 2) test_sfx
      1 127 128 127 (by decide) (by decide) (by decide) (by decide) (by decide) (by decide)
      (by decide) (by decide)).2.2.2.2⟩

/-- C9 (counterexample). A 12-byte lump whose format tag is 0x1234, neither
0x8003 nor 0x0003, is started: the channel is playing afterwards and its four
payload bytes have been copied into the decode buffer as signed samples. -/
theorem I_Pico_StartSound_other_tag_counterexample :
    read_le16 [0x34, 0x12, 0x11, 0x2b, 4, 0, 0, 0, 1, 2, 0xfe, 0x80] 0 = 0x1234 ∧
    (I_Pico_StartSound test_cfg (test_wad [0x34, 0x12, 0x11, 0x2b, 4, 0, 0, 0, 1, 2, 0xfe, 0x80])
      (test_sound 2) test_sfx 1 127 128 127).1 = 1 ∧
    I_Pico_SoundIsPlaying (I_Pico_StartSound test_cfg
      (test_wad [0x34, 0x12, 0x11, 0x2b, 4, 0, 0, 0, 1, 2, 0xfe, 0x80]) (test_sound 2) test_sfx
      1 127 128 127).2 1 = true ∧
    (get_channel (I_Pico_StartSound test_cfg
      (test_wad [0x34, 0x12, 0x11, 0x2b, 4, 0, 0, 0, 1, 2, 0xfe, 0x80]) (test_sound 2) test_sfx
      1 127 128 127).2 1).decompressed_size = 4 ∧
    (get_channel (I_Pico_StartSound test_cfg
      (test_wad [0x34, 0x12, 0x11, 0x2b, 4, 0, 0, 0, 1, 2, 0xfe, 0x80]) (test_sound 2) test_sfx
      1 127 128 127).2 1).decompressed.take 4 = [1, 2, -2, -128] := by
  decide

/-! ## Mixer: ranges -/

theorem int8_buffer_getD (l : List Int) (h : int8_buffer l) (i : Nat) :
    -128 ≤ l.getD i 0 ∧ l.getD i 0 ≤ 127 := by
  by_cases hi : i < l.length
  · rw [List.getD_eq_getElem _ _ hi]
    exact h _ (List.getElem_mem hi)
  · rw [List.getD_eq_default _ _ (by omega)]
    norm_num

theorem int8_buffer_of_getD (l : List Int)
    (h : ∀ i : Nat, -128 ≤ l.getD i 0 ∧ l.getD i 0 ≤ 127) : int8_buffer l := by
  intro x hx
  obtain ⟨i, hi, rfl⟩ := List.getElem_of_mem hx
  have := h i
  rwa [List.getD_eq_getElem _ _ hi] at this

theorem int16_buffer_getD (l : List Int) (h : int16_buffer l) (i : Nat) :
    -32768 ≤ l.getD i 0 ∧ l.getD i 0 ≤ 32767 := by
  by_cases hi : i < l.length
  · rw [List.getD_eq_getElem _ _ hi]
    exact h _ (List.getElem_mem hi)
  · rw [List.getD_eq_default _ _ (by omega)]
    norm_num

theorem int8_buffer_set (l : List Int) (i : Nat) (v : Int) (h : int8_buffer l)
    (hv : -128 ≤ v ∧ v ≤ 127) : int8_buffer (l.set i v) := by
  intro x hx
  rcases List.mem_or_eq_of_mem_set hx with h1 | h1
  · exact h x h1
  · rw [h1]; exact hv

theorem int16_buffer_set (l : List Int) (i : Nat) (v : Int) (h : int16_buffer l)
    (hv : -32768 ≤ v ∧ v ≤ 32767) : int16_buffer (l.set i v) := by
  intro x hx
  rcases List.mem_or_eq_of_mem_set hx with h1 | h1
  · exact h x h1
  · rw [h1]; exact hv

theorem raw_copy_int8 (src : List Nat) (n : Nat) (d : List Int) (h : int8_buffer d) :
    int8_buffer (raw_copy src n d) := by
  unfold raw_copy
  generalize List.range n = is
  induction is generalizing d with
  | nil => simpa using h
  | cons i is ih =>
    simp only [List.foldl_cons]
    exact ih _ (int8_buffer_set d i _ h (int8_cast_range _))

theorem uint8_cast_lt (v : Int) : uint8_cast v < 256 := by
  unfold uint8_cast
  omega

theorem decompress_buffer_typed (ch : pico_channel_t) (h : channel_typed ch) :
    channel_typed (decompress_buffer ch) := by
  obtain ⟨hl, hr, ha, hs, hd⟩ := h
  have hf := decompress_buffer_fields ch
  refine ⟨by rw [hf.2.2.2.2.2.1]; exact hl, by rw [hf.2.2.2.2.2.2.1]; exact hr,
    by rw [hf.2.2.2.2.2.2.2]; exact ha, ?_, ?_⟩
  · unfold decompress_buffer
    split_ifs
    · simp
    · exact uint8_cast_lt _
    · exact uint8_cast_lt _
  · unfold decompress_buffer
    split_ifs
    · exact hd
    · simp only
      apply int8_buffer_of_getD
      intro i
      rcases adpcm_decode_outbuf_int8 ch.decompressed (ch.mem.drop ch.data.toNat)
        (min ADPCM_BLOCK_SIZE (ch.data_end - ch.data)) i with h1 | h1
      · rw [h1]; exact int8_buffer_getD _ hd i
      · exact h1
    · exact raw_copy_int8 _ _ _ hd

theorem tdiv256_range (x : Int) (h1 : -32768 ≤ x) (h2 : x ≤ 32512) :
    -128 ≤ Int.tdiv x 256 ∧ Int.tdiv x 256 ≤ 127 := by
  by_cases hx : 0 ≤ x
  · rw [Int.tdiv_eq_ediv hx (by norm_num)]
    omega
  · have h3 : Int.tdiv x 256 = -(Int.tdiv (-x) 256) := by
      rw [Int.neg_tdiv]; simp
    rw [h3, Int.tdiv_eq_ediv (by omega) (by norm_num)]
    omega

theorem smooth_range (alpha256 sample d : Int) (ha0 : 0 ≤ alpha256) (ha1 : alpha256 ≤ 255)
    (hs : -128 ≤ sample ∧ sample ≤ 127) (hd : -128 ≤ d ∧ d ≤ 127) :
    -128 ≤ Int.tdiv ((256 - alpha256) * sample + alpha256 * d) 256 ∧
      Int.tdiv ((256 - alpha256) * sample + alpha256 * d) 256 ≤ 127 := by
  have hb : 0 ≤ 256 - alpha256 := by omega
  have e1 : (256 - alpha256) * sample ≤ (256 - alpha256) * 127 :=
    mul_le_mul_of_nonneg_left hs.2 hb
  have e2 : (256 - alpha256) * (-128) ≤ (256 - alpha256) * sample :=
    mul_le_mul_of_nonneg_left hs.1 hb
  have e3 : alpha256 * d ≤ alpha256 * 127 := mul_le_mul_of_nonneg_left hd.2 ha0
  have e4 : alpha256 * (-128) ≤ alpha256 * d := mul_le_mul_of_nonneg_left hd.1 ha0
  apply tdiv256_range
  · linarith
  · linarith

theorem gain_product_range (sample vol : Int) (hs : -128 ≤ sample ∧ sample ≤ 127)
    (hv0 : 0 ≤ vol) (hv1 : vol ≤ 255) : -32640 ≤ sample * vol ∧ sample * vol ≤ 32385 := by
  have e1 : sample * vol ≤ 127 * vol := mul_le_mul_of_nonneg_right hs.2 hv0
  have e2 : (-128) * vol ≤ sample * vol := mul_le_mul_of_nonneg_right hs.1 hv0
  constructor <;> linarith

theorem clamp_s16_eq (v : Int) : clamp_s16 v = spec_clamp v (-32768) 32767 := by
  unfold clamp_s16 spec_clamp int16_cast
  split_ifs <;> omega

theorem clamp_s16_range (v : Int) : -32768 ≤ clamp_s16 v ∧ clamp_s16 v ≤ 32767 := by
  rw [clamp_s16_eq]
  unfold spec_clamp
  omega

theorem mix_store_exact (existing sample vol : Int) (he : -32768 ≤ existing ∧ existing ≤ 32767)
    (hs : -128 ≤ sample ∧ sample ≤ 127) (hv0 : 0 ≤ vol) (hv1 : vol ≤ 255) :
    clamp_s16 (int32_cast (existing + int32_cast (sample * vol))) =
      spec_clamp (existing + sample * vol) (-32768) 32767 := by
  have hp := gain_product_range sample vol hs hv0 hv1
  rw [int32_cast_of_range (sample * vol) (by omega) (by omega),
    int32_cast_of_range _ (by omega) (by omega), clamp_s16_eq]

theorem mix_slot_samples (voll volr alpha256 beta256 : Int) (s : Nat) (m : mix_state) :
    (mix_slot voll volr alpha256 beta256 s m).sample = Int.tdiv
      (beta256 * m.sample + alpha256 * m.channel.decompressed.getD (m.channel.offset >>> 16) 0)
      256 ∧
    (mix_slot voll volr alpha256 beta256 s m).samples =
      (m.samples.set (2 * s) (clamp_s16 (int32_cast (m.samples.getD (2 * s) 0 + int32_cast
        ((mix_slot voll volr alpha256 beta256 s m).sample * voll))))).set (2 * s + 1)
        (clamp_s16 (int32_cast ((m.samples.set (2 * s) (clamp_s16 (int32_cast
          (m.samples.getD (2 * s) 0 + int32_cast
            ((mix_slot voll volr alpha256 beta256 s m).sample * voll))))).getD (2 * s + 1) 0
          + int32_cast ((mix_slot voll volr alpha256 beta256 s m).sample * volr)))) := by
  unfold mix_slot
  simp only
  split_ifs <;> exact ⟨rfl, rfl⟩

theorem getD_set_other (l : List Int) (i j : Nat) (v : Int) (h : i ≠ j) :
    (l.set i v).getD j 0 = l.getD j 0 := by
  simp [List.getD_eq_getElem?_getD, List.getElem?_set, h]

theorem mix_slot_channel_typed (voll volr alpha256 beta256 : Int) (s : Nat) (m : mix_state)
    (h : channel_typed m.channel) :
    channel_typed (mix_slot voll volr alpha256 beta256 s m).channel := by
  have hty : ∀ o : Nat, channel_typed { m.channel with offset := o } := fun o => h
  unfold mix_slot
  simp only
  split_ifs
  · have h2 := decompress_buffer_typed _ (hty (uint32_cast
      ((uint32_cast ((m.channel.offset : Int) + m.channel.step) : Int) - m.offset_end)))
    exact ⟨h2.1, h2.2.1, h2.2.2.1, by simp, h2.2.2.2.2⟩
  · exact decompress_buffer_typed _ (hty _)
  · exact hty _

theorem MixInv_slot (voll volr alpha256 : Int) (s : Nat) (m : mix_state) (h : MixInv m)
    (hl0 : 0 ≤ voll) (hl1 : voll ≤ 255) (hr0 : 0 ≤ volr) (hr1 : volr ≤ 255)
    (ha0 : 0 ≤ alpha256) (ha1 : alpha256 ≤ 255) :
    MixInv (mix_slot voll volr alpha256 (256 - alpha256) s m) ∧
    (mix_slot voll volr alpha256 (256 - alpha256) s m).samples =
      (m.samples.set (2 * s) (spec_clamp (m.samples.getD (2 * s) 0 +
        (mix_slot voll volr alpha256 (256 - alpha256) s m).sample * voll) (-32768) 32767)).set
        (2 * s + 1) (spec_clamp (m.samples.getD (2 * s + 1) 0 +
        (mix_slot voll volr alpha256 (256 - alpha256) s m).sample * volr) (-32768) 32767) := by
  obtain ⟨hc, hs, hb⟩ := h
  obtain ⟨e1, e2⟩ := mix_slot_samples voll volr alpha256 (256 - alpha256) s m
  have hsr : -128 ≤ (mix_slot voll volr alpha256 (256 - alpha256) s m).sample ∧
      (mix_slot voll volr alpha256 (256 - alpha256) s m).sample ≤ 127 := by
    rw [e1]
    exact smooth_range alpha256 m.sample _ ha0 ha1 hs (int8_buffer_getD _ hc.2.2.2.2 _)
  have hst : (mix_slot voll volr alpha256 (256 - alpha256) s m).samples =
      (m.samples.set (2 * s) (spec_clamp (m.samples.getD (2 * s) 0 +
        (mix_slot voll volr alpha256 (256 - alpha256) s m).sample * voll) (-32768) 32767)).set
        (2 * s + 1) (spec_clamp (m.samples.getD (2 * s + 1) 0 +
        (mix_slot voll volr alpha256 (256 - alpha256) s m).sample * volr) (-32768) 32767) := by
    rw [e2, getD_set_other _ _ _ _ (by omega),
      mix_store_exact _ _ _ (int16_buffer_getD _ hb _) hsr hl0 hl1,
      mix_store_exact _ _ _ (int16_buffer_getD _ hb _) hsr hr0 hr1]
  refine ⟨⟨mix_slot_channel_typed _ _ _ _ _ _ hc, hsr, ?_⟩, hst⟩
  rw [hst]
  apply int16_buffer_set
  · apply int16_buffer_set _ _ _ hb
    unfold spec_clamp; omega
  · unfold spec_clamp; omega

theorem MixInv_slots (voll volr alpha256 : Int)
    (hl0 : 0 ≤ voll) (hl1 : voll ≤ 255) (hr0 : 0 ≤ volr) (hr1 : volr ≤ 255)
    (ha0 : 0 ≤ alpha256) (ha1 : alpha256 ≤ 255) (n : Nat) :
    ∀ (s : Nat) (m : mix_state), MixInv m →
      MixInv (mix_slots voll volr alpha256 (256 - alpha256) n s m) := by
  induction n with
  | zero => intro s m h; exact h
  | succ n ih =>
    intro s m h
    unfold mix_slots
    have h1 := (MixInv_slot voll volr alpha256 s m h hl0 hl1 hr0 hr1 ha0 ha1).1
    split_ifs
    · exact h1
    · exact ih _ _ h1

theorem MixInv_enter (channel : pico_channel_t) (samples : List Int)
    (hc : channel_typed channel) (hb : int16_buffer samples) :
    MixInv (mix_enter channel samples) :=
  ⟨hc, int8_buffer_getD _ hc.2.2.2.2 _, hb⟩

theorem MixInv_channel_slots (n : Nat) (channel : pico_channel_t) (samples : List Int)
    (hc : channel_typed channel) (hb : int16_buffer samples) :
    MixInv (mix_channel_slots n channel samples) := by
  unfold mix_channel_slots
  exact MixInv_slots _ _ _ (by omega) (by have := hc.1; omega) (by omega)
    (by have := hc.2.1; omega) (by omega) (by have := hc.2.2.1; omega) n 0 _
    (MixInv_enter channel samples hc hb)

theorem mix_channel_typed (k : Nat) (channel : pico_channel_t) (samples : List Int)
    (hc : channel_typed channel) (hb : int16_buffer samples) :
    channel_typed (mix_channel k channel samples).1 ∧
      int16_buffer (mix_channel k channel samples).2 := by
  unfold mix_channel
  split_ifs
  · exact ⟨hc, hb⟩
  · have h := MixInv_channel_slots k channel samples hc hb
    exact ⟨h.1, h.2.2⟩

theorem mix_channels_typed (k : Nat) (channels : List pico_channel_t) :
    ∀ (samples : List Int), (∀ ch ∈ channels, channel_typed ch) → int16_buffer samples →
      (∀ ch ∈ (mix_channels k channels samples).1, channel_typed ch) ∧
        int16_buffer (mix_channels k channels samples).2 := by
  induction channels with
  | nil =>
    intro samples _ hb
    exact ⟨by simp [mix_channels], hb⟩
  | cons c cs ih =>
    intro samples hc hb
    have h1 := mix_channel_typed k c samples (hc c (List.mem_cons_self _ _)) hb
    have h2 := ih (mix_channel k c samples).2
      (fun ch hch => hc ch (List.mem_cons_of_mem _ hch)) h1.2
    unfold mix_channels
    refine ⟨?_, h2.2⟩
    intro ch hch
    simp only [List.mem_cons] at hch
    rcases hch with hch | hch
    · rw [hch]; exact h1.1
    · exact h2.1 ch hch

theorem mix_channels_cons (k : Nat) (c : pico_channel_t) (cs : List pico_channel_t)
    (samples : List Int) :
    mix_channels k (c :: cs) samples =
      ((mix_channel k c samples).1 :: (mix_channels k cs (mix_channel k c samples).2).1,
       (mix_channels k cs (mix_channel k c samples).2).2) := rfl

theorem mix_channels_append (k : Nat) (pre post : List pico_channel_t) :
    ∀ (samples : List Int),
      mix_channels k (pre ++ post) samples =
        ((mix_channels k pre samples).1 ++
          (mix_channels k post (mix_channels k pre samples).2).1,
         (mix_channels k post (mix_channels k pre samples).2).2) := by
  induction pre with
  | nil => intro samples; simp [mix_channels]
  | cons c cs ih =>
    intro samples
    have e := ih (mix_channel k c samples).2
    rw [List.cons_append, mix_channels_cons, e, mix_channels_cons]
    rfl

/-- C6. For every base buffer content (of `int16_t` values), every list of
channels and every channel state (of the field types' ranges), the buffer
`mix_audio_buffer`'s channel loop leaves holds only values in
`[-32768, 32767]`; and for each channel of the list, at each sample slot of
its pass over the buffer left by the channels before it, the smoothed sample
lies in `[-128, 127]` and the two values stored are
`clamp(existing + sample * gain, -32768, 32767)` of the exact integer sum: the
32-bit sums never wrap. -/
theorem mix_channels_saturating (max_sample_count : Nat) (channels : List pico_channel_t)
    (samples : List Int) (hch : ∀ ch ∈ channels, channel_typed ch)
    (hbuf : int16_buffer samples) :
    int16_buffer (mix_channels max_sample_count channels samples).2 ∧
    ∀ (pre post : List pico_channel_t) (channel : pico_channel_t) (n : Nat),
      channels = pre ++ channel :: post →
      (mix_channels max_sample_count channels samples).2 =
        (mix_channels max_sample_count post (mix_channel max_sample_count channel
          (mix_channels max_sample_count pre samples).2).2).2 ∧
      (-128 ≤ (mix_slot channel.left channel.right channel.alpha256 (256 - channel.alpha256) n
          (mix_channel_slots n channel (mix_channels max_sample_count pre samples).2)).sample ∧
        (mix_slot channel.left channel.right channel.alpha256 (256 - channel.alpha256) n
          (mix_channel_slots n channel (mix_channels max_sample_count pre samples).2)).sample
          ≤ 127) ∧
      (mix_slot channel.left channel.right channel.alpha256 (256 - channel.alpha256) n
          (mix_channel_slots n channel (mix_channels max_sample_count pre samples).2)).samples =
        ((mix_channel_slots n channel (mix_channels max_sample_count pre samples).2).samples.set
          (2 * n) (spec_clamp
            ((mix_channel_slots n channel
                (mix_channels max_sample_count pre samples).2).samples.getD (2 * n) 0 +
              (mix_slot channel.left channel.right channel.alpha256 (256 - channel.alpha256) n
                (mix_channel_slots n channel
                  (mix_channels max_sample_count pre samples).2)).sample * channel.left)
            (-32768) 32767)).set (2 * n + 1) (spec_clamp
            ((mix_channel_slots n channel
                (mix_channels max_sample_count pre samples).2).samples.getD (2 * n + 1) 0 +
              (mix_slot channel.left channel.right channel.alpha256 (256 - channel.alpha256) n
                (mix_channel_slots n channel
                  (mix_channels max_sample_count pre samples).2)).sample * channel.right)
            (-32768) 32767) := by
  refine ⟨(mix_channels_typed max_sample_count channels samples hch hbuf).2, ?_⟩
  intro pre post channel n hsplit
  have hpre : ∀ ch ∈ pre, channel_typed ch := by
    intro ch hc
    exact hch ch (by rw [hsplit]; exact List.mem_append_left _ hc)
  have hc : channel_typed channel :=
    hch channel (by rw [hsplit]; exact List.mem_append_right _ (List.mem_cons_self _ _))
  have hbase := (mix_channels_typed max_sample_count pre samples hpre hbuf).2
  have hm := MixInv_channel_slots n channel _ hc hbase
  have hslot := MixInv_slot (channel.left : Int) (channel.right : Int) (channel.alpha256 : Int) n
    _ hm (by omega) (by have := hc.1; omega) (by omega) (by have := hc.2.1; omega) (by omega)
    (by have := hc.2.2.1; omega)
  refine ⟨?_, hslot.1.2.1, hslot.2⟩
  rw [hsplit, mix_channels_append, mix_channels_cons]

/-- C6 (witness). Two copies of a playing channel with full left gain mixed
over a base buffer that is already at the positive and negative limits. -/
theorem mix_channels_saturating_witness :
    (∀ ch ∈ [test_channel, test_channel], channel_typed ch) ∧
    int16_buffer [32767, -32768, 32767, -32768] ∧
    int16_buffer (mix_channels 2 [test_channel, test_channel] [32767, -32768, 32767, -32768]).2 :=
  ⟨by simp [channel_typed, int8_buffer, test_channel], by simp [int16_buffer],
    (mix_channels_saturating 2 [test_channel, test_channel] [32767, -32768, 32767, -32768]
      (by simp [channel_typed, int8_buffer, test_channel]) (by simp [int16_buffer])).1⟩

/-! ## Mixer: playback position -/

theorem decompress_buffer_size_lt (ch : pico_channel_t) :
    (decompress_buffer ch).decompressed_size < 256 := by
  unfold decompress_buffer
  split_ifs
  · simp
  · exact uint8_cast_lt _
  · exact uint8_cast_lt _

theorem uint32_cast_size (k : Nat) (h : k < 256) :
    uint32_cast ((k : Int) * 65536) = k * 65536 := by
  unfold uint32_cast
  omega

theorem OffsetInv_slot (voll volr alpha256 beta256 : Int) (s : Nat) (m : mix_state)
    (h : m.offset_end = m.channel.decompressed_size * 65536) :
    OffsetInv (mix_slot voll volr alpha256 beta256 s m) := by
  unfold mix_slot
  simp only
  split_ifs with h1 h2
  · exact Or.inl ⟨rfl, rfl⟩
  · right
    refine ⟨rfl, ?_, ?_⟩
    · exact uint32_cast_size _ (decompress_buffer_size_lt _)
    · simp only
      rw [uint32_cast_size _ (decompress_buffer_size_lt _)] at h2
      omega
  · right
    refine ⟨rfl, h, ?_⟩
    simp only at h1 ⊢
    omega

theorem OffsetInv_slots (voll volr alpha256 beta256 : Int) (n : Nat) :
    ∀ (s : Nat) (m : mix_state), OffsetInv m → m.stopped = false →
      OffsetInv (mix_slots voll volr alpha256 beta256 n s m) := by
  induction n with
  | zero => intro s m h _; exact h
  | succ n ih =>
    intro s m h hs
    have hend : m.offset_end = m.channel.decompressed_size * 65536 := by
      rcases h with h | h
      · rw [hs] at h; exact absurd h.1 (by simp)
      · exact h.2.1
    have h1 := OffsetInv_slot voll volr alpha256 beta256 s m hend
    unfold mix_slots
    split_ifs with hst
    · exact h1
    · exact ih _ _ h1 (by simpa using hst)

/-- C7. For every channel that enters its pass of the mix active
(`decompressed_size` nonzero, an 8-bit value) with
`offset < decompressed_size * 65536`, after every number `n` of output slots
of the pass — and so after the whole pass, whose result `mix_channel` returns
— either the channel has been stopped during the pass (the loop was left
through `break` with `decompressed_size = 0`) or
`offset < decompressed_size * 65536` holds for the current decoded block. -/
theorem mix_channel_offset_invariant (channel : pico_channel_t) (samples : List Int) (n : Nat)
    (hsize : channel.decompressed_size < 256) (hact : channel.decompressed_size ≠ 0)
    (hoff : channel.offset < channel.decompressed_size * 65536) :
    (((mix_channel_slots n channel samples).stopped = true ∧
        (mix_channel_slots n channel samples).channel.decompressed_size = 0) ∨
      ((mix_channel_slots n channel samples).stopped = false ∧
        (mix_channel_slots n channel samples).channel.offset <
          (mix_channel_slots n channel samples).channel.decompressed_size * 65536)) ∧
    (mix_channel n channel samples).1 = (mix_channel_slots n channel samples).channel := by
  have h0 : OffsetInv (mix_enter channel samples) :=
    Or.inr ⟨rfl, uint32_cast_size _ hsize, hoff⟩
  have h := OffsetInv_slots (channel.left : Int) (channel.right : Int) (channel.alpha256 : Int)
    (256 - (channel.alpha256 : Int)) n 0 _ h0 rfl
  constructor
  · rcases h with h | h
    · exact Or.inl h
    · exact Or.inr ⟨h.1, h.2.2⟩
  · unfold mix_channel
    rw [if_neg hact]

/-- C7 (witness). A playing channel whose payload is exhausted, mixed over
four slots: it crosses the end of its three-sample block and is stopped. -/
theorem mix_channel_offset_invariant_witness :
    (test_channel.decompressed_size < 256 ∧ test_channel.decompressed_size ≠ 0 ∧
      test_channel.offset < test_channel.decompressed_size * 65536) ∧
    (((mix_channel_slots 4 test_channel [0, 0, 0, 0, 0, 0, 0, 0]).stopped = true ∧
        (mix_channel_slots 4 test_channel [0, 0, 0, 0, 0, 0, 0, 0]).channel.decompressed_size
          = 0) ∨
      ((mix_channel_slots 4 test_channel [0, 0, 0, 0, 0, 0, 0, 0]).stopped = false ∧
        (mix_channel_slots 4 test_channel [0, 0, 0, 0, 0, 0, 0, 0]).channel.offset <
          (mix_channel_slots 4 test_channel
            [0, 0, 0, 0, 0, 0, 0, 0]).channel.decompressed_size * 65536)) :=
  ⟨by decide,
    (mix_channel_offset_invariant test_channel [0, 0, 0, 0, 0, 0, 0, 0] 4 (by decide) (by decide)
      (by decide)).1⟩

/-! ## Channel operations: frame and failure -/

theorem channels_set_set (l : List pico_channel_t) (i : Nat) (a b : pico_channel_t) :
    (l.set i a).set i b = l.set i b := by
  simp

theorem I_Pico_UpdateSoundParams_eq (g : sound_t) (handle vol sep : Int)
    (hinit : g.sound_initialized = true) (h0 : 0 ≤ handle)
    (h1 : handle < (g.channels.length : Int)) :
    I_Pico_UpdateSoundParams g handle vol sep =
      set_channel g handle
        { get_channel g handle with
          left := params_left vol sep, right := params_right vol sep } := by
  have hn : handle.toNat < g.channels.length := by omega
  have hc : ¬ ((!g.sound_initialized) = true ∨ handle < 0 ∨
      handle ≥ (NUM_SOUND_CHANNELS g : Int)) := by
    unfold NUM_SOUND_CHANNELS
    rw [hinit]
    intro h
    rcases h with h | h | h
    · simp at h
    · omega
    · omega
  unfold I_Pico_UpdateSoundParams
  rw [if_neg hc]
  simp only
  rw [get_set_channel _ _ _ hn]
  unfold set_channel params_left params_right
  simp only [channels_set_set]

theorem gain_clamp_eq (x : Int) :
    uint8_cast (if x < 0 then 0 else if x > 255 then 255 else x) = (spec_clamp x 0 255).toNat := by
  unfold uint8_cast spec_clamp
  split_ifs <;> omega

theorem params_eq_spec (vol sep : Int)
    (hsep : -2147483648 ≤ 254 - sep ∧ 254 - sep ≤ 2147483647)
    (hl : -2147483648 ≤ (254 - sep) * vol ∧ (254 - sep) * vol ≤ 2147483647)
    (hr : -2147483648 ≤ sep * vol ∧ sep * vol ≤ 2147483647) :
    params_left vol sep = (spec_left vol sep).toNat ∧
    params_right vol sep = (spec_right vol sep).toNat := by
  unfold params_left params_right spec_left spec_right
  simp only
  rw [int32_cast_of_range (254 - sep) hsep.1 hsep.2,
    int32_cast_of_range ((254 - sep) * vol) hl.1 hl.2,
    int32_cast_of_range (sep * vol) hr.1 hr.2, gain_clamp_eq, gain_clamp_eq]
  exact ⟨rfl, rfl⟩

theorem I_Pico_UpdateSoundParams_spec (g : sound_t) (handle vol sep : Int)
    (hinit : g.sound_initialized = true) (h0 : 0 ≤ handle)
    (h1 : handle < (g.channels.length : Int))
    (hsep : -2147483648 ≤ 254 - sep ∧ 254 - sep ≤ 2147483647)
    (hl : -2147483648 ≤ (254 - sep) * vol ∧ (254 - sep) * vol ≤ 2147483647)
    (hr : -2147483648 ≤ sep * vol ∧ sep * vol ≤ 2147483647) :
    I_Pico_UpdateSoundParams g handle vol sep =
      set_channel g handle { get_channel g handle with
        left := (spec_left vol sep).toNat, right := (spec_right vol sep).toNat } := by
  rw [I_Pico_UpdateSoundParams_eq g handle vol sep hinit h0 h1,
    (params_eq_spec vol sep hsep hl hr).1, (params_eq_spec vol sep hsep hl hr).2]

theorem params_lt (vol sep : Int) : params_left vol sep < 256 ∧ params_right vol sep < 256 :=
  ⟨uint8_cast_lt _, uint8_cast_lt _⟩

theorem get_set_channel_ne (g : sound_t) (c d : Int) (ch : pico_channel_t)
    (h : c.toNat ≠ d.toNat) : get_channel (set_channel g c ch) d = get_channel g d := by
  unfold get_channel set_channel
  exact channels_getD_set_ne _ _ _ _ _ h

/-- C16 (as amended). For every valid handle of an initialized subsystem and
all `vol` and `sep`, `I_Pico_UpdateSoundParams` changes `left` and `right` of
`channels[handle]` and nothing else: no other field of that channel, no other
channel, no other module variable. When `254 - sep`, `(254 - sep) * vol` and
`sep * vol` fit in a 32-bit `int`, the values stored are
`left = clamp((((254-sep)*vol)/127)/4, 0, 255)` and
`right = clamp(((sep*vol)/127)/4, 0, 255)` (C truncating division). -/
theorem I_Pico_UpdateSoundParams_gains (g : sound_t) (handle vol sep : Int)
    (hinit : g.sound_initialized = true) (h0 : 0 ≤ handle)
    (h1 : handle < (g.channels.length : Int)) :
    get_channel (I_Pico_UpdateSoundParams g handle vol sep) handle =
      { get_channel g handle with
        left := params_left vol sep, right := params_right vol sep } ∧
    ((-2147483648 ≤ 254 - sep ∧ 254 - sep ≤ 2147483647) →
      (-2147483648 ≤ (254 - sep) * vol ∧ (254 - sep) * vol ≤ 2147483647) →
      (-2147483648 ≤ sep * vol ∧ sep * vol ≤ 2147483647) →
      get_channel (I_Pico_UpdateSoundParams g handle vol sep) handle =
        { get_channel g handle with
          left := (spec_left vol sep).toNat, right := (spec_right vol sep).toNat } ∧
      ((get_channel (I_Pico_UpdateSoundParams g handle vol sep) handle).left : Int) =
        spec_left vol sep ∧
      ((get_channel (I_Pico_UpdateSoundParams g handle vol sep) handle).right : Int) =
        spec_right vol sep) ∧
    (params_left vol sep < 256 ∧ params_right vol sep < 256) ∧
    (∀ c : Int, c.toNat ≠ handle.toNat →
      get_channel (I_Pico_UpdateSoundParams g handle vol sep) c = get_channel g c) ∧
    (I_Pico_UpdateSoundParams g handle vol sep).channels.length = g.channels.length ∧
    (I_Pico_UpdateSoundParams g handle vol sep).sound_initialized = g.sound_initialized ∧
    (I_Pico_UpdateSoundParams g handle vol sep).fade_state = g.fade_state ∧
    (I_Pico_UpdateSoundParams g handle vol sep).fade_level = g.fade_level := by
  have hn : handle.toNat < g.channels.length := by omega
  refine ⟨?_, fun hsep hl hr => ?_, params_lt vol sep, ?_, ?_, ?_, ?_, ?_⟩
  · rw [I_Pico_UpdateSoundParams_eq g handle vol sep hinit h0 h1]
    exact get_set_channel _ _ _ hn
  · rw [I_Pico_UpdateSoundParams_spec g handle vol sep hinit h0 h1 hsep hl hr,
      get_set_channel _ _ _ hn]
    refine ⟨rfl, ?_, ?_⟩
    · show (((spec_left vol sep).toNat : Nat) : Int) = spec_left vol sep
      unfold spec_left spec_clamp
      omega
    · show (((spec_right vol sep).toNat : Nat) : Int) = spec_right vol sep
      unfold spec_right spec_clamp
      omega
  · intro c hc
    rw [I_Pico_UpdateSoundParams_eq g handle vol sep hinit h0 h1]
    exact get_set_channel_ne _ _ _ _ (fun h => hc h.symm)
  · rw [I_Pico_UpdateSoundParams_eq g handle vol sep hinit h0 h1]
    exact set_channel_length _ _ _
  · rw [I_Pico_UpdateSoundParams_eq g handle vol sep hinit h0 h1]
    exact (set_channel_fields _ _ _).1
  · rw [I_Pico_UpdateSoundParams_eq g handle vol sep hinit h0 h1]
    exact (set_channel_fields _ _ _).2.1
  · rw [I_Pico_UpdateSoundParams_eq g handle vol sep hinit h0 h1]
    exact (set_channel_fields _ _ _).2.2

/-- C16 (witness): the scenario of the specification. At `vol = 127` a
channel gets `(left, right) = (63, 0)` for `sep = 0` and `(0, 63)` for
`sep = 254`. -/
theorem I_Pico_UpdateSoundParams_gains_witness :
    ((test_sound 2).sound_initialized = true ∧ (0 : Int) ≤ 1 ∧
      (1 : Int) < ((test_sound 2).channels.length : Int)) ∧
    (((get_channel (I_Pico_UpdateSoundParams (test_sound 2) 1 127 0) 1).left : Int) = 63 ∧
      ((get_channel (I_Pico_UpdateSoundParams (test_sound 2) 1 127 0) 1).right : Int) = 0) ∧
    (((get_channel (I_Pico_UpdateSoundParams (test_sound 2) 1 127 254) 1).left : Int) = 0 ∧
      ((get_channel (I_Pico_UpdateSoundParams (test_sound 2) 1 127 254) 1).right : Int)
        = 63) := by
  have a := (I_Pico_UpdateSoundParams_gains (test_sound 2) 1 127 0 (by decide) (by decide)
    (by decide)).2.1 (by decide) (by decide) (by decide)
  have b := (I_Pico_UpdateSoundParams_gains (test_sound 2) 1 127 254 (by decide) (by decide)
    (by decide)).2.1 (by decide) (by decide) (by decide)
  exact ⟨by decide, ⟨a.2.1.trans (by decide), a.2.2.trans (by decide)⟩,
    ⟨b.2.1.trans (by decide), b.2.2.trans (by decide)⟩⟩

/-- C16 (counterexample). On a valid handle with `vol = 2147483647` and
`sep = 0` the product `254 * vol` does not fit in an `int`; wrapped to 32 bits
it is -254, so the value stored in `left` is `(-254 / 127) / 4 = 0`, whereas
`clamp(((254 * vol) / 127) / 4, 0, 255)` is 255. -/
theorem I_Pico_UpdateSoundParams_gains_counterexample :
    ((test_sound 2).sound_initialized = true ∧ (0 : Int) ≤ 1 ∧
      (1 : Int) < ((test_sound 2).channels.length : Int)) ∧
    int32_cast ((254 - 0) * 2147483647) = -254 ∧
    (get_channel (I_Pico_UpdateSoundParams (test_sound 2) 1 2147483647 0) 1).left = 0 ∧
    spec_left 2147483647 0 = 255 := by
  decide

theorem I_Pico_StartSound_state (cfg : config_t) (wad : wad_t) (g : sound_t)
    (sfxinfo : sfxinfo_t) (channel vol sep pitch : Int)
    (hcheck : check_and_init_channel g channel = true) :
    I_Pico_StartSound cfg wad g sfxinfo channel vol sep pitch =
      (channel, I_Pico_UpdateSoundParams (set_channel (stop_channel g channel) channel
        (init_channel_for_sfx cfg wad g.use_sfx_prefix
          (get_channel (stop_channel g channel) channel) sfxinfo pitch).2) channel vol sep) := by
  have hstop : sound_t.use_sfx_prefix (stop_channel g channel) = g.use_sfx_prefix := rfl
  unfold I_Pico_StartSound
  simp [hcheck, hstop]

theorem get_stop_channel (g : sound_t) (channel : Int) (hn : channel.toNat < g.channels.length) :
    get_channel (stop_channel g channel) channel =
      { get_channel g channel with decompressed_size := 0 } := by
  unfold stop_channel
  exact get_set_channel _ _ _ hn

theorem set_set_channel (g : sound_t) (c : Int) (a b : pico_channel_t) :
    set_channel (set_channel g c a) c b = set_channel g c b := by
  unfold set_channel
  simp

theorem init_channel_for_sfx_fail_size (cfg : config_t) (wad : wad_t)
    ( use_sfx_prefix : Bool) (ch : pico_channel_t) (sfxinfo : sfxinfo_t) (pitch : Int)
    (hfail : sfx_lumpnum wad use_sfx_prefix sfxinfo < 0 ∨
      wad.W_LumpLength (sfx_lumpnum wad use_sfx_prefix sfxinfo) < 8 ∨
      sfx_payload_length (wad.W_LumpLength (sfx_lumpnum wad use_sfx_prefix sfxinfo))
        (read_le32 (wad.W_CacheLumpNum (sfx_lumpnum wad use_sfx_prefix sfxinfo)) 4) ≤ 0) :
    (init_channel_for_sfx cfg wad use_sfx_prefix ch sfxinfo pitch).2.decompressed_size =
      ch.decompressed_size := by
  by_cases h1 : sfx_lumpnum wad use_sfx_prefix sfxinfo < 0
  · rw [init_channel_for_sfx_miss _ _ _ _ _ _ h1]
  · by_cases h2 : wad.W_LumpLength (sfx_lumpnum wad use_sfx_prefix sfxinfo) < 8
    · rw [init_channel_for_sfx_short _ _ _ _ _ _ h1 h2]
    · have h3 : sfx_payload_length
          (wad.W_LumpLength (sfx_lumpnum wad use_sfx_prefix sfxinfo))
          (read_le32 (wad.W_CacheLumpNum (sfx_lumpnum wad use_sfx_prefix sfxinfo)) 4) ≤ 0 := by
        rcases hfail with hf | hf | hf
        · exact absurd hf h1
        · exact absurd hf h2
        · exact hf
      rw [init_channel_for_sfx_no_payload _ _ _ _ _ _ h1 h2 h3]

/-- C11. For every prior state of the channel, after an `I_Pico_StartSound`
call on an initialized subsystem and an in-range channel in which validation
failed (asset miss, lump shorter than 8 bytes, or non-positive payload) the
channel is inactive: `decompressed_size = 0`, `I_Pico_SoundIsPlaying` is
false, and a mix pass leaves the channel and every buffer as they are. -/
theorem I_Pico_StartSound_failure_inactive (cfg : config_t) (wad : wad_t) (g : sound_t)
    (sfxinfo : sfxinfo_t) (channel vol sep pitch : Int)
    (hinit : g.sound_initialized = true) (h0 : 0 ≤ channel)
    (h1 : channel < (g.channels.length : Int)) (h32 : g.channels.length ≤ 4294967296)
    (hfail : sfx_lumpnum wad g.use_sfx_prefix sfxinfo < 0 ∨
      wad.W_LumpLength (sfx_lumpnum wad g.use_sfx_prefix sfxinfo) < 8 ∨
      sfx_payload_length (wad.W_LumpLength (sfx_lumpnum wad g.use_sfx_prefix sfxinfo))
        (read_le32 (wad.W_CacheLumpNum (sfx_lumpnum wad g.use_sfx_prefix sfxinfo)) 4) ≤ 0) :
    (get_channel (I_Pico_StartSound cfg wad g sfxinfo channel vol sep pitch).2
      channel).decompressed_size = 0 ∧
    I_Pico_SoundIsPlaying (I_Pico_StartSound cfg wad g sfxinfo channel vol sep pitch).2 channel
      = false ∧
    ∀ (max_sample_count : Nat) (samples : List Int),
      mix_channel max_sample_count
        (get_channel (I_Pico_StartSound cfg wad g sfxinfo channel vol sep pitch).2 channel)
        samples =
      (get_channel (I_Pico_StartSound cfg wad g sfxinfo channel vol sep pitch).2 channel,
        samples) := by
  have hcheck := check_and_init_channel_of_range g channel hinit h0 h1 h32
  have hcn : channel.toNat < g.channels.length := by omega
  have hsize : (get_channel (I_Pico_StartSound cfg wad g sfxinfo channel vol sep pitch).2
      channel).decompressed_size = 0 := by
    rw [I_Pico_StartSound_state cfg wad g sfxinfo channel vol sep pitch hcheck]
    simp only
    rw [(I_Pico_UpdateSoundParams_size _ channel vol sep channel
      (by rw [set_channel_length, (stop_channel_fields g channel).2]; exact hcn)).1,
      get_set_channel _ _ _ (by rw [(stop_channel_fields g channel).2]; exact hcn),
      init_channel_for_sfx_fail_size cfg wad g.use_sfx_prefix _ sfxinfo pitch hfail,
      get_stop_channel g channel hcn]
  refine ⟨hsize, ?_, ?_⟩
  · unfold I_Pico_SoundIsPlaying is_channel_playing
    rw [hsize]
    split_ifs <;> simp
  · intro k samples
    unfold mix_channel
    rw [if_pos hsize]

/-- C11 (witness). A sound that cannot be resolved, requested on a channel
that is playing. -/
theorem I_Pico_StartSound_failure_inactive_witness :
    (test_sound_playing.sound_initialized = true ∧
      sfx_lumpnum (test_wad []) test_sound_playing.use_sfx_prefix test_sfx_unknown < 0 ∧
      (get_channel test_sound_playing 1).decompressed_size = 3) ∧
    (get_channel (I_Pico_StartSound test_cfg (test_wad []) test_sound_playing test_sfx_unknown
      1 127 128 127).2 1).decompressed_size = 0 :=
  ⟨by decide,
    (I_Pico_StartSound_failure_inactive test_cfg (test_wad []) test_sound_playing
      test_sfx_unknown 1 127 128 127 (by decide) (by decide) (by decide) (by decide)
      (Or.inl (by decide))).1⟩

/-- C13 (as amended). `I_Pico_StartSound` on an initialized subsystem and an
in-range channel, with a sound the asset collaborator cannot resolve, changes
the target channel only, and of it only three fields: `decompressed_size`
becomes 0 (the channel is stopped) and `left` and `right` become the values
that `I_Pico_UpdateSoundParams` stores for `vol` and `sep` (the clamped
quotients of the specification when the 32-bit products do not overflow);
every other field of the target channel and every other channel are as they
were before the call. -/
theorem I_Pico_StartSound_miss_state (cfg : config_t) (wad : wad_t) (g : sound_t)
    (sfxinfo : sfxinfo_t) (channel vol sep pitch : Int)
    (hinit : g.sound_initialized = true) (h0 : 0 ≤ channel)
    (h1 : channel < (g.channels.length : Int)) (h32 : g.channels.length ≤ 4294967296)
    (hmiss : sfx_lumpnum wad g.use_sfx_prefix sfxinfo < 0) :
    (I_Pico_StartSound cfg wad g sfxinfo channel vol sep pitch).2 =
      set_channel g channel { get_channel g channel with
        decompressed_size := 0
        left := params_left vol sep
        right := params_right vol sep } ∧
    get_channel (I_Pico_StartSound cfg wad g sfxinfo channel vol sep pitch).2 channel =
      { get_channel g channel with
        decompressed_size := 0
        left := params_left vol sep
        right := params_right vol sep } ∧
    get_channel (I_Pico_StartSound cfg wad g sfxinfo channel vol sep pitch).2 channel =
      get_channel (I_Pico_UpdateSoundParams (stop_channel g channel) channel vol sep)
        channel ∧
    (∀ c : Int, c.toNat ≠ channel.toNat →
      get_channel (I_Pico_StartSound cfg wad g sfxinfo channel vol sep pitch).2 c =
        get_channel g c) ∧
    ((-2147483648 ≤ 254 - sep ∧ 254 - sep ≤ 2147483647) →
      (-2147483648 ≤ (254 - sep) * vol ∧ (254 - sep) * vol ≤ 2147483647) →
      (-2147483648 ≤ sep * vol ∧ sep * vol ≤ 2147483647) →
      params_left vol sep = (spec_left vol sep).toNat ∧
      params_right vol sep = (spec_right vol sep).toNat) := by
  have hcheck := check_and_init_channel_of_range g channel hinit h0 h1 h32
  have hcn : channel.toNat < g.channels.length := by omega
  have hst : (I_Pico_StartSound cfg wad g sfxinfo channel vol sep pitch).2 =
      set_channel g channel { get_channel g channel with
        decompressed_size := 0
        left := params_left vol sep
        right := params_right vol sep } := by
    rw [I_Pico_StartSound_state cfg wad g sfxinfo channel vol sep pitch hcheck]
    simp only
    rw [init_channel_for_sfx_miss _ _ _ _ _ _ hmiss, get_stop_channel g channel hcn]
    simp only
    unfold stop_channel
    rw [set_set_channel, I_Pico_UpdateSoundParams_eq _ channel vol sep
      (by rw [(set_channel_fields _ _ _).1]; exact hinit) h0
      (by rw [set_channel_length]; exact h1), get_set_channel _ _ _ hcn, set_set_channel]
  have hup : get_channel (I_Pico_UpdateSoundParams (stop_channel g channel) channel vol sep)
      channel = { get_channel g channel with
        decompressed_size := 0
        left := params_left vol sep
        right := params_right vol sep } := by
    rw [I_Pico_UpdateSoundParams_eq _ channel vol sep
      (by rw [(stop_channel_fields g channel).1]; exact hinit) h0
      (by rw [(stop_channel_fields g channel).2]; exact h1),
      get_set_channel _ _ _ (by rw [(stop_channel_fields g channel).2]; exact hcn),
      get_stop_channel g channel hcn]
  refine ⟨hst, ?_, ?_, ?_, fun hsep hl hr => params_eq_spec vol sep hsep hl hr⟩
  · rw [hst, get_set_channel _ _ _ hcn]
  · rw [hst, get_set_channel _ _ _ hcn, hup]
  · intro c hc
    rw [hst]
    exact get_set_channel_ne _ _ _ _ (fun h => hc h.symm)

/-- C13 (witness). A sound that cannot be resolved, requested on a playing
channel with gains 255 and 128: the channel is stopped and its gains become
31 and 32. -/
theorem I_Pico_StartSound_miss_state_witness :
    (test_sound_playing.sound_initialized = true ∧
      sfx_lumpnum (test_wad []) test_sound_playing.use_sfx_prefix test_sfx_unknown < 0 ∧
      params_left 127 128 = 31 ∧ params_right 127 128 = 32) ∧
    get_channel (I_Pico_StartSound test_cfg (test_wad []) test_sound_playing test_sfx_unknown
      1 127 128 127).2 1 =
      { get_channel test_sound_playing 1 with
        decompressed_size := 0
        left := params_left 127 128
        right := params_right 127 128 } :=
  ⟨by decide,
    (I_Pico_StartSound_miss_state test_cfg (test_wad []) test_sound_playing test_sfx_unknown
      1 127 128 127 (by decide) (by decide) (by decide) (by decide) (by decide)).2.1⟩

/-- C13 (counterexample). An unresolvable sound requested on channel 1 while
it is playing with gains (255, 128): after the call the channel record
differs from the one before; the channel is stopped and its gains are
(31, 32). -/
theorem I_Pico_StartSound_miss_state_counterexample :
    sfx_lumpnum (test_wad []) test_sound_playing.use_sfx_prefix test_sfx_unknown < 0 ∧
    ((get_channel test_sound_playing 1).decompressed_size = 3 ∧
      (get_channel test_sound_playing 1).left = 255 ∧
      (get_channel test_sound_playing 1).right = 128) ∧
    ((get_channel (I_Pico_StartSound test_cfg (test_wad []) test_sound_playing test_sfx_unknown
        1 127 128 127).2 1).decompressed_size = 0 ∧
      (get_channel (I_Pico_StartSound test_cfg (test_wad []) test_sound_playing test_sfx_unknown
        1 127 128 127).2 1).left = 31 ∧
      (get_channel (I_Pico_StartSound test_cfg (test_wad []) test_sound_playing test_sfx_unknown
        1 127 128 127).2 1).right = 32) ∧
    ¬ (get_channel (I_Pico_StartSound test_cfg (test_wad []) test_sound_playing
        test_sfx_unknown 1 127 128 127).2 1 = get_channel test_sound_playing 1) := by
  decide

theorem check_and_init_channel_invalid (g : sound_t) (channel : Int)
    (hint : -2147483648 ≤ channel ∧ channel ≤ 2147483647)
    (hnum : g.channels.length ≤ 2147483647)
    (hbad : g.sound_initialized = false ∨ channel < 0 ∨ (g.channels.length : Int) ≤ channel) :
    check_and_init_channel g channel = false := by
  unfold check_and_init_channel NUM_SOUND_CHANNELS uint32_cast
  rcases hbad with h | h | h
  · rw [h]; rfl
  · rw [Bool.and_eq_false_iff]
    right
    simp only [decide_eq_false_iff_not]
    omega
  · rw [Bool.and_eq_false_iff]
    right
    simp only [decide_eq_false_iff_not]
    omega

/-- C15. When the subsystem is not initialized, or the channel index (a C
`int`) is outside `[0, NUM_SOUND_CHANNELS)`, negative indices included,
`I_Pico_StartSound` returns -1, `I_Pico_SoundIsPlaying` returns false, and
`I_Pico_StartSound`, `I_Pico_StopSound` and `I_Pico_UpdateSoundParams` leave
the whole module state, every channel included, unchanged. -/
theorem invalid_channel_no_effect (cfg : config_t) (wad : wad_t) (g : sound_t)
    (sfxinfo : sfxinfo_t) (channel vol sep pitch : Int)
    (hint : -2147483648 ≤ channel ∧ channel ≤ 2147483647)
    (hnum : g.channels.length ≤ 2147483647)
    (hbad : g.sound_initialized = false ∨ channel < 0 ∨ (g.channels.length : Int) ≤ channel) :
    I_Pico_StartSound cfg wad g sfxinfo channel vol sep pitch = (-1, g) ∧
    I_Pico_SoundIsPlaying g channel = false ∧
    I_Pico_StopSound g channel = g ∧
    I_Pico_UpdateSoundParams g channel vol sep = g := by
  have hcheck := check_and_init_channel_invalid g channel hint hnum hbad
  refine ⟨?_, ?_, ?_, ?_⟩
  · unfold I_Pico_StartSound
    simp [hcheck]
  · unfold I_Pico_SoundIsPlaying
    simp [hcheck]
  · unfold I_Pico_StopSound
    simp [hcheck]
  · unfold I_Pico_UpdateSoundParams NUM_SOUND_CHANNELS
    have hc : (!g.sound_initialized) = true ∨ channel < 0 ∨
        channel ≥ (g.channels.length : Int) := by
      rcases hbad with h | h | h
      · left; rw [h]; rfl
      · right; left; exact h
      · right; right; exact h
    rw [if_pos hc]

/-- C15 (witness). Channel index -1 on an initialized subsystem whose channel
1 is playing. -/
theorem invalid_channel_no_effect_witness :
    ((-2147483648 : Int) ≤ -1 ∧ (-1 : Int) ≤ 2147483647) ∧
    test_sound_playing.channels.length ≤ 2147483647 ∧
    (-1 : Int) < 0 ∧
    (I_Pico_StartSound test_cfg (test_wad test_lump_adpcm) test_sound_playing test_sfx
      (-1) 127 128 127).1 = -1 ∧
    (I_Pico_StartSound test_cfg (test_wad test_lump_adpcm) test_sound_playing test_sfx
      (-1) 127 128 127).2.channels = test_sound_playing.channels ∧
    I_Pico_SoundIsPlaying test_sound_playing (-1) = false := by
  have h := invalid_channel_no_effect test_cfg (test_wad test_lump_adpcm) test_sound_playing
    test_sfx (-1) 127 128 127 (by decide) (by decide) (Or.inr (Or.inl (by decide)))
  refine ⟨by decide, by decide, by decide, ?_, ?_, h.2.1⟩
  · rw [h.1]
  · rw [h.1]

/-! ## A rejected first block -/

theorem decompress_buffer_adpcm (ch : pico_channel_t) (hadpcm : ch.is_adpcm = true)
    (hd : ch.data ≠ ch.data_end) :
    (decompress_buffer ch).decompressed_size =
      uint8_cast (adpcm_decode_block_s8 ch.decompressed (ch.mem.drop ch.data.toNat)
        (min 128 (ch.data_end - ch.data))).samples ∧
    (decompress_buffer ch).decompressed =
      (adpcm_decode_block_s8 ch.decompressed (ch.mem.drop ch.data.toNat)
        (min 128 (ch.data_end - ch.data))).outbuf ∧
    (decompress_buffer ch).data = ch.data + min 128 (ch.data_end - ch.data) := by
  unfold decompress_buffer
  rw [if_neg hd, if_pos hadpcm]
  exact ⟨rfl, rfl, rfl⟩

theorem init_channel_for_sfx_assert_ok (cfg : config_t) (wad : wad_t) ( use_sfx_prefix : Bool)
    (ch : pico_channel_t) (sfxinfo : sfxinfo_t) (pitch : Int)
    (h : ¬ sfx_lumpnum wad use_sfx_prefix sfxinfo < 0)
    (h8 : ¬ wad.W_LumpLength (sfx_lumpnum wad use_sfx_prefix sfxinfo) < 8)
    (hp : ¬ sfx_payload_length (wad.W_LumpLength (sfx_lumpnum wad use_sfx_prefix sfxinfo))
      (read_le32 (wad.W_CacheLumpNum (sfx_lumpnum wad use_sfx_prefix sfxinfo)) 4) ≤ 0) :
    init_channel_for_sfx_assert cfg wad use_sfx_prefix ch sfxinfo pitch =
      decompress_buffer_assert
        { ch with
          is_adpcm := decide (read_le16
            (wad.W_CacheLumpNum (sfx_lumpnum wad use_sfx_prefix sfxinfo)) 0 = 0x8003)
          mem := wad.W_CacheLumpNum (sfx_lumpnum wad use_sfx_prefix sfxinfo)
          data := 8
          data_end := 8 + sfx_payload_length
            (wad.W_LumpLength (sfx_lumpnum wad use_sfx_prefix sfxinfo))
            (read_le32 (wad.W_CacheLumpNum (sfx_lumpnum wad use_sfx_prefix sfxinfo)) 4)
          step := sfx_step cfg (read_le16
            (wad.W_CacheLumpNum (sfx_lumpnum wad use_sfx_prefix sfxinfo)) 2) pitch } := by
  unfold init_channel_for_sfx_assert
  simp only [h, if_false, h8, hp]

theorem I_Pico_StartSound_rejected_block (cfg : config_t) (wad : wad_t) (g : sound_t)
    (sfxinfo : sfxinfo_t) (channel vol sep pitch : Int)
    (hinit : g.sound_initialized = true) (h0 : 0 ≤ channel)
    (h1 : channel < (g.channels.length : Int)) (h32 : g.channels.length ≤ 4294967296)
    (hk : 0 ≤ sfx_lumpnum wad g.use_sfx_prefix sfxinfo)
    (h8 : 8 ≤ (wad.lump (sfx_lumpnum wad g.use_sfx_prefix sfxinfo)).length)
    (hp : 0 < sfx_payload_length
      ((wad.lump (sfx_lumpnum wad g.use_sfx_prefix sfxinfo)).length : Int)
      (read_le32 (wad.lump (sfx_lumpnum wad g.use_sfx_prefix sfxinfo)) 4))
    (htag : read_le16 (wad.lump (sfx_lumpnum wad g.use_sfx_prefix sfxinfo)) 0 = 0x8003)
    (hrej : (adpcm_decode_block_s8 (get_channel g channel).decompressed
      ((wad.lump (sfx_lumpnum wad g.use_sfx_prefix sfxinfo)).drop 8)
      (min 128 (sfx_payload_length
        ((wad.lump (sfx_lumpnum wad g.use_sfx_prefix sfxinfo)).length : Int)
        (read_le32 (wad.lump (sfx_lumpnum wad g.use_sfx_prefix sfxinfo)) 4)))).samples = 0) :
    I_Pico_StartSound_assert cfg wad g sfxinfo channel pitch = false ∧
    (I_Pico_StartSound cfg wad g sfxinfo channel vol sep pitch).1 = channel ∧
    I_Pico_SoundIsPlaying (I_Pico_StartSound cfg wad g sfxinfo channel vol sep pitch).2 channel
      = false := by
  have hcheck := check_and_init_channel_of_range g channel hinit h0 h1 h32
  have hk' : ¬ sfx_lumpnum wad g.use_sfx_prefix sfxinfo < 0 := by omega
  have h8' : ¬ wad.W_LumpLength (sfx_lumpnum wad g.use_sfx_prefix sfxinfo) < 8 := by
    unfold wad_t.W_LumpLength; omega
  have hp' : ¬ sfx_payload_length (wad.W_LumpLength (sfx_lumpnum wad g.use_sfx_prefix sfxinfo))
      (read_le32 (wad.W_CacheLumpNum (sfx_lumpnum wad g.use_sfx_prefix sfxinfo)) 4) ≤ 0 := by
    unfold wad_t.W_LumpLength wad_t.W_CacheLumpNum; omega
  have hcn : channel.toNat < g.channels.length := by omega
  have htag' : decide (read_le16
      (wad.W_CacheLumpNum (sfx_lumpnum wad g.use_sfx_prefix sfxinfo)) 0 = 0x8003) = true := by
    unfold wad_t.W_CacheLumpNum
    exact decide_eq_true htag
  have hsd : (get_channel (stop_channel g channel) channel).decompressed
      = (get_channel g channel).decompressed := by
    rw [get_stop_channel g channel hcn]
  have hadp := decompress_buffer_adpcm
    { get_channel (stop_channel g channel) channel with
      is_adpcm := decide (read_le16
        (wad.W_CacheLumpNum (sfx_lumpnum wad g.use_sfx_prefix sfxinfo)) 0 = 0x8003)
      mem := wad.W_CacheLumpNum (sfx_lumpnum wad g.use_sfx_prefix sfxinfo)
      data := 8
      data_end := 8 + sfx_payload_length
        (wad.W_LumpLength (sfx_lumpnum wad g.use_sfx_prefix sfxinfo))
        (read_le32 (wad.W_CacheLumpNum (sfx_lumpnum wad g.use_sfx_prefix sfxinfo)) 4)
      step := sfx_step cfg (read_le16
        (wad.W_CacheLumpNum (sfx_lumpnum wad g.use_sfx_prefix sfxinfo)) 2) pitch }
    htag' (by simp only; omega)
  have hrej' : (adpcm_decode_block_s8 (get_channel g channel).decompressed
      (List.drop (8 : Int).toNat (wad.W_CacheLumpNum (sfx_lumpnum wad g.use_sfx_prefix sfxinfo)))
      (min 128 (sfx_payload_length
        (wad.W_LumpLength (sfx_lumpnum wad g.use_sfx_prefix sfxinfo))
        (read_le32 (wad.W_CacheLumpNum (sfx_lumpnum wad g.use_sfx_prefix sfxinfo)) 4)))).samples
      = 0 := hrej
  have hz : (decompress_buffer
      { get_channel (stop_channel g channel) channel with
        is_adpcm := decide (read_le16
          (wad.W_CacheLumpNum (sfx_lumpnum wad g.use_sfx_prefix sfxinfo)) 0 = 0x8003)
        mem := wad.W_CacheLumpNum (sfx_lumpnum wad g.use_sfx_prefix sfxinfo)
        data := 8
        data_end := 8 + sfx_payload_length
          (wad.W_LumpLength (sfx_lumpnum wad g.use_sfx_prefix sfxinfo))
          (read_le32 (wad.W_CacheLumpNum (sfx_lumpnum wad g.use_sfx_prefix sfxinfo)) 4)
        step := sfx_step cfg (read_le16
          (wad.W_CacheLumpNum (sfx_lumpnum wad g.use_sfx_prefix sfxinfo)) 2) pitch
      }).decompressed_size = 0 := by
    rw [hadp.1]
    simp only [add_sub_cancel_left, hsd]
    rw [hrej']
    rfl
  have hsize : (get_channel (I_Pico_StartSound cfg wad g sfxinfo channel vol sep pitch).2
      channel).decompressed_size = 0 := by
    rw [I_Pico_StartSound_state cfg wad g sfxinfo channel vol sep pitch hcheck]
    simp only
    rw [(I_Pico_UpdateSoundParams_size _ channel vol sep channel
      (by rw [set_channel_length, (stop_channel_fields g channel).2]; exact hcn)).1,
      get_set_channel _ _ _ (by rw [(stop_channel_fields g channel).2]; exact hcn),
      init_channel_for_sfx_ok cfg wad g.use_sfx_prefix _ sfxinfo pitch hk' h8' hp']
    exact hz
  refine ⟨?_, ?_, ?_⟩
  · have hstop : sound_t.use_sfx_prefix (stop_channel g channel) = g.use_sfx_prefix := rfl
    have ha : init_channel_for_sfx_assert cfg wad g.use_sfx_prefix
        (get_channel (stop_channel g channel) channel) sfxinfo pitch = false := by
      rw [init_channel_for_sfx_assert_ok cfg wad g.use_sfx_prefix _ sfxinfo pitch hk' h8' hp']
      unfold decompress_buffer_assert
      rw [hz]
      simp only [show ¬ ((8 : Int) = 8 + sfx_payload_length
        (wad.W_LumpLength (sfx_lumpnum wad g.use_sfx_prefix sfxinfo))
        (read_le32 (wad.W_CacheLumpNum (sfx_lumpnum wad g.use_sfx_prefix sfxinfo)) 4)) by omega,
        if_false]
      simp
    unfold I_Pico_StartSound_assert
    simp only [hcheck, hstop, ha]
    simp
  · rw [I_Pico_StartSound_state cfg wad g sfxinfo channel vol sep pitch hcheck]
  · unfold I_Pico_SoundIsPlaying is_channel_playing
    rw [hsize]
    split_ifs <;> simp

/-- C12 (failing input). An ADPCM lump whose first block has reserved byte 1,
started on idle channel 1 of an initialized subsystem: the decoder rejects
the block, so the call `decompress_buffer` leaves `decompressed_size = 0`
and the expression it asserts, `channel->decompressed_size && ...`, is
false. With `assert` compiled out the call returns the channel index and the
channel is not playing afterwards. -/
theorem I_Pico_StartSound_rejected_block_assert_fails :
    read_le16 test_lump_reserved 0 = 0x8003 ∧ test_lump_reserved.getD (8 + 3) 0 = 1 ∧
    (adpcm_decode_block_s8 (get_channel (test_sound 2) 1).decompressed
      (test_lump_reserved.drop 8) 8).samples = 0 ∧
    I_Pico_StartSound_assert test_cfg (test_wad test_lump_reserved) (test_sound 2) test_sfx 1 127
      = false ∧
    (I_Pico_StartSound test_cfg (test_wad test_lump_reserved) (test_sound 2) test_sfx
      1 127 128 127).1 = 1 ∧
    I_Pico_SoundIsPlaying (I_Pico_StartSound test_cfg (test_wad test_lump_reserved)
      (test_sound 2) test_sfx 1 127 128 127).2 1 = false := by
  have h := I_Pico_StartSound_rejected_block test_cfg (test_wad test_lump_reserved)
    (test_sound 2) test_sfx 1 127 128 127 (by decide) (by decide) (by decide) (by decide)
    (by decide) (by decide) (by decide) (by decide) (by decide)
  exact ⟨by decide, by decide, by decide, h.1, h.2.1, h.2.2⟩

/-! ## Fade stage -/

theorem fade_loop_down (n : Nat) (fuel : Nat) :
    ∀ (p j : Nat) (samples : List Int), j ≤ 8191 → n - p ≤ fuel →
      (fade_loop (-FADE_STEP) (n * 2) fuel (2 * p) samples (8 * j)).2.1 = 8 * (j - min j (n - p)) ∧
      (fade_loop (-FADE_STEP) (n * 2) fuel (2 * p) samples (8 * j)).2.2 = 2 * (p + min j (n - p)) := by
  induction fuel with
  | zero =>
    intro p j samples _ hf
    unfold fade_loop
    simp only
    omega
  | succ fuel ih =>
    intro p j samples hj hf
    unfold fade_loop
    by_cases hc : 2 * p < n * 2 ∧ 8 * j ≠ 0
    · rw [if_pos hc]
      simp only
      have e : uint16_cast (((8 * j : Nat) : Int) + -FADE_STEP) = 8 * (j - 1) := by
        unfold uint16_cast FADE_STEP
        omega
      rw [e, show 2 * p + 2 = 2 * (p + 1) by ring]
      constructor
      · rw [(ih (p + 1) (j - 1) _ (by omega) (by omega)).1]; omega
      · rw [(ih (p + 1) (j - 1) _ (by omega) (by omega)).2]; omega
    · rw [if_neg hc]
      simp only
      have : j = 0 ∨ n ≤ p := by
        by_contra hcc
        exact hc ⟨by omega, by omega⟩
      omega

theorem fade_loop_up (n : Nat) (fuel : Nat) :
    ∀ (p r : Nat) (samples : List Int), 1 ≤ r → r ≤ 8191 → n - p ≤ fuel →
      (fade_loop FADE_STEP (n * 2) fuel (2 * p) samples (8 * (8192 - r))).2.1 =
        (if r ≤ n - p then 0 else 8 * (8192 - r + (n - p))) ∧
      (fade_loop FADE_STEP (n * 2) fuel (2 * p) samples (8 * (8192 - r))).2.2 =
        2 * (p + min r (n - p)) := by
  induction fuel with
  | zero =>
    intro p r samples hr1 hr2 hf
    unfold fade_loop
    simp only
    have hnp : n - p = 0 := by omega
    rw [hnp, if_neg (by omega)]
    omega
  | succ fuel ih =>
    intro p r samples hr1 hr2 hf
    unfold fade_loop
    by_cases hc : 2 * p < n * 2 ∧ 8 * (8192 - r) ≠ 0
    · rw [if_pos hc]
      simp only
      rw [show 2 * p + 2 = 2 * (p + 1) by ring]
      by_cases hr : r = 1
      · have e : uint16_cast (((8 * (8192 - r) : Nat) : Int) + FADE_STEP) = 0 := by
          unfold uint16_cast FADE_STEP
          omega
        rw [e]
        have hz : ∀ (fuel' i : Nat) (s : List Int),
            fade_loop FADE_STEP (n * 2) fuel' i s 0 = (s, 0, i) := by
          intro fuel' i s
          cases fuel' with
          | zero => rfl
          | succ f => unfold fade_loop; simp
        rw [hz]
        simp only
        rw [if_pos (by omega)]
        omega
      · have e : uint16_cast (((8 * (8192 - r) : Nat) : Int) + FADE_STEP) =
            8 * (8192 - (r - 1)) := by
          unfold uint16_cast FADE_STEP
          omega
        rw [e]
        constructor
        · rw [(ih (p + 1) (r - 1) _ (by omega) (by omega) (by omega)).1]
          by_cases hq : r ≤ n - p
          · rw [if_pos (by omega), if_pos hq]
          · rw [if_neg (by omega), if_neg hq]
            omega
        · rw [(ih (p + 1) (r - 1) _ (by omega) (by omega) (by omega)).2]; omega
    · rw [if_neg hc]
      simp only
      have hnp : n ≤ p := by
        by_contra hcc
        exact hc ⟨by omega, by omega⟩
      rw [if_neg (by omega)]
      omega

theorem getD_set_zero (l : List Int) (a k : Nat) (h : l.getD k 0 = 0 ∨ k = a) :
    (l.set a 0).getD k 0 = 0 := by
  rcases getD_set_cases l a k 0 with h1 | h1
  · rcases h with h | h
    · rw [h1, h]
    · subst h
      by_cases hk : k < l.length
      · simp [List.getD_eq_getElem?_getD, List.getElem?_set, hk]
      · rw [List.getD_eq_default _ _ (by simp; omega)]
  · exact h1

theorem fade_zero_rest_zero (limit i : Nat) (samples : List Int) (k : Nat) (h1 : i ≤ k)
    (h2 : k < limit) : (fade_zero_rest limit i samples).getD k 0 = 0 := by
  unfold fade_zero_rest
  have key : ∀ m : Nat, ∀ k : Nat, i ≤ k → k < i + m →
      ((List.range m).foldl (fun d t => d.set (i + t) 0) samples).getD k 0 = 0 := by
    intro m
    induction m with
    | zero => intro k h1 h2; omega
    | succ m ih =>
      intro k h1 h2
      rw [List.range_succ, List.foldl_append]
      simp only [List.foldl_cons, List.foldl_nil]
      apply getD_set_zero
      by_cases hk : k = i + m
      · right; exact hk
      · left; exact ih k h1 (by omega)
  exact key (limit - i) k h1 (by omega)

theorem fade_stage_none (fade_level n : Nat) (samples : List Int) :
    fade_stage fade_state_t.FS_NONE fade_level n samples =
      (fade_state_t.FS_NONE, fade_level, samples) := by
  unfold fade_stage
  simp

theorem fade_stage_silent (fade_level n : Nat) (samples : List Int) :
    fade_stage fade_state_t.FS_SILENT fade_level n samples =
      (fade_state_t.FS_SILENT, fade_level, List.replicate samples.length 0) := by
  unfold fade_stage
  simp

theorem fade_stage_out (j n : Nat) (samples : List Int) (hj2 : j ≤ 8191) :
    (fade_stage fade_state_t.FS_FADE_OUT (8 * j) n samples).1 =
      (if j ≤ n then fade_state_t.FS_SILENT else fade_state_t.FS_FADE_OUT) ∧
    (fade_stage fade_state_t.FS_FADE_OUT (8 * j) n samples).2.1 = 8 * (j - n) ∧
    (j ≤ n → ∀ k : Nat, 2 * j ≤ k → k < 2 * n →
      (fade_stage fade_state_t.FS_FADE_OUT (8 * j) n samples).2.2.getD k 0 = 0) := by
  have hl := fade_loop_down n n 0 j samples hj2 (by omega)
  simp only [Nat.mul_zero, Nat.sub_zero, Nat.zero_add] at hl
  unfold fade_stage
  simp only [show ¬ (fade_state_t.FS_FADE_OUT = fade_state_t.FS_SILENT) by decide, if_false,
    show fade_state_t.FS_FADE_OUT ≠ fade_state_t.FS_NONE by decide, if_true,
    show ¬ (fade_state_t.FS_FADE_OUT = fade_state_t.FS_FADE_IN) by decide, ne_eq,
    not_false_eq_true]
  by_cases hjn : j ≤ n
  · have hz : (fade_loop (-FADE_STEP) (n * 2) n 0 samples (8 * j)).2.1 = 0 := by
      rw [hl.1]; omega
    rw [if_pos hz, if_pos hjn]
    refine ⟨rfl, by simp only; omega, ?_⟩
    intro _ k hk1 hk2
    simp only
    apply fade_zero_rest_zero
    · rw [hl.2]; omega
    · omega
  · have hz : ¬ (fade_loop (-FADE_STEP) (n * 2) n 0 samples (8 * j)).2.1 = 0 := by
      rw [hl.1]; omega
    rw [if_neg hz, if_neg hjn]
    refine ⟨rfl, by simp only; rw [hl.1]; omega, ?_⟩
    intro h
    exact absurd h hjn

theorem fade_stage_in (r n : Nat) (samples : List Int) (hr1 : 1 ≤ r) (hr2 : r ≤ 8191) :
    (fade_stage fade_state_t.FS_FADE_IN (8 * (8192 - r)) n samples).1 =
      (if r ≤ n then fade_state_t.FS_NONE else fade_state_t.FS_FADE_IN) ∧
    (fade_stage fade_state_t.FS_FADE_IN (8 * (8192 - r)) n samples).2.1 =
      (if r ≤ n then 0 else 8 * (8192 - r + n)) := by
  have hl := fade_loop_up n n 0 r samples hr1 hr2 (by omega)
  simp only [Nat.mul_zero, Nat.sub_zero, Nat.zero_add] at hl
  unfold fade_stage
  simp only [show ¬ (fade_state_t.FS_FADE_IN = fade_state_t.FS_SILENT) by decide, if_false,
    show fade_state_t.FS_FADE_IN ≠ fade_state_t.FS_NONE by decide, if_true,
    show ¬ (fade_state_t.FS_FADE_IN = fade_state_t.FS_FADE_OUT) by decide, ne_eq,
    not_false_eq_true]
  by_cases hrn : r ≤ n
  · have hz : (fade_loop FADE_STEP (n * 2) n 0 samples (8 * (8192 - r))).2.1 = 0 := by
      rw [hl.1, if_pos hrn]
    rw [if_pos hz, if_pos hrn, if_pos hrn]
    exact ⟨rfl, hz⟩
  · have hz : ¬ (fade_loop FADE_STEP (n * 2) n 0 samples (8 * (8192 - r))).2.1 = 0 := by
      rw [hl.1, if_neg hrn]; omega
    rw [if_neg hz, if_neg hrn, if_neg hrn]
    exact ⟨rfl, by simp only; rw [hl.1, if_neg hrn]⟩

/-! ## Mix passes and the fade state -/

theorem mix_audio_buffer_eq (g : sound_t) (b : audio_buffer_t) :
    mix_audio_buffer g b =
      ({ g with
          channels := (mix_channels (pass_pairs g b) g.channels (mix_base g b).samples).1
          fade_state := (fade_stage g.fade_state g.fade_level (pass_pairs g b)
            (mix_channels (pass_pairs g b) g.channels (mix_base g b).samples).2).1
          fade_level := (fade_stage g.fade_state g.fade_level (pass_pairs g b)
            (mix_channels (pass_pairs g b) g.channels (mix_base g b).samples).2).2.1 },
       { mix_base g b with
          samples := (fade_stage g.fade_state g.fade_level (pass_pairs g b)
            (mix_channels (pass_pairs g b) g.channels (mix_base g b).samples).2).2.2
          sample_count := pass_pairs g b }) := by
  rfl

theorem mix_audio_buffer_generator (g : sound_t) (b : audio_buffer_t) :
    (mix_audio_buffer g b).1.music_generator = g.music_generator ∧
    (mix_audio_buffer g b).1.sound_initialized = g.sound_initialized := by
  rw [mix_audio_buffer_eq]
  exact ⟨rfl, rfl⟩

theorem pass_pairs_congr (s g : sound_t) (h : s.music_generator = g.music_generator)
    (b : audio_buffer_t) : pass_pairs s b = pass_pairs g b := by
  unfold pass_pairs mix_base
  rw [h]

theorem mix_passes_cons (g : sound_t) (b : audio_buffer_t) (bs : List audio_buffer_t) :
    mix_passes g (b :: bs) = mix_passes (mix_audio_buffer g b).1 bs := rfl

theorem silent_passes (bs : List audio_buffer_t) :
    ∀ s : sound_t, s.fade_state = fade_state_t.FS_SILENT →
      (mix_passes s bs).fade_state = fade_state_t.FS_SILENT ∧
      (mix_passes s bs).fade_level = s.fade_level ∧
      (mix_passes s bs).music_generator = s.music_generator := by
  induction bs with
  | nil => intro s h; exact ⟨h, rfl, rfl⟩
  | cons b bs ih =>
    intro s h
    rw [mix_passes_cons]
    have h1 : (mix_audio_buffer s b).1.fade_state = fade_state_t.FS_SILENT := by
      rw [mix_audio_buffer_eq]
      simp only
      rw [h, fade_stage_silent]
    have h2 : (mix_audio_buffer s b).1.fade_level = s.fade_level := by
      rw [mix_audio_buffer_eq]
      simp only
      rw [h, fade_stage_silent]
    have h3 := ih _ h1
    exact ⟨h3.1, by rw [h3.2.1, h2], by rw [h3.2.2, (mix_audio_buffer_generator s b).1]⟩

theorem fade_out_passes (g : sound_t) (bs : List audio_buffer_t) :
    ∀ (s : sound_t) (j : Nat), s.music_generator = g.music_generator →
      s.fade_state = fade_state_t.FS_FADE_OUT → s.fade_level = 8 * j → 1 ≤ j → j ≤ 8191 →
      (mix_passes s bs).fade_state =
        (if j ≤ (bs.map (pass_pairs g)).sum then fade_state_t.FS_SILENT
          else fade_state_t.FS_FADE_OUT) ∧
      (mix_passes s bs).fade_level = 8 * (j - (bs.map (pass_pairs g)).sum) := by
  induction bs with
  | nil =>
    intro s j _ hs hl hj1 _
    simp only [List.map_nil, List.sum_nil]
    rw [if_neg (by omega)]
    exact ⟨hs, by rw [show mix_passes s [] = s from rfl, hl]; omega⟩
  | cons b bs ih =>
    intro s j hg hs hl hj1 hj2
    rw [mix_passes_cons]
    simp only [List.map_cons, List.sum_cons]
    have hst := fade_stage_out j (pass_pairs s b)
      (mix_channels (pass_pairs s b) s.channels (mix_base s b).samples).2 hj2
    have h1 : (mix_audio_buffer s b).1.fade_state =
        (if j ≤ pass_pairs g b then fade_state_t.FS_SILENT else fade_state_t.FS_FADE_OUT) := by
      rw [mix_audio_buffer_eq]
      simp only
      rw [hs, hl, hst.1, pass_pairs_congr s g hg]
    have h2 : (mix_audio_buffer s b).1.fade_level = 8 * (j - pass_pairs g b) := by
      rw [mix_audio_buffer_eq]
      simp only
      rw [hs, hl, hst.2.1, pass_pairs_congr s g hg]
    have hg' : (mix_audio_buffer s b).1.music_generator = g.music_generator := by
      rw [(mix_audio_buffer_generator s b).1, hg]
    by_cases hjn : j ≤ pass_pairs g b
    · rw [if_pos hjn] at h1
      have h3 := silent_passes bs _ h1
      rw [if_pos (by omega)]
      exact ⟨h3.1, by rw [h3.2.1, h2]; omega⟩
    · rw [if_neg hjn] at h1
      have h3 := ih _ (j - pass_pairs g b) hg' h1 h2 (by omega) (by omega)
      constructor
      · rw [h3.1]
        by_cases hq : j - pass_pairs g b ≤ (bs.map (pass_pairs g)).sum
        · rw [if_pos hq, if_pos (by omega)]
        · rw [if_neg hq, if_neg (by omega)]
      · rw [h3.2]; omega

theorem I_PicoSoundFade_out (g : sound_t) :
    (I_PicoSoundFade g false).fade_state = fade_state_t.FS_FADE_OUT ∧
    (I_PicoSoundFade g false).fade_level = 8 * 8191 ∧
    (I_PicoSoundFade g false).music_generator = g.music_generator := by
  unfold I_PicoSoundFade
  refine ⟨rfl, ?_, rfl⟩
  simp only [Bool.false_eq_true, if_false]
  unfold uint16_cast FADE_STEP
  omega

/-- C17 (as amended). Starting from `I_PicoSoundFade(false)`, over any
sequence of mix passes the fade state is `FS_SILENT` exactly when the fade
stage has been given at least `65536 / FADE_STEP - 1 = 8191` sample pairs in
all, and until then it is `FS_FADE_OUT` with the level
`65536 - 8 - 8 * pairs`: the level reaches 0 and the state becomes Silent
after exactly 8191 pairs. -/
theorem fade_out_reaches_silent (g : sound_t) (bs : List audio_buffer_t) :
    (mix_passes (I_PicoSoundFade g false) bs).fade_state =
      (if 8191 ≤ (bs.map (pass_pairs g)).sum then fade_state_t.FS_SILENT
        else fade_state_t.FS_FADE_OUT) ∧
    (mix_passes (I_PicoSoundFade g false) bs).fade_level =
      65536 - 8 - 8 * min 8191 (bs.map (pass_pairs g)).sum ∧
    (65536 : Int) / FADE_STEP - 1 = 8191 := by
  obtain ⟨hs, hl, hg⟩ := I_PicoSoundFade_out g
  have h := fade_out_passes g bs (I_PicoSoundFade g false) 8191 hg hs hl (by norm_num)
    (by norm_num)
  refine ⟨h.1, ?_, by decide⟩
  rw [h.2]
  omega

/-- C17 (counterexample). After `I_PicoSoundFade(false)`, one mix pass over a
buffer of 8191 sample pairs already leaves the state `FS_SILENT` with level
0: fewer than `65536 / FADE_STEP = 8192` pairs. -/
theorem fade_out_reaches_silent_counterexample :
    (test_buffer 8191).max_sample_count = 8191 ∧
    (mix_passes (I_PicoSoundFade (test_sound 2) false) [test_buffer 8191]).fade_state =
      fade_state_t.FS_SILENT ∧
    (mix_passes (I_PicoSoundFade (test_sound 2) false) [test_buffer 8191]).fade_level = 0 ∧
    (8191 : Int) < 65536 / FADE_STEP := by
  obtain ⟨hs, hl, hg⟩ := I_PicoSoundFade_out (test_sound 2)
  have h := fade_out_passes (test_sound 2) [test_buffer 8191]
    (I_PicoSoundFade (test_sound 2) false) 8191 hg hs hl (by norm_num) (by norm_num)
  have hp : ([test_buffer 8191].map (pass_pairs (test_sound 2))).sum = 8191 := rfl
  rw [hp] at h
  exact ⟨rfl, h.1, h.2, by decide⟩

theorem mix_audio_buffer_silent (s : sound_t) (b : audio_buffer_t)
    (h : s.fade_state = fade_state_t.FS_SILENT) :
    (mix_audio_buffer s b).1.fade_state = fade_state_t.FS_SILENT ∧
    (mix_audio_buffer s b).1.fade_level = s.fade_level ∧
    ∀ x ∈ (mix_audio_buffer s b).2.samples, x = 0 := by
  rw [mix_audio_buffer_eq]
  simp only
  rw [h, fade_stage_silent]
  refine ⟨rfl, rfl, ?_⟩
  intro x hx
  exact List.eq_of_mem_replicate hx

/-- C18. When a mix pass in state `FS_FADE_OUT` (level `8 * j`) is given at
least `j` sample pairs, so that the ramp reaches level 0 in it, the state
becomes `FS_SILENT` with level 0 and every sample of that buffer after the
`j` ramped pairs is 0; and in state `FS_SILENT`, whatever the music
generator, the channels and the buffer are, a mix pass returns a buffer of
zeros and keeps state and level, so the state is `FS_SILENT` after any
sequence of mix passes; `I_PicoSoundFade(true)` leaves it. -/
theorem fade_silent_stays (g : sound_t) (b : audio_buffer_t) (j : Nat)
    (hout : g.fade_state = fade_state_t.FS_FADE_OUT) (hlev : g.fade_level = 8 * j)
    (hj : j ≤ 8191) (hreach : j ≤ pass_pairs g b) :
    ((mix_audio_buffer g b).1.fade_state = fade_state_t.FS_SILENT ∧
      (mix_audio_buffer g b).1.fade_level = 0 ∧
      ∀ k : Nat, 2 * j ≤ k → k < 2 * pass_pairs g b →
        (mix_audio_buffer g b).2.samples.getD k 0 = 0) ∧
    (∀ (s : sound_t) (b' : audio_buffer_t), s.fade_state = fade_state_t.FS_SILENT →
      (mix_audio_buffer s b').1.fade_state = fade_state_t.FS_SILENT ∧
      (mix_audio_buffer s b').1.fade_level = s.fade_level ∧
      ∀ x ∈ (mix_audio_buffer s b').2.samples, x = 0) ∧
    (∀ bs : List audio_buffer_t,
      (mix_passes (mix_audio_buffer g b).1 bs).fade_state = fade_state_t.FS_SILENT ∧
      (mix_passes (mix_audio_buffer g b).1 bs).fade_level = 0) ∧
    (I_PicoSoundFade (mix_audio_buffer g b).1 true).fade_state = fade_state_t.FS_FADE_IN := by
  have hst := fade_stage_out j (pass_pairs g b)
    (mix_channels (pass_pairs g b) g.channels (mix_base g b).samples).2 hj
  have h1 : (mix_audio_buffer g b).1.fade_state = fade_state_t.FS_SILENT := by
    rw [mix_audio_buffer_eq]
    simp only
    rw [hout, hlev, hst.1, if_pos hreach]
  have h2 : (mix_audio_buffer g b).1.fade_level = 0 := by
    rw [mix_audio_buffer_eq]
    simp only
    rw [hout, hlev, hst.2.1]
    omega
  refine ⟨⟨h1, h2, ?_⟩, mix_audio_buffer_silent, ?_, rfl⟩
  · intro k hk1 hk2
    rw [mix_audio_buffer_eq]
    simp only
    rw [hout, hlev]
    exact hst.2.2 hreach k hk1 hk2
  · intro bs
    have h3 := silent_passes bs _ h1
    exact ⟨h3.1, by rw [h3.2.1, h2]⟩

/-- C18 (witness). The last two pairs of a fade-out ramp in a buffer of four
pairs into which a playing channel is mixed: the samples after the ramp are
zero and the state is `FS_SILENT`. -/
theorem fade_silent_stays_witness :
    ((I_PicoSoundFade test_sound_playing false).fade_state = fade_state_t.FS_FADE_OUT ∧
      (2 : Nat) ≤ pass_pairs { test_sound_playing with
        fade_state := fade_state_t.FS_FADE_OUT, fade_level := 16 } (test_buffer 4)) ∧
    (mix_audio_buffer { test_sound_playing with
        fade_state := fade_state_t.FS_FADE_OUT, fade_level := 16 } (test_buffer 4)).1.fade_state
      = fade_state_t.FS_SILENT ∧
    (mix_audio_buffer { test_sound_playing with
        fade_state := fade_state_t.FS_FADE_OUT, fade_level := 16 } (test_buffer 4)).2.samples.getD
      5 0 = 0 :=
  ⟨by decide,
    (fade_silent_stays { test_sound_playing with
        fade_state := fade_state_t.FS_FADE_OUT, fade_level := 16 } (test_buffer 4) 2 rfl rfl
      (by decide) (by decide)).1.1,
    (fade_silent_stays { test_sound_playing with
        fade_state := fade_state_t.FS_FADE_OUT, fade_level := 16 } (test_buffer 4) 2 rfl rfl
      (by decide) (by decide)).1.2.2 5 (by decide) (by decide)⟩

theorem fade_untouched (cfg : config_t) (wad : wad_t) (g : sound_t) (sfxinfo : sfxinfo_t)
    (channel vol sep pitch : Int) :
    ((I_Pico_UpdateSoundParams g channel vol sep).fade_state = g.fade_state ∧
      (I_Pico_UpdateSoundParams g channel vol sep).fade_level = g.fade_level) ∧
    ((I_Pico_StopSound g channel).fade_state = g.fade_state ∧
      (I_Pico_StopSound g channel).fade_level = g.fade_level) ∧
    ((I_Pico_StartSound cfg wad g sfxinfo channel vol sep pitch).2.fade_state = g.fade_state ∧
      (I_Pico_StartSound cfg wad g sfxinfo channel vol sep pitch).2.fade_level
        = g.fade_level) := by
  have hu : ∀ (s : sound_t), (I_Pico_UpdateSoundParams s channel vol sep).fade_state
      = s.fade_state ∧ (I_Pico_UpdateSoundParams s channel vol sep).fade_level
      = s.fade_level := by
    intro s
    unfold I_Pico_UpdateSoundParams
    split_ifs
    · exact ⟨rfl, rfl⟩
    · exact ⟨rfl, rfl⟩
  refine ⟨hu g, ?_, ?_⟩
  · unfold I_Pico_StopSound
    split_ifs
    · exact ⟨rfl, rfl⟩
    · exact ⟨rfl, rfl⟩
  · unfold I_Pico_StartSound
    split_ifs
    · exact ⟨rfl, rfl⟩
    · simp only
      rw [(hu _).1, (hu _).2]
      exact ⟨rfl, rfl⟩

theorem fade_stage_state (st : fade_state_t) (L n : Nat) (samples : List Int) :
    (st = fade_state_t.FS_FADE_OUT →
      (fade_stage st L n samples).1 =
        (if (fade_stage st L n samples).2.1 = 0 then fade_state_t.FS_SILENT
          else fade_state_t.FS_FADE_OUT)) ∧
    (st = fade_state_t.FS_FADE_IN →
      (fade_stage st L n samples).1 =
        (if (fade_stage st L n samples).2.1 = 0 then fade_state_t.FS_NONE
          else fade_state_t.FS_FADE_IN)) := by
  constructor
  · intro h
    subst h
    unfold fade_stage
    simp only [reduceCtorEq, ↓reduceIte, ne_eq, not_false_eq_true]
    split_ifs with h1
    · simp only
    · simp only
  · intro h
    subst h
    unfold fade_stage
    simp only [reduceCtorEq, ↓reduceIte, ne_eq, not_false_eq_true]
    split_ifs with h1
    · simp only
    · simp only

/-- C19. The fade state changes as follows, from every module state.
`I_PicoSoundFade(false)` sets `FS_FADE_OUT` with level `65536 - FADE_STEP`,
`I_PicoSoundFade(true)` sets `FS_FADE_IN` with level `FADE_STEP`. A mix pass
moves `FS_FADE_OUT` to `FS_SILENT` exactly when the level it leaves is 0 and
keeps `FS_FADE_OUT` otherwise; it moves `FS_FADE_IN` to `FS_NONE` exactly
when the level it leaves is 0 (the 16-bit level has reached full scale 65536)
and keeps `FS_FADE_IN` otherwise; it keeps `FS_NONE` and `FS_SILENT` and
their level, whatever the level. At the levels `8 * j` of a ramp
(`1 <= j <= 8191`) a pass given `n` pairs takes `FS_FADE_OUT` to level
`8 * (j - n)`, and `FS_FADE_IN` to `FS_NONE` with level 0 exactly when
`8 * (j + n)` reaches 65536, and to level `8 * (j + n)` otherwise. Starting,
stopping a sound and setting its gains leave the fade state alone.
`I_PicoSoundFading` is true exactly in `FS_FADE_IN` and `FS_FADE_OUT`. -/
theorem fade_state_machine (cfg : config_t) (wad : wad_t) (g : sound_t) (b : audio_buffer_t)
    (sfxinfo : sfxinfo_t) (channel vol sep pitch : Int) :
    ((I_PicoSoundFade g false).fade_state = fade_state_t.FS_FADE_OUT ∧
      ((I_PicoSoundFade g false).fade_level : Int) = 65536 - FADE_STEP) ∧
    ((I_PicoSoundFade g true).fade_state = fade_state_t.FS_FADE_IN ∧
      ((I_PicoSoundFade g true).fade_level : Int) = FADE_STEP) ∧
    (g.fade_state = fade_state_t.FS_FADE_OUT →
      (mix_audio_buffer g b).1.fade_state =
        (if (mix_audio_buffer g b).1.fade_level = 0 then fade_state_t.FS_SILENT
          else fade_state_t.FS_FADE_OUT)) ∧
    (g.fade_state = fade_state_t.FS_FADE_IN →
      (mix_audio_buffer g b).1.fade_state =
        (if (mix_audio_buffer g b).1.fade_level = 0 then fade_state_t.FS_NONE
          else fade_state_t.FS_FADE_IN)) ∧
    (g.fade_state = fade_state_t.FS_NONE →
      (mix_audio_buffer g b).1.fade_state = fade_state_t.FS_NONE ∧
      (mix_audio_buffer g b).1.fade_level = g.fade_level) ∧
    (g.fade_state = fade_state_t.FS_SILENT →
      (mix_audio_buffer g b).1.fade_state = fade_state_t.FS_SILENT ∧
      (mix_audio_buffer g b).1.fade_level = g.fade_level) ∧
    (∀ j : Nat, 1 ≤ j → j ≤ 8191 → g.fade_level = 8 * j →
      (g.fade_state = fade_state_t.FS_FADE_OUT →
        (mix_audio_buffer g b).1.fade_level = 8 * (j - pass_pairs g b) ∧
        (mix_audio_buffer g b).1.fade_state =
          (if j ≤ pass_pairs g b then fade_state_t.FS_SILENT
            else fade_state_t.FS_FADE_OUT)) ∧
      (g.fade_state = fade_state_t.FS_FADE_IN →
        (mix_audio_buffer g b).1.fade_level =
          (if 65536 ≤ 8 * (j + pass_pairs g b) then 0 else 8 * (j + pass_pairs g b)) ∧
        (mix_audio_buffer g b).1.fade_state =
          (if 65536 ≤ 8 * (j + pass_pairs g b) then fade_state_t.FS_NONE
            else fade_state_t.FS_FADE_IN))) ∧
    ((I_Pico_UpdateSoundParams g channel vol sep).fade_state = g.fade_state ∧
      (I_Pico_StopSound g channel).fade_state = g.fade_state ∧
      (I_Pico_StartSound cfg wad g sfxinfo channel vol sep pitch).2.fade_state
        = g.fade_state) ∧
    (I_PicoSoundFading g = true ↔
      (g.fade_state = fade_state_t.FS_FADE_IN ∨ g.fade_state = fade_state_t.FS_FADE_OUT)) := by
  have hfu := fade_untouched cfg wad g sfxinfo channel vol sep pitch
  have hmix : (mix_audio_buffer g b).1.fade_state =
        (fade_stage g.fade_state g.fade_level (pass_pairs g b)
          (mix_channels (pass_pairs g b) g.channels (mix_base g b).samples).2).1 ∧
      (mix_audio_buffer g b).1.fade_level =
        (fade_stage g.fade_state g.fade_level (pass_pairs g b)
          (mix_channels (pass_pairs g b) g.channels (mix_base g b).samples).2).2.1 := by
    rw [mix_audio_buffer_eq]
    exact ⟨rfl, rfl⟩
  refine ⟨⟨rfl, ?_⟩, ⟨rfl, ?_⟩, ?_, ?_, ?_, ?_, ?_, ⟨hfu.1.1, hfu.2.1.1, hfu.2.2.1⟩, ?_⟩
  · rw [(I_PicoSoundFade_out g).2.1]
    unfold FADE_STEP
    norm_num
  · unfold I_PicoSoundFade uint16_cast FADE_STEP
    simp
  · intro hs
    rw [hmix.1, hmix.2]
    exact (fade_stage_state _ _ _ _).1 hs
  · intro hs
    rw [hmix.1, hmix.2]
    exact (fade_stage_state _ _ _ _).2 hs
  · intro hs
    rw [hmix.1, hmix.2, hs, fade_stage_none]
    exact ⟨rfl, rfl⟩
  · intro hs
    exact ⟨(mix_audio_buffer_silent g b hs).1, (mix_audio_buffer_silent g b hs).2.1⟩
  · intro j hj1 hj2 hlev
    constructor
    · intro hs
      have hst := fade_stage_out j (pass_pairs g b)
        (mix_channels (pass_pairs g b) g.channels (mix_base g b).samples).2 hj2
      rw [hmix.1, hmix.2, hs, hlev]
      exact ⟨hst.2.1, hst.1⟩
    · intro hs
      have hst := fade_stage_in (8192 - j) (pass_pairs g b)
        (mix_channels (pass_pairs g b) g.channels (mix_base g b).samples).2 (by omega)
        (by omega)
      rw [show 8192 - (8192 - j) = j by omega] at hst
      rw [hmix.1, hmix.2, hs, hlev, hst.1, hst.2]
      by_cases hq : 8192 - j ≤ pass_pairs g b
      · rw [if_pos hq, if_pos hq, if_pos (by omega), if_pos (by omega)]
        exact ⟨rfl, rfl⟩
      · rw [if_neg hq, if_neg hq, if_neg (by omega), if_neg (by omega)]
        exact ⟨by omega, rfl⟩
  · unfold I_PicoSoundFading
    simp

/-- C19 (witness). A fade-in at level 65528 meets a buffer of four pairs: the
ramp reaches full scale and the state becomes `FS_NONE`; a pass in `FS_NONE`
at level 0 keeps state and level. -/
theorem fade_state_machine_witness :
    ((1 : Nat) ≤ 8191 ∧ (8191 : Nat) ≤ 8191 ∧
      sound_t.fade_level { test_sound_playing with
        fade_state := fade_state_t.FS_FADE_IN, fade_level := 65528 } = 8 * 8191 ∧
      test_sound_playing.fade_state = fade_state_t.FS_NONE ∧
      test_sound_playing.fade_level = 0) ∧
    (mix_audio_buffer { test_sound_playing with
        fade_state := fade_state_t.FS_FADE_IN, fade_level := 65528 } (test_buffer 4)).1.fade_state
      = fade_state_t.FS_NONE ∧
    ((mix_audio_buffer test_sound_playing (test_buffer 4)).1.fade_state = fade_state_t.FS_NONE ∧
      (mix_audio_buffer test_sound_playing (test_buffer 4)).1.fade_level = 0) := by
  have h := ((fade_state_machine test_cfg (test_wad []) { test_sound_playing with
    fade_state := fade_state_t.FS_FADE_IN, fade_level := 65528 } (test_buffer 4) test_sfx
    1 127 128 127).2.2.2.2.2.2.1 8191 (by decide) (by decide) rfl).2 rfl
  have h2 := (fade_state_machine test_cfg (test_wad []) test_sound_playing (test_buffer 4)
    test_sfx 1 127 128 127).2.2.2.2.1 rfl
  refine ⟨by decide, ?_, h2⟩
  rw [h.2]
  decide

/-! ## Buffer exchange -/

theorem I_Pico_UpdateSound_loop_eq (takes : List (Option audio_buffer_t)) :
    ∀ (g : sound_t) (given : List audio_buffer_t),
      I_Pico_UpdateSound_loop takes g given =
        ((spec_mix_all g (spec_taken takes)).1,
         { takes := takes.drop ((spec_taken takes).length + 1),
           given := given ++ (spec_mix_all g (spec_taken takes)).2 }) := by
  induction takes with
  | nil =>
    intro g given
    simp [I_Pico_UpdateSound_loop, spec_taken, spec_mix_all]
  | cons a rest ih =>
    intro g given
    cases a with
    | none => simp [I_Pico_UpdateSound_loop, spec_taken, spec_mix_all]
    | some b =>
      rw [I_Pico_UpdateSound_loop, ih]
      simp [spec_taken, spec_mix_all]

theorem spec_mix_all_length (bs : List audio_buffer_t) :
    ∀ g : sound_t, (spec_mix_all g bs).2.length = bs.length := by
  induction bs with
  | nil => intro g; rfl
  | cons b bs ih =>
    intro g
    simp [spec_mix_all, ih]

/-- C20. `I_Pico_UpdateSound`, when the subsystem is initialized, mixes and
gives back exactly the buffers that the non-blocking take yields before its
first "none available" answer, in order, one `mix_audio_buffer` per buffer
with the module state threaded through, and consumes that answer; it leaves
module state and pool untouched when the subsystem is not initialized, and
mixes and gives nothing when the first answer is "none available". Each
`mix_audio_buffer` is the whole pass: base content, channel loop, fade stage,
`sample_count` set to `max_sample_count`. -/
theorem I_Pico_UpdateSound_exact (g : sound_t) (pool : audio_pool_t) :
    I_Pico_UpdateSound g pool =
      (if g.sound_initialized = true then
        ((spec_mix_all g (spec_taken pool.takes)).1,
         { takes := pool.takes.drop ((spec_taken pool.takes).length + 1),
           given := pool.given ++ (spec_mix_all g (spec_taken pool.takes)).2 })
      else (g, pool)) ∧
    (spec_mix_all g (spec_taken pool.takes)).2.length = (spec_taken pool.takes).length ∧
    ((spec_taken pool.takes = [] ∨ g.sound_initialized = false) →
      (I_Pico_UpdateSound g pool).1 = g ∧ (I_Pico_UpdateSound g pool).2.given = pool.given) ∧
    (∀ (s : sound_t) (b : audio_buffer_t),
      (mix_audio_buffer s b).2 =
        { mix_base s b with
          samples := (fade_stage s.fade_state s.fade_level (mix_base s b).max_sample_count
            (mix_channels (mix_base s b).max_sample_count s.channels
              (mix_base s b).samples).2).2.2
          sample_count := (mix_base s b).max_sample_count } ∧
      (mix_audio_buffer s b).2.sample_count = (mix_audio_buffer s b).2.max_sample_count ∧
      (mix_audio_buffer s b).1.channels =
        (mix_channels (mix_base s b).max_sample_count s.channels (mix_base s b).samples).1) := by
  have hmain : I_Pico_UpdateSound g pool =
      (if g.sound_initialized = true then
        ((spec_mix_all g (spec_taken pool.takes)).1,
         { takes := pool.takes.drop ((spec_taken pool.takes).length + 1),
           given := pool.given ++ (spec_mix_all g (spec_taken pool.takes)).2 })
      else (g, pool)) := by
    unfold I_Pico_UpdateSound
    cases hi : g.sound_initialized
    · simp
    · simp only [Bool.not_true, Bool.false_eq_true, if_false, if_true]
      exact I_Pico_UpdateSound_loop_eq pool.takes g pool.given
  refine ⟨hmain, spec_mix_all_length _ g, ?_, ?_⟩
  · intro h
    rw [hmain]
    rcases h with h | h
    · rw [h]
      split_ifs
      · simp [spec_mix_all]
      · exact ⟨rfl, rfl⟩
    · rw [h]
      simp
  · intro s b
    rw [mix_audio_buffer_eq]
    exact ⟨rfl, rfl, rfl⟩

/-! ## A started channel does not depend on the channel's past -/

theorem Decoded_chunks_getD (st0 : adpcm_state) (p : Nat) (inbuf : List Nat) (c : Nat) :
    ∀ (st : adpcm_state) (nibs : List Nat) (ip op : Nat), Decoded st0 st p nibs →
      op = p + nibs.length → op + 8 * c ≤ st0.outbuf.length →
      Decoded st0 (adpcm_chunks inbuf c ip op st) p
        (nibs ++ spec_nibbles (chunk_bytes inbuf ip c)) := by
  induction c with
  | zero =>
    intro st nibs ip op h _ _
    simpa [adpcm_chunks, spec_nibbles, chunk_bytes] using h
  | succ c ih =>
    intro st nibs ip op h ho hp
    unfold adpcm_chunks
    have h1 := Decoded_chunk st0 st p nibs inbuf ip op h ho (by omega)
    have h2 := ih _ _ (ip + 4) (op + 8) h1
      (by simp [spec_nibbles_length]; omega) (by omega)
    have e : chunk_bytes inbuf ip (c + 1) =
        [inbuf.getD ip 0, inbuf.getD (ip + 1) 0, inbuf.getD (ip + 2) 0, inbuf.getD (ip + 3) 0]
          ++ chunk_bytes inbuf (ip + 4) c := rfl
    rw [e, spec_nibbles_append, ← List.append_assoc]
    exact h2

theorem adpcm_decode_samples_indep (o1 o2 : List Int) (inbuf : List Nat) (n : Int) :
    (adpcm_decode_block_s8 o1 inbuf n).samples = (adpcm_decode_block_s8 o2 inbuf n).samples := by
  by_cases h : n < 4
  · rw [adpcm_decode_reject_short _ _ _ h, adpcm_decode_reject_short _ _ _ h]
  · by_cases hb : inbuf.getD 2 0 > 88 ∨ inbuf.getD 3 0 ≠ 0
    · rw [adpcm_decode_reject_header _ _ _ (by omega) hb,
        adpcm_decode_reject_header _ _ _ (by omega) hb]
    · have hidx : inbuf.getD 2 0 ≤ 88 := by
        by_contra hc; exact hb (Or.inl (by omega))
      have hres : inbuf.getD 3 0 = 0 := by
        by_contra hc; exact hb (Or.inr hc)
      rw [adpcm_decode_accept _ _ _ (by omega) hidx hres,
        adpcm_decode_accept _ _ _ (by omega) hidx hres]

theorem adpcm_decode_samples_le (o : List Int) (inbuf : List Nat) (n : Int) (hn : n ≤ 128) :
    0 ≤ (adpcm_decode_block_s8 o inbuf n).samples ∧
      (adpcm_decode_block_s8 o inbuf n).samples ≤ 249 := by
  by_cases h : n < 4
  · rw [adpcm_decode_reject_short _ _ _ h]
    simp
  · by_cases hb : inbuf.getD 2 0 > 88 ∨ inbuf.getD 3 0 ≠ 0
    · rw [adpcm_decode_reject_header _ _ _ (by omega) hb]
      simp
    · have hidx : inbuf.getD 2 0 ≤ 88 := by
        by_contra hc; exact hb (Or.inl (by omega))
      have hres : inbuf.getD 3 0 = 0 := by
        by_contra hc; exact hb (Or.inr hc)
      rw [adpcm_decode_accept _ _ _ (by omega) hidx hres]
      simp only
      omega

theorem adpcm_decode_length (o : List Int) (inbuf : List Nat) (n : Int) :
    (adpcm_decode_block_s8 o inbuf n).outbuf.length = o.length := by
  by_cases h : n < 4
  · rw [adpcm_decode_reject_short _ _ _ h]
  · by_cases hb : inbuf.getD 2 0 > 88 ∨ inbuf.getD 3 0 ≠ 0
    · rw [adpcm_decode_reject_header _ _ _ (by omega) hb]
      simp
    · have hidx : inbuf.getD 2 0 ≤ 88 := by
        by_contra hc; exact hb (Or.inl (by omega))
      have hres : inbuf.getD 3 0 = 0 := by
        by_contra hc; exact hb (Or.inr hc)
      rw [adpcm_decode_accept _ _ _ (by omega) hidx hres]
      simp only
      have hlen : ∀ (c : Nat) (st : adpcm_state) (ip op : Nat),
          (adpcm_chunks inbuf c ip op st).outbuf.length = st.outbuf.length := by
        intro c
        induction c with
        | zero => intro st ip op; rfl
        | succ c ih =>
          intro st ip op
          unfold adpcm_chunks
          rw [ih]
          have r4 : List.range 4 = [0, 1, 2, 3] := by decide
          unfold adpcm_chunk
          rw [r4]
          simp [adpcm_byte, adpcm_low_nibble, adpcm_high_nibble]
      rw [hlen]
      simp

theorem adpcm_decode_take_indep (o1 o2 : List Int) (inbuf : List Nat) (n : Int)
    (h1 : (adpcm_decode_block_s8 o1 inbuf n).samples ≤ (o1.length : Int))
    (h2 : (adpcm_decode_block_s8 o2 inbuf n).samples ≤ (o2.length : Int)) :
    (adpcm_decode_block_s8 o1 inbuf n).outbuf.take (adpcm_decode_block_s8 o1 inbuf n).samples.toNat
      = (adpcm_decode_block_s8 o2 inbuf n).outbuf.take
          (adpcm_decode_block_s8 o2 inbuf n).samples.toNat := by
  by_cases h : n < 4
  · rw [adpcm_decode_reject_short _ _ _ h, adpcm_decode_reject_short _ _ _ h]
    simp
  · by_cases hb : inbuf.getD 2 0 > 88 ∨ inbuf.getD 3 0 ≠ 0
    · rw [adpcm_decode_reject_header _ _ _ (by omega) hb,
        adpcm_decode_reject_header _ _ _ (by omega) hb]
      simp
    · have hidx : inbuf.getD 2 0 ≤ 88 := by
        by_contra hc; exact hb (Or.inl (by omega))
      have hres : inbuf.getD 3 0 = 0 := by
        by_contra hc; exact hb (Or.inr hc)
      rw [adpcm_decode_accept _ _ _ (by omega) hidx hres] at h1 h2 ⊢
      rw [adpcm_decode_accept _ _ _ (by omega) hidx hres]
      simp only at h1 h2 ⊢
      have hq : 0 ≤ (n - 4) / 4 := Int.ediv_nonneg (by omega) (by norm_num)
      have hs : (1 + (n - 4) / 4 * 8).toNat = 1 + 8 * ((n - 4) / 4).toNat := by omega
      rw [hs]
      have key : ∀ o : List Int, (1 + (n - 4) / 4 * 8) ≤ (o.length : Int) →
          (adpcm_chunks inbuf ((n - 4) / 4).toNat 4 1
            ⟨int16_cast ((inbuf.getD 0 0 ||| (inbuf.getD 1 0 <<< 8) : Nat) : Int),
              ((inbuf.getD 2 0 : Nat) : Int),
              o.set 0 (int8_cast (int16_cast
                ((inbuf.getD 0 0 ||| (inbuf.getD 1 0 <<< 8) : Nat) : Int) >>> (8 : Nat))),
              []⟩).outbuf.take (1 + 8 * ((n - 4) / 4).toNat) =
          [int8_cast (int16_cast
            ((inbuf.getD 0 0 ||| (inbuf.getD 1 0 <<< 8) : Nat) : Int) >>> (8 : Nat))] ++
          spec_samples (int16_cast ((inbuf.getD 0 0 ||| (inbuf.getD 1 0 <<< 8) : Nat) : Int))
            ((inbuf.getD 2 0 : Nat) : Int)
            (spec_nibbles (chunk_bytes inbuf 4 ((n - 4) / 4).toNat)) := by
        intro o ho
        have hD := Decoded_chunks_getD
          ⟨int16_cast ((inbuf.getD 0 0 ||| (inbuf.getD 1 0 <<< 8) : Nat) : Int),
            ((inbuf.getD 2 0 : Nat) : Int),
            o.set 0 (int8_cast (int16_cast
              ((inbuf.getD 0 0 ||| (inbuf.getD 1 0 <<< 8) : Nat) : Int) >>> (8 : Nat))),
            []⟩ 1 inbuf ((n - 4) / 4).toNat _ [] 4 1 (Decoded_refl _ 1) (by simp)
          (by simp only [List.length_set]; omega)
        obtain ⟨_, _, _, ht, _, _⟩ := hD
        simp only [List.nil_append, spec_nibbles_length] at ht
        have hcb : ∀ (c ip : Nat), (chunk_bytes inbuf ip c).length = 4 * c := by
          intro c
          induction c with
          | zero => intro ip; rfl
          | succ c ih => intro ip; simp [chunk_bytes, ih]; omega
        rw [hcb] at ht
        rw [show 1 + 8 * ((n - 4) / 4).toNat = 1 + 2 * (4 * ((n - 4) / 4).toNat) by ring, ht]
        have hne : 0 < o.length := by omega
        cases o with
        | nil => simp at hne
        | cons x xs => simp
      rw [key o1 h1, key o2 h2]

theorem raw_copy_succ (src : List Nat) (n : Nat) (d : List Int) :
    raw_copy src (n + 1) d = (raw_copy src n d).set n (int8_cast (src.getD n 0)) := by
  unfold raw_copy
  rw [List.range_succ, List.foldl_append]
  rfl

theorem raw_copy_length (src : List Nat) (n : Nat) (d : List Int) :
    (raw_copy src n d).length = d.length := by
  induction n with
  | zero => rfl
  | succ n ih => rw [raw_copy_succ, List.length_set, ih]

theorem raw_copy_take (src : List Nat) (n : Nat) (d : List Int) (h : n ≤ d.length) :
    (raw_copy src n d).take n = (List.range n).map (fun i => int8_cast (src.getD i 0)) := by
  induction n with
  | zero => simp
  | succ n ih =>
    rw [raw_copy_succ, take_succ_set _ _ _ _ (by rw [raw_copy_length]; omega) (ih (by omega)),
      List.range_succ, List.map_append]
    rfl

theorem decompress_buffer_core (c1 c2 : pico_channel_t)
    (hm : c1.mem = c2.mem) (hd : c1.data = c2.data) (he : c1.data_end = c2.data_end)
    (ha : c1.is_adpcm = c2.is_adpcm)
    (hl1 : c1.decompressed.length = 249) (hl2 : c2.decompressed.length = 249)
    (hle : c1.data ≤ c1.data_end) :
    (decompress_buffer c1).data = (decompress_buffer c2).data ∧
    (decompress_buffer c1).decompressed_size = (decompress_buffer c2).decompressed_size ∧
    (decompress_buffer c1).decompressed.take (decompress_buffer c1).decompressed_size =
      (decompress_buffer c2).decompressed.take (decompress_buffer c2).decompressed_size ∧
    (decompress_buffer c1).decompressed.length = 249 ∧
    (decompress_buffer c2).decompressed.length = 249 ∧
    (decompress_buffer c1).data ≤ c1.data_end := by
  by_cases hde : c1.data = c1.data_end
  · have hde2 : c2.data = c2.data_end := by rw [← hd, ← he]; exact hde
    unfold decompress_buffer
    rw [if_pos hde, if_pos hde2]
    simp only [List.take_zero]
    exact ⟨hd, trivial, trivial, hl1, hl2, hle⟩
  · have hde2 : c2.data ≠ c2.data_end := by rw [← hd, ← he]; exact hde
    cases hadp : c1.is_adpcm
    · have hadp2 : c2.is_adpcm = false := by rw [← ha]; exact hadp
      have r1 := decompress_buffer_raw c1 hadp (by omega)
      have r2 := decompress_buffer_raw c2 hadp2 (by omega)
      rw [← hm, ← hd, ← he] at r2
      have hn : (min 249 (c1.data_end - c1.data)).toNat ≤ 249 := by omega
      refine ⟨by rw [r1.2.2, r2.2.2], by rw [r1.1, r2.1], ?_, ?_, ?_, ?_⟩
      · rw [r1.1, r2.1, r1.2.1, r2.2.1, raw_copy_take _ _ _ (by omega),
          raw_copy_take _ _ _ (by omega)]
      · rw [r1.2.1, raw_copy_length, hl1]
      · rw [r2.2.1, raw_copy_length, hl2]
      · rw [r1.2.2]; omega
    · have hadp2 : c2.is_adpcm = true := by rw [← ha]; exact hadp
      have r1 := decompress_buffer_adpcm c1 hadp hde
      have r2 := decompress_buffer_adpcm c2 hadp2 hde2
      rw [← hm, ← hd, ← he] at r2
      have hb1 := adpcm_decode_samples_le c1.decompressed (c1.mem.drop c1.data.toNat)
        (min 128 (c1.data_end - c1.data)) (by omega)
      have hb2 := adpcm_decode_samples_le c2.decompressed (c1.mem.drop c1.data.toNat)
        (min 128 (c1.data_end - c1.data)) (by omega)
      have hsame := adpcm_decode_samples_indep c1.decompressed c2.decompressed
        (c1.mem.drop c1.data.toNat) (min 128 (c1.data_end - c1.data))
      have hu : ∀ v : Int, 0 ≤ v → v ≤ 249 → uint8_cast v = v.toNat := by
        intro v hv0 hv1
        unfold uint8_cast
        omega
      refine ⟨by rw [r1.2.2, r2.2.2], by rw [r1.1, r2.1, hsame], ?_, ?_, ?_, ?_⟩
      · rw [r1.1, r2.1, r1.2.1, r2.2.1, hu _ hb1.1 hb1.2, hu _ hb2.1 hb2.2]
        exact adpcm_decode_take_indep _ _ _ _ (by omega) (by omega)
      · rw [r1.2.1, adpcm_decode_length, hl1]
      · rw [r2.2.1, adpcm_decode_length, hl2]
      · rw [r1.2.2]; omega

theorem decompress_buffer_indep (c1 c2 : pico_channel_t)
    (hm : c1.mem = c2.mem) (hd : c1.data = c2.data) (he : c1.data_end = c2.data_end)
    (ha : c1.is_adpcm = c2.is_adpcm) (hs : c1.step = c2.step) (hal : c1.alpha256 = c2.alpha256)
    (hl : c1.left = c2.left) (hr : c1.right = c2.right) (ho : c1.offset = c2.offset)
    (hl1 : c1.decompressed.length = ADPCM_SAMPLES_PER_BLOCK_SIZE)
    (hl2 : c2.decompressed.length = ADPCM_SAMPLES_PER_BLOCK_SIZE)
    (hle : c1.data ≤ c1.data_end) :
    SameSound (decompress_buffer c1) (decompress_buffer c2) := by
  have f1 := decompress_buffer_fields c1
  have f2 := decompress_buffer_fields c2
  unfold ADPCM_SAMPLES_PER_BLOCK_SIZE at hl1 hl2
  have core := decompress_buffer_core c1 c2 hm hd he ha hl1 hl2 hle
  refine ⟨by rw [f1.1, f2.1, hm], core.1, by rw [f1.2.1, f2.2.1, he],
    by rw [f1.2.2.1, f2.2.2.1, ha], by rw [f1.2.2.2.2.1, f2.2.2.2.2.1, hs],
    by rw [f1.2.2.2.2.2.2.2, f2.2.2.2.2.2.2.2, hal],
    by rw [f1.2.2.2.2.2.1, f2.2.2.2.2.2.1, hl],
    by rw [f1.2.2.2.2.2.2.1, f2.2.2.2.2.2.2.1, hr],
    by rw [f1.2.2.2.1, f2.2.2.2.1, ho], core.2.1, core.2.2.1, core.2.2.2.1, core.2.2.2.2.1, ?_⟩
  rw [f1.2.1]
  exact core.2.2.2.2.2

theorem init_channel_for_sfx_prepared (cfg : config_t) (wad : wad_t) ( use_sfx_prefix : Bool)
    (ch : pico_channel_t) (sfxinfo : sfxinfo_t) (pitch : Int)
    (h : ¬ sfx_lumpnum wad use_sfx_prefix sfxinfo < 0)
    (h8 : ¬ wad.W_LumpLength (sfx_lumpnum wad use_sfx_prefix sfxinfo) < 8)
    (hp : ¬ sfx_payload_length (wad.W_LumpLength (sfx_lumpnum wad use_sfx_prefix sfxinfo))
      (read_le32 (wad.W_CacheLumpNum (sfx_lumpnum wad use_sfx_prefix sfxinfo)) 4) ≤ 0) :
    init_channel_for_sfx cfg wad use_sfx_prefix ch sfxinfo pitch =
      (true,
        { decompress_buffer (sfx_prepared cfg wad use_sfx_prefix ch sfxinfo pitch) with
          offset := 0
          alpha256 := sfx_alpha256 cfg (read_le16
            (wad.W_CacheLumpNum (sfx_lumpnum wad use_sfx_prefix sfxinfo)) 2) }) :=
  init_channel_for_sfx_ok cfg wad use_sfx_prefix ch sfxinfo pitch h h8 hp

theorem I_Pico_StartSound_channel (cfg : config_t) (wad : wad_t) (g : sound_t)
    (sfxinfo : sfxinfo_t) (channel vol sep pitch : Int) (ch : pico_channel_t)
    (hinit : g.sound_initialized = true) (h0 : 0 ≤ channel)
    (h1 : channel < (g.channels.length : Int)) (h32 : g.channels.length ≤ 4294967296)
    (hk : 0 ≤ sfx_lumpnum wad g.use_sfx_prefix sfxinfo)
    (h8 : 8 ≤ (wad.lump (sfx_lumpnum wad g.use_sfx_prefix sfxinfo)).length)
    (hp : 0 < sfx_payload_length
      ((wad.lump (sfx_lumpnum wad g.use_sfx_prefix sfxinfo)).length : Int)
      (read_le32 (wad.lump (sfx_lumpnum wad g.use_sfx_prefix sfxinfo)) 4)) :
    get_channel (I_Pico_StartSound cfg wad (set_channel g channel ch) sfxinfo channel vol sep
        pitch).2 channel =
      { decompress_buffer (sfx_prepared cfg wad g.use_sfx_prefix
          { ch with decompressed_size := 0 } sfxinfo pitch) with
        offset := 0
        alpha256 := sfx_alpha256 cfg (read_le16
          (wad.W_CacheLumpNum (sfx_lumpnum wad g.use_sfx_prefix sfxinfo)) 2)
        left := params_left vol sep
        right := params_right vol sep } := by
  have hcn : channel.toNat < g.channels.length := by omega
  have hcheck := check_and_init_channel_of_range (set_channel g channel ch) channel
    (by rw [(set_channel_fields _ _ _).1]; exact hinit) h0
    (by rw [set_channel_length]; exact h1) (by rw [set_channel_length]; exact h32)
  have hk' : ¬ sfx_lumpnum wad g.use_sfx_prefix sfxinfo < 0 := by omega
  have h8' : ¬ wad.W_LumpLength (sfx_lumpnum wad g.use_sfx_prefix sfxinfo) < 8 := by
    unfold wad_t.W_LumpLength; omega
  have hp' : ¬ sfx_payload_length (wad.W_LumpLength (sfx_lumpnum wad g.use_sfx_prefix sfxinfo))
      (read_le32 (wad.W_CacheLumpNum (sfx_lumpnum wad g.use_sfx_prefix sfxinfo)) 4) ≤ 0 := by
    unfold wad_t.W_LumpLength wad_t.W_CacheLumpNum; omega
  have hpfx : sound_t.use_sfx_prefix (set_channel g channel ch) = g.use_sfx_prefix := rfl
  rw [I_Pico_StartSound_state cfg wad _ sfxinfo channel vol sep pitch hcheck]
  simp only
  rw [hpfx, get_stop_channel _ channel (by rw [set_channel_length]; exact hcn),
    get_set_channel _ _ _ hcn,
    init_channel_for_sfx_prepared cfg wad g.use_sfx_prefix _ sfxinfo pitch hk' h8' hp']
  simp only
  unfold stop_channel
  rw [set_set_channel, set_set_channel,
    I_Pico_UpdateSoundParams_eq _ channel vol sep
      (by rw [(set_channel_fields _ _ _).1]; exact hinit) h0
      (by rw [set_channel_length]; exact h1),
    get_set_channel _ _ _ hcn, set_set_channel, get_set_channel _ _ _ hcn]

theorem getD_of_take_eq (l1 l2 : List Int) (n i : Nat) (h : l1.take n = l2.take n)
    (hi : i < n) : l1.getD i 0 = l2.getD i 0 := by
  have e : ∀ l : List Int, l.getD i 0 = (l.take n).getD i 0 := by
    intro l
    simp only [List.getD_eq_getElem?_getD, List.getElem?_take, hi, if_true]
  rw [e l1, e l2, h]

theorem SameSound_offset (c1 c2 : pico_channel_t) (o : Nat) (h : SameSound c1 c2) :
    SameSound { c1 with offset := o } { c2 with offset := o } := by
  obtain ⟨a1, a2, a3, a4, a5, a6, a7, a8, _, a10, a11, a12, a13, a14⟩ := h
  exact ⟨a1, a2, a3, a4, a5, a6, a7, a8, rfl, a10, a11, a12, a13, a14⟩

theorem SameSound_stop (c1 c2 : pico_channel_t) (h : SameSound c1 c2) :
    SameSound { c1 with decompressed_size := 0 } { c2 with decompressed_size := 0 } := by
  obtain ⟨a1, a2, a3, a4, a5, a6, a7, a8, a9, _, _, a12, a13, a14⟩ := h
  exact ⟨a1, a2, a3, a4, a5, a6, a7, a8, a9, rfl, by simp, a12, a13, a14⟩

theorem SameSound_decompress (c1 c2 : pico_channel_t) (h : SameSound c1 c2) :
    SameSound (decompress_buffer c1) (decompress_buffer c2) := by
  obtain ⟨a1, a2, a3, a4, a5, a6, a7, a8, a9, _, _, a12, a13, a14⟩ := h
  exact decompress_buffer_indep c1 c2 a1 a2 a3 a4 a5 a6 a7 a8 a9 a12 a13 a14

theorem mix_slot_advance (voll volr alpha256 beta256 : Int) (s : Nat) (m : mix_state) :
    (mix_slot voll volr alpha256 beta256 s m).channel = (mix_advance m.channel m.offset_end).1 ∧
    (mix_slot voll volr alpha256 beta256 s m).offset_end =
      (mix_advance m.channel m.offset_end).2.1 ∧
    (mix_slot voll volr alpha256 beta256 s m).stopped =
      (mix_advance m.channel m.offset_end).2.2 := by
  unfold mix_slot mix_advance
  simp only
  split_ifs <;> exact ⟨rfl, rfl, rfl⟩

theorem SameSound_advance (c1 c2 : pico_channel_t) (oe : Nat) (h : SameSound c1 c2) :
    SameSound (mix_advance c1 oe).1 (mix_advance c2 oe).1 ∧
    (mix_advance c1 oe).2 = (mix_advance c2 oe).2 := by
  have e : uint32_cast ((c2.offset : Int) + c2.step) = uint32_cast ((c1.offset : Int) + c1.step)
      := by
    rw [h.2.2.2.2.2.2.2.2.1, h.2.2.2.2.1]
  have hd := SameSound_decompress _ _ (SameSound_offset c1 c2
    (uint32_cast ((uint32_cast ((c1.offset : Int) + c1.step) : Int) - oe)) h)
  have hsz := hd.2.2.2.2.2.2.2.2.2.1
  have hof := hd.2.2.2.2.2.2.2.2.1
  unfold mix_advance
  simp only
  rw [e]
  by_cases hb : uint32_cast ((c1.offset : Int) + c1.step) ≥ oe
  · rw [if_pos hb, if_pos hb]
    split_ifs with h1 h2 h2
    · refine ⟨SameSound_stop _ _ hd, ?_⟩
      simp only
      rw [hsz]
    · rw [hsz, hof] at h1
      exact absurd h1 h2
    · rw [hsz, hof] at h1
      exact absurd h2 h1
    · refine ⟨hd, ?_⟩
      simp only
      rw [hsz]
  · rw [if_neg hb, if_neg hb]
    exact ⟨SameSound_offset _ _ _ h, rfl⟩

theorem mix_advance_size_lt (c : pico_channel_t) (oe : Nat) (h : c.decompressed_size < 256) :
    (mix_advance c oe).1.decompressed_size < 256 := by
  unfold mix_advance
  simp only
  split_ifs
  · simp
  · exact decompress_buffer_size_lt _
  · exact h

theorem mix_slots_size_lt (voll volr alpha256 beta256 : Int) (n : Nat) :
    ∀ (s : Nat) (m : mix_state), m.channel.decompressed_size < 256 →
      (mix_slots voll volr alpha256 beta256 n s m).channel.decompressed_size < 256 := by
  induction n with
  | zero => intro s m h; exact h
  | succ n ih =>
    intro s m h
    have h1 : (mix_slot voll volr alpha256 beta256 s m).channel.decompressed_size < 256 := by
      rw [(mix_slot_advance voll volr alpha256 beta256 s m).1]
      exact mix_advance_size_lt _ _ h
    unfold mix_slots
    split_ifs
    · exact h1
    · exact ih _ _ h1

theorem SameMix_slot (voll volr alpha256 beta256 : Int) (s : Nat) (m1 m2 : mix_state)
    (h : SameMix m1 m2)
    (hoff : m1.channel.offset < m1.channel.decompressed_size * 65536) :
    SameMix (mix_slot voll volr alpha256 beta256 s m1) (mix_slot voll volr alpha256 beta256 s m2)
      := by
  obtain ⟨hc, hs, hsm, hoe, _⟩ := h
  have hidx : m1.channel.offset >>> 16 < m1.channel.decompressed_size := by
    rw [Nat.shiftRight_eq_div_pow]
    have : (2 : Nat) ^ 16 = 65536 := by norm_num
    rw [this]
    omega
  have hread : m1.channel.decompressed.getD (m1.channel.offset >>> 16) 0 =
      m2.channel.decompressed.getD (m2.channel.offset >>> 16) 0 := by
    rw [← hc.2.2.2.2.2.2.2.2.1]
    refine getD_of_take_eq _ _ m1.channel.decompressed_size _ ?_ hidx
    have := hc.2.2.2.2.2.2.2.2.2.2.1
    rw [← hc.2.2.2.2.2.2.2.2.2.1] at this
    exact this
  obtain ⟨s1, b1⟩ := mix_slot_samples voll volr alpha256 beta256 s m1
  obtain ⟨s2, b2⟩ := mix_slot_samples voll volr alpha256 beta256 s m2
  obtain ⟨a1, a2, a3⟩ := mix_slot_advance voll volr alpha256 beta256 s m1
  obtain ⟨a4, a5, a6⟩ := mix_slot_advance voll volr alpha256 beta256 s m2
  have hadv := SameSound_advance m1.channel m2.channel m1.offset_end hc
  have hsample : (mix_slot voll volr alpha256 beta256 s m1).sample =
      (mix_slot voll volr alpha256 beta256 s m2).sample := by
    rw [s1, s2, hsm, hread]
  refine ⟨?_, ?_, hsample, ?_, ?_⟩
  · rw [a1, a4, ← hoe]; exact hadv.1
  · rw [b1, b2, hsample, hs]
  · rw [a2, a5, ← hoe, hadv.2]
  · rw [a3, a6, ← hoe, hadv.2]

theorem SameMix_slots (voll volr alpha256 beta256 : Int) (n : Nat) :
    ∀ (s : Nat) (m1 m2 : mix_state), SameMix m1 m2 → OffsetInv m1 → m1.stopped = false →
      SameMix (mix_slots voll volr alpha256 beta256 n s m1)
        (mix_slots voll volr alpha256 beta256 n s m2) := by
  induction n with
  | zero => intro s m1 m2 h _ _; exact h
  | succ n ih =>
    intro s m1 m2 h hinv hs
    have hend : m1.offset_end = m1.channel.decompressed_size * 65536 ∧
        m1.channel.offset < m1.channel.decompressed_size * 65536 := by
      rcases hinv with hi | hi
      · rw [hs] at hi; exact absurd hi.1 (by simp)
      · exact hi.2
    have h1 := SameMix_slot voll volr alpha256 beta256 s m1 m2 h hend.2
    have hi1 := OffsetInv_slot voll volr alpha256 beta256 s m1 hend.1
    unfold mix_slots
    rw [← h1.2.2.2.2]
    split_ifs with hst
    · exact h1
    · exact ih _ _ _ h1 hi1 (by simpa using hst)

theorem SameSound_mix_channel (k : Nat) (c1 c2 : pico_channel_t) (samples : List Int)
    (h : SameSound c1 c2) (hp : Playable c1) :
    (mix_channel k c1 samples).2 = (mix_channel k c2 samples).2 ∧
    SameSound (mix_channel k c1 samples).1 (mix_channel k c2 samples).1 ∧
    Playable (mix_channel k c1 samples).1 := by
  have hsz := h.2.2.2.2.2.2.2.2.2.1
  unfold mix_channel
  by_cases hz : c1.decompressed_size = 0
  · rw [if_pos hz, if_pos (by rw [← hsz]; exact hz)]
    exact ⟨rfl, h, hp⟩
  · rw [if_neg hz, if_neg (by rw [← hsz]; exact hz)]
    have hoff : c1.offset < c1.decompressed_size * 65536 := by
      rcases hp.2 with h0 | h0
      · exact absurd h0 hz
      · exact h0
    have hidx : c1.offset >>> 16 < c1.decompressed_size := by
      rw [Nat.shiftRight_eq_div_pow]
      have : (2 : Nat) ^ 16 = 65536 := by norm_num
      rw [this]
      omega
    have hread : c1.decompressed.getD (c1.offset >>> 16) 0 =
        c2.decompressed.getD (c2.offset >>> 16) 0 := by
      rw [← h.2.2.2.2.2.2.2.2.1]
      refine getD_of_take_eq _ _ c1.decompressed_size _ ?_ hidx
      have := h.2.2.2.2.2.2.2.2.2.2.1
      rw [← hsz] at this
      exact this
    have henter : SameMix (mix_enter c1 samples) (mix_enter c2 samples) := by
      unfold mix_enter
      exact ⟨h, rfl, hread, by simp only; rw [hsz], rfl⟩
    have hinv0 : OffsetInv (mix_enter c1 samples) :=
      Or.inr ⟨rfl, uint32_cast_size _ hp.1, hoff⟩
    unfold mix_channel_slots
    rw [← h.2.2.2.2.2.2.1, ← h.2.2.2.2.2.2.2.1, ← h.2.2.2.2.2.1]
    have hm := SameMix_slots (c1.left : Int) (c1.right : Int) (c1.alpha256 : Int)
      (256 - (c1.alpha256 : Int)) k 0 _ _ henter hinv0 rfl
    have hi := OffsetInv_slots (c1.left : Int) (c1.right : Int) (c1.alpha256 : Int)
      (256 - (c1.alpha256 : Int)) k 0 _ hinv0 rfl
    refine ⟨hm.2.1, hm.1, ?_⟩
    rcases hi with hi | hi
    · exact ⟨mix_slots_size_lt _ _ _ _ k 0 _ hp.1, Or.inl hi.2⟩
    · exact ⟨mix_slots_size_lt _ _ _ _ k 0 _ hp.1, Or.inr hi.2.2⟩

theorem SameSound_mix_channel_passes (ps : List (Nat × List Int)) :
    ∀ (c1 c2 : pico_channel_t), SameSound c1 c2 → Playable c1 →
      (mix_channel_passes c1 ps).2 = (mix_channel_passes c2 ps).2 := by
  induction ps with
  | nil => intro c1 c2 _ _; rfl
  | cons p rest ih =>
    intro c1 c2 h hp
    obtain ⟨e, hs, hpl⟩ := SameSound_mix_channel p.1 c1 c2 p.2 h hp
    unfold mix_channel_passes
    simp only
    rw [e, ih _ _ hs hpl]

theorem I_Pico_StartSound_SameSound (cfg : config_t) (wad : wad_t) (g : sound_t)
    (sfxinfo : sfxinfo_t) (channel vol sep pitch : Int) (ch1 ch2 : pico_channel_t)
    (hinit : g.sound_initialized = true) (h0 : 0 ≤ channel)
    (h1 : channel < (g.channels.length : Int)) (h32 : g.channels.length ≤ 4294967296)
    (hk : 0 ≤ sfx_lumpnum wad g.use_sfx_prefix sfxinfo)
    (h8 : 8 ≤ (wad.lump (sfx_lumpnum wad g.use_sfx_prefix sfxinfo)).length)
    (hp : 0 < sfx_payload_length
      ((wad.lump (sfx_lumpnum wad g.use_sfx_prefix sfxinfo)).length : Int)
      (read_le32 (wad.lump (sfx_lumpnum wad g.use_sfx_prefix sfxinfo)) 4))
    (hl1 : ch1.decompressed.length = 249) (hl2 : ch2.decompressed.length = 249) :
    SameSound
      (get_channel (I_Pico_StartSound cfg wad (set_channel g channel ch1) sfxinfo channel vol
        sep pitch).2 channel)
      (get_channel (I_Pico_StartSound cfg wad (set_channel g channel ch2) sfxinfo channel vol
        sep pitch).2 channel) ∧
    Playable
      (get_channel (I_Pico_StartSound cfg wad (set_channel g channel ch1) sfxinfo channel vol
        sep pitch).2 channel) := by
  rw [I_Pico_StartSound_channel cfg wad g sfxinfo channel vol sep pitch ch1 hinit h0 h1 h32 hk
    h8 hp,
    I_Pico_StartSound_channel cfg wad g sfxinfo channel vol sep pitch ch2 hinit h0 h1 h32 hk
    h8 hp]
  have hle : (sfx_prepared cfg wad g.use_sfx_prefix { ch1 with decompressed_size := 0 } sfxinfo
      pitch).data ≤ (sfx_prepared cfg wad g.use_sfx_prefix { ch1 with decompressed_size := 0 }
      sfxinfo pitch).data_end := by
    unfold sfx_prepared wad_t.W_LumpLength wad_t.W_CacheLumpNum
    simp only
    omega
  obtain ⟨d1, d2, d3, d4, d5, d6⟩ := decompress_buffer_core
    (sfx_prepared cfg wad g.use_sfx_prefix { ch1 with decompressed_size := 0 } sfxinfo pitch)
    (sfx_prepared cfg wad g.use_sfx_prefix { ch2 with decompressed_size := 0 } sfxinfo pitch)
    rfl rfl rfl rfl hl1 hl2 hle
  obtain ⟨f1, f2, f3, _, f5, _, _, _⟩ := decompress_buffer_fields
    (sfx_prepared cfg wad g.use_sfx_prefix { ch1 with decompressed_size := 0 } sfxinfo pitch)
  obtain ⟨g1, g2, g3, _, g5, _, _, _⟩ := decompress_buffer_fields
    (sfx_prepared cfg wad g.use_sfx_prefix { ch2 with decompressed_size := 0 } sfxinfo pitch)
  refine ⟨⟨?_, d1, ?_, ?_, ?_, rfl, rfl, rfl, rfl, d2, d3, d4, d5, ?_⟩, ?_, ?_⟩
  · show (decompress_buffer _).mem = (decompress_buffer _).mem
    rw [f1, g1]; rfl
  · show (decompress_buffer _).data_end = (decompress_buffer _).data_end
    rw [f2, g2]; rfl
  · show (decompress_buffer _).is_adpcm = (decompress_buffer _).is_adpcm
    rw [f3, g3]; rfl
  · show (decompress_buffer _).step = (decompress_buffer _).step
    rw [f5, g5]; rfl
  · show (decompress_buffer _).data ≤ (decompress_buffer _).data_end
    rw [f2]; exact d6
  · exact decompress_buffer_size_lt _
  · show (decompress_buffer _).decompressed_size = 0 ∨
      0 < (decompress_buffer _).decompressed_size * 65536
    omega

/-- C14. After a `I_Pico_StartSound` that passes validation, with arguments
for which the two divisions of `init_channel_for_sfx` have nonzero divisors,
made on a channel whose record was `ch1` and on the same channel with any
other record `ch2` (each with the 249-entry decode buffer of the array), the
two resulting channel records agree on the cursor, end, format, step,
smoothing coefficient, gains, offset, `decompressed_size` and the first
`decompressed_size` decoded samples (`SameSound`); the offset is 0 and the
lump, end, format, step, smoothing coefficient and gains are the values that
the code computes from the lump header and the call's arguments; and every
later sequence of mix passes, over any buffers, writes the same samples from
either record. -/
theorem I_Pico_StartSound_hard_cut (cfg : config_t) (wad : wad_t) (g : sound_t)
    (sfxinfo : sfxinfo_t) (channel vol sep pitch : Int) (ch1 ch2 : pico_channel_t)
    (hinit : g.sound_initialized = true) (h0 : 0 ≤ channel)
    (h1 : channel < (g.channels.length : Int)) (h32 : g.channels.length ≤ 4294967296)
    (hk : 0 ≤ sfx_lumpnum wad g.use_sfx_prefix sfxinfo)
    (h8 : 8 ≤ (wad.lump (sfx_lumpnum wad g.use_sfx_prefix sfxinfo)).length)
    (hp : 0 < sfx_payload_length
      ((wad.lump (sfx_lumpnum wad g.use_sfx_prefix sfxinfo)).length : Int)
      (read_le32 (wad.lump (sfx_lumpnum wad g.use_sfx_prefix sfxinfo)) 4))
    (hstep : sfx_step_defined cfg pitch = true)
    (halpha : sfx_alpha256_defined cfg
      (read_le16 (wad.lump (sfx_lumpnum wad g.use_sfx_prefix sfxinfo)) 2) = true)
    (hl1 : ch1.decompressed.length = 249) (hl2 : ch2.decompressed.length = 249) :
    SameSound
      (get_channel (I_Pico_StartSound cfg wad (set_channel g channel ch1) sfxinfo channel vol
        sep pitch).2 channel)
      (get_channel (I_Pico_StartSound cfg wad (set_channel g channel ch2) sfxinfo channel vol
        sep pitch).2 channel) ∧
    (get_channel (I_Pico_StartSound cfg wad (set_channel g channel ch1) sfxinfo channel vol
      sep pitch).2 channel).offset = 0 ∧
    (get_channel (I_Pico_StartSound cfg wad (set_channel g channel ch1) sfxinfo channel vol
      sep pitch).2 channel).mem = wad.lump (sfx_lumpnum wad g.use_sfx_prefix sfxinfo) ∧
    (get_channel (I_Pico_StartSound cfg wad (set_channel g channel ch1) sfxinfo channel vol
      sep pitch).2 channel).data_end = 8 + sfx_payload_length
        ((wad.lump (sfx_lumpnum wad g.use_sfx_prefix sfxinfo)).length : Int)
        (read_le32 (wad.lump (sfx_lumpnum wad g.use_sfx_prefix sfxinfo)) 4) ∧
    (get_channel (I_Pico_StartSound cfg wad (set_channel g channel ch1) sfxinfo channel vol
      sep pitch).2 channel).is_adpcm = decide (read_le16
        (wad.lump (sfx_lumpnum wad g.use_sfx_prefix sfxinfo)) 0 = 0x8003) ∧
    (get_channel (I_Pico_StartSound cfg wad (set_channel g channel ch1) sfxinfo channel vol
      sep pitch).2 channel).step = sfx_step cfg (read_le16
        (wad.lump (sfx_lumpnum wad g.use_sfx_prefix sfxinfo)) 2) pitch ∧
    (get_channel (I_Pico_StartSound cfg wad (set_channel g channel ch1) sfxinfo channel vol
      sep pitch).2 channel).alpha256 = sfx_alpha256 cfg (read_le16
        (wad.lump (sfx_lumpnum wad g.use_sfx_prefix sfxinfo)) 2) ∧
    (get_channel (I_Pico_StartSound cfg wad (set_channel g channel ch1) sfxinfo channel vol
      sep pitch).2 channel).left = params_left vol sep ∧
    (get_channel (I_Pico_StartSound cfg wad (set_channel g channel ch1) sfxinfo channel vol
      sep pitch).2 channel).right = params_right vol sep ∧
    ∀ ps : List (Nat × List Int),
      (mix_channel_passes (get_channel (I_Pico_StartSound cfg wad (set_channel g channel ch1)
        sfxinfo channel vol sep pitch).2 channel) ps).2 =
      (mix_channel_passes (get_channel (I_Pico_StartSound cfg wad (set_channel g channel ch2)
        sfxinfo channel vol sep pitch).2 channel) ps).2 := by
  obtain ⟨hs, hpl⟩ := I_Pico_StartSound_SameSound cfg wad g sfxinfo channel vol sep pitch ch1
    ch2 hinit h0 h1 h32 hk h8 hp hl1 hl2
  have _hdefined := And.intro hstep halpha
  refine ⟨hs, ?_, ?_, ?_, ?_, ?_, ?_, ?_, ?_,
    fun ps => SameSound_mix_channel_passes ps _ _ hs hpl⟩
  all_goals rw [I_Pico_StartSound_channel cfg wad g sfxinfo channel vol sep pitch ch1 hinit h0
    h1 h32 hk h8 hp]
  · show (decompress_buffer _).mem = _
    rw [(decompress_buffer_fields _).1]; rfl
  · show (decompress_buffer _).data_end = _
    rw [(decompress_buffer_fields _).2.1]; rfl
  · show (decompress_buffer _).is_adpcm = _
    rw [(decompress_buffer_fields _).2.2.1]; rfl
  · show (decompress_buffer _).step = _
    rw [(decompress_buffer_fields _).2.2.2.2.1]; rfl
  · rfl

/-- C14 (witness). A raw four-byte sound started on channel 1 of two, once
with the channel playing another sound and once with the channel idle: one
mix pass of three sample pairs writes the same buffer. -/
theorem I_Pico_StartSound_hard_cut_witness :
    ((test_sound 2).sound_initialized = true ∧
      0 ≤ sfx_lumpnum (test_wad test_lump_raw) ( sound_t.use_sfx_prefix (test_sound 2)) test_sfx ∧
      sfx_step_defined test_cfg 127 = true ∧
      sfx_alpha256_defined test_cfg (read_le16 test_lump_raw 2) = true ∧
      test_channel_full.decompressed_size = 3 ∧ pico_channel_t.zero.decompressed_size = 0) ∧
    (mix_channel_passes (get_channel (I_Pico_StartSound test_cfg (test_wad test_lump_raw)
        (set_channel (test_sound 2) 1 test_channel_full) test_sfx 1 127 128 127).2 1)
        [(3, [0, 0, 0, 0, 0, 0])]).2 =
      (mix_channel_passes (get_channel (I_Pico_StartSound test_cfg (test_wad test_lump_raw)
        (set_channel (test_sound 2) 1 pico_channel_t.zero) test_sfx 1 127 128 127).2 1)
        [(3, [0, 0, 0, 0, 0, 0])]).2 :=
  ⟨by decide,
    (I_Pico_StartSound_hard_cut test_cfg (test_wad test_lump_raw) (test_sound 2) test_sfx 1 127
      128 127 test_channel_full pico_channel_t.zero (by decide) (by decide) (by decide)
      (by decide) (by decide) (by decide) (by decide) (by decide) (by decide)
      (by rw [test_channel_full, List.length_append, List.length_replicate]; rfl)
      (List.length_replicate 249 (0 : Int))).2.2.2.2.2.2.2.2.2
      [(3, [0, 0, 0, 0, 0, 0])]⟩

theorem mix_slots_snoc (voll volr alpha256 beta256 : Int) (n : Nat) :
    ∀ (s : Nat) (m : mix_state), m.stopped = false →
      mix_slots voll volr alpha256 beta256 (n + 1) s m =
        if (mix_slots voll volr alpha256 beta256 n s m).stopped then
          mix_slots voll volr alpha256 beta256 n s m
        else mix_slot voll volr alpha256 beta256 (s + n)
          (mix_slots voll volr alpha256 beta256 n s m) := by
  induction n with
  | zero =>
    intro s m hm
    simp only [mix_slots, Nat.add_zero]
    rw [ite_self, if_neg (by rw [hm]; decide)]
  | succ n ih =>
    intro s m hm
    rw [mix_slots]
    by_cases hs : (mix_slot voll volr alpha256 beta256 s m).stopped = true
    · have e : mix_slots voll volr alpha256 beta256 (n + 1) s m =
          mix_slot voll volr alpha256 beta256 s m := by
        rw [mix_slots, if_pos hs]
      rw [if_pos hs, e, if_pos hs]
    · have e : mix_slots voll volr alpha256 beta256 (n + 1) s m =
          mix_slots voll volr alpha256 beta256 n (s + 1)
            (mix_slot voll volr alpha256 beta256 s m) := by
        rw [mix_slots, if_neg hs]
      rw [if_neg hs, e, ih (s + 1) _ (by simpa using hs)]
      have e2 : s + 1 + n = s + (n + 1) := by omega
      rw [e2]

theorem mix_channel_slots_succ (n : Nat) (channel : pico_channel_t) (samples : List Int)
    (h : (mix_channel_slots n channel samples).stopped = false) :
    mix_channel_slots (n + 1) channel samples =
      mix_slot channel.left channel.right channel.alpha256 (256 - channel.alpha256) n
        (mix_channel_slots n channel samples) := by
  unfold mix_channel_slots at h ⊢
  rw [mix_slots_snoc _ _ _ _ n 0 _ rfl, if_neg (by simpa using h), Nat.zero_add]

/-- C21 (as amended). With smoothing enabled, the `sample` with which a
channel's pass is entered is the raw decoded sample
`decompressed[offset >> 16]`, and at each output slot `n` that the pass
reaches the contributed sample is `(beta * prev + alpha * new) / 256`, one
truncating division of the weighted sum, where `prev` is the sample of the
slot before, `new` is `decompressed[offset >> 16]` at that slot, `alpha` is
the channel's `alpha256` and `beta = 256 - alpha`; this sample times the
gains is what is added to the two buffer entries of the slot. -/
theorem mix_channel_smoothing (channel : pico_channel_t) (samples : List Int) (n : Nat)
    (h : (mix_channel_slots n channel samples).stopped = false) :
    (mix_channel_slots 0 channel samples).sample =
      channel.decompressed.getD (channel.offset >>> 16) 0 ∧
    (mix_channel_slots (n + 1) channel samples).sample =
      Int.tdiv ((256 - (channel.alpha256 : Int)) * (mix_channel_slots n channel samples).sample
        + (channel.alpha256 : Int) *
          (mix_channel_slots n channel samples).channel.decompressed.getD
            ((mix_channel_slots n channel samples).channel.offset >>> 16) 0) 256 ∧
    (mix_channel_slots (n + 1) channel samples).samples =
      ((mix_channel_slots n channel samples).samples.set (2 * n)
        (clamp_s16 (int32_cast ((mix_channel_slots n channel samples).samples.getD (2 * n) 0 +
          int32_cast ((mix_channel_slots (n + 1) channel samples).sample * channel.left))))).set
        (2 * n + 1)
        (clamp_s16 (int32_cast (((mix_channel_slots n channel samples).samples.set (2 * n)
          (clamp_s16 (int32_cast ((mix_channel_slots n channel samples).samples.getD (2 * n) 0 +
            int32_cast ((mix_channel_slots (n + 1) channel samples).sample *
              channel.left))))).getD (2 * n + 1) 0 +
          int32_cast ((mix_channel_slots (n + 1) channel samples).sample * channel.right)))) := by
  have e := mix_channel_slots_succ n channel samples h
  obtain ⟨h1, h2⟩ := mix_slot_samples channel.left channel.right channel.alpha256
    (256 - channel.alpha256) n (mix_channel_slots n channel samples)
  rw [← e] at h1 h2
  exact ⟨rfl, h1, h2⟩

/-- C21 (witness). A channel with decoded samples 3, 2, 2 and coefficient
100: slot 0 contributes the raw sample 3 and slot 1 contributes
`(156 * 3 + 100 * 2) / 256 = 2`. -/
theorem mix_channel_smoothing_witness :
    (mix_channel_slots 1 test_channel_blend [0, 0, 0, 0]).stopped = false ∧
    (mix_channel_slots 1 test_channel_blend [0, 0, 0, 0]).sample = 3 ∧
    (mix_channel_slots 2 test_channel_blend [0, 0, 0, 0]).sample = 2 :=
  ⟨by decide, by decide,
    ((mix_channel_smoothing test_channel_blend [0, 0, 0, 0] 1 (by decide)).2.1).trans
      (by decide)⟩

/-- C21 (counterexample). For a channel with decoded samples 3, 2, 2 and
coefficient 100, slot 1 has `prev = 3` and `new = 2` and contributes
`(156 * 3 + 100 * 2) / 256 = 668 / 256 = 2`, whereas
`prev*beta/256 + new*alpha/256` is `1 + 0 = 1` with truncating divisions, and
the exact quotient `668 / 256` is not an integer. -/
theorem mix_channel_smoothing_counterexample :
    (mix_channel_slots 1 test_channel_blend [0, 0, 0, 0]).stopped = false ∧
    (mix_channel_slots 1 test_channel_blend [0, 0, 0, 0]).sample = 3 ∧
    (mix_channel_slots 1 test_channel_blend [0, 0, 0, 0]).channel.decompressed.getD
      ((mix_channel_slots 1 test_channel_blend [0, 0, 0, 0]).channel.offset >>> 16) 0 = 2 ∧
    (mix_channel_slots 2 test_channel_blend [0, 0, 0, 0]).sample = 2 ∧
    spec_blend 3 2 test_channel_blend.alpha256 = 1 ∧
    (256 - (test_channel_blend.alpha256 : Int)) * 3 + (test_channel_blend.alpha256 : Int) * 2
      = 668 ∧
    ¬ ((256 : Int) ∣ 668) ∧
    (mix_channel_slots 2 test_channel_blend [0, 0, 0, 0]).samples = [189, 189, 126, 126] := by
  decide

theorem uint32_cast_of_range (v : Int) (h0 : 0 ≤ v) (h1 : v < 4294967296) :
    (uint32_cast v : Int) = v := by
  unfold uint32_cast
  omega

theorem sfx_step_norm (cfg : config_t) (sample_freq : Nat) (hs : sample_freq < 65536)
    (hF0 : 0 < cfg.PICO_SOUND_SAMPLE_FREQ) (hF1 : cfg.PICO_SOUND_SAMPLE_FREQ ≤ 2147483647) :
    (sfx_step cfg sample_freq cfg.NORM_PITCH : Int) =
      spec_step sample_freq cfg.PICO_SOUND_SAMPLE_FREQ := by
  unfold sfx_step spec_step
  rw [if_pos rfl, uint32_cast_of_range ((sample_freq : Int) * 65536) (by omega) (by omega),
    uint32_cast_of_range cfg.PICO_SOUND_SAMPLE_FREQ (by omega) (by omega)]
  have hq0 : 0 ≤ (sample_freq : Int) * 65536 / cfg.PICO_SOUND_SAMPLE_FREQ :=
    Int.ediv_nonneg (by omega) (by omega)
  have hq1 : (sample_freq : Int) * 65536 / cfg.PICO_SOUND_SAMPLE_FREQ ≤
      (sample_freq : Int) * 65536 := Int.ediv_le_self _ (by omega)
  exact uint32_cast_of_range _ hq0 (by omega)

theorem sfx_step_other (cfg : config_t) (sample_freq : Nat) (pitch : Int)
    (hs : sample_freq < 65536) (hp : 1 ≤ pitch)
    (hsp : (sample_freq : Int) * pitch < 4294967296)
    (hF0 : 0 < cfg.PICO_SOUND_SAMPLE_FREQ)
    (hFp : cfg.PICO_SOUND_SAMPLE_FREQ * pitch ≤ 2147483647)
    (hne : pitch ≠ cfg.NORM_PITCH) :
    (sfx_step cfg sample_freq pitch : Int) =
      spec_step sample_freq cfg.PICO_SOUND_SAMPLE_FREQ := by
  have hsp0 : 0 ≤ (sample_freq : Int) * pitch := mul_nonneg (by omega) (by omega)
  have hFp0 : 0 < cfg.PICO_SOUND_SAMPLE_FREQ * pitch := mul_pos hF0 (by omega)
  have e1 : int32_cast (cfg.PICO_SOUND_SAMPLE_FREQ * pitch) % 18446744073709551616 =
      cfg.PICO_SOUND_SAMPLE_FREQ * pitch := by
    unfold int32_cast
    generalize cfg.PICO_SOUND_SAMPLE_FREQ * pitch = d at hFp hFp0
    omega
  have e2 : ((uint32_cast ((sample_freq : Int) * pitch) * 65536 % 18446744073709551616 : Nat)
      : Int) = (sample_freq : Int) * 65536 * pitch := by
    have := uint32_cast_of_range _ hsp0 hsp
    have e3 : (sample_freq : Int) * 65536 * pitch = (sample_freq : Int) * pitch * 65536 := by
      ring
    rw [e3]
    generalize (sample_freq : Int) * pitch = d at hsp hsp0 this ⊢
    generalize uint32_cast d = u at this ⊢
    push_cast
    omega
  unfold sfx_step spec_step
  rw [if_neg hne, e1, e2, Int.mul_ediv_mul_of_pos_left _ _ (by omega : 0 < pitch)]
  have hq0 : 0 ≤ (sample_freq : Int) * 65536 / cfg.PICO_SOUND_SAMPLE_FREQ :=
    Int.ediv_nonneg (by omega) (by omega)
  have hq1 : (sample_freq : Int) * 65536 / cfg.PICO_SOUND_SAMPLE_FREQ ≤
      (sample_freq : Int) * 65536 := Int.ediv_le_self _ (by omega)
  exact uint32_cast_of_range _ hq0 (by omega)

/-- C24 (as amended). For every 16-bit source rate and every pitch `>= 1` for
which `rate * pitch` fits in 32 bits and `PICO_SOUND_SAMPLE_FREQ * pitch`
fits in a signed 32-bit `int` (output rate positive), the step computed by
`init_channel_for_sfx` equals `floor(rate * 65536 / outputRate)`, the same
value as for `pitch = NORM_PITCH`, and none of the products wraps: the pitch
has no effect on the step. -/
theorem sfx_step_pitch_free (cfg : config_t) (sample_freq : Nat) (pitch : Int)
    (hs : sample_freq < 65536) (hp : 1 ≤ pitch)
    (hsp : (sample_freq : Int) * pitch < 4294967296)
    (hF0 : 0 < cfg.PICO_SOUND_SAMPLE_FREQ)
    (hFp : cfg.PICO_SOUND_SAMPLE_FREQ * pitch ≤ 2147483647) :
    (sfx_step cfg sample_freq pitch : Int) = spec_step sample_freq cfg.PICO_SOUND_SAMPLE_FREQ ∧
    sfx_step cfg sample_freq pitch = sfx_step cfg sample_freq cfg.NORM_PITCH ∧
    (uint32_cast ((sample_freq : Int) * 65536) : Int) = (sample_freq : Int) * 65536 ∧
    (uint32_cast ((sample_freq : Int) * pitch) : Int) = (sample_freq : Int) * pitch ∧
    int32_cast (cfg.PICO_SOUND_SAMPLE_FREQ * pitch) = cfg.PICO_SOUND_SAMPLE_FREQ * pitch ∧
    (sample_freq : Int) * pitch * 65536 < 18446744073709551616 := by
  have hF1 : cfg.PICO_SOUND_SAMPLE_FREQ ≤ 2147483647 :=
    le_trans (le_mul_of_one_le_right hF0.le hp) hFp
  have hsp0 : 0 ≤ (sample_freq : Int) * pitch := mul_nonneg (by omega) (by omega)
  have hFp0 : 0 < cfg.PICO_SOUND_SAMPLE_FREQ * pitch := mul_pos hF0 (by omega)
  have hn := sfx_step_norm cfg sample_freq hs hF0 hF1
  have hstep : (sfx_step cfg sample_freq pitch : Int) =
      spec_step sample_freq cfg.PICO_SOUND_SAMPLE_FREQ := by
    by_cases hne : pitch = cfg.NORM_PITCH
    · rw [hne]; exact hn
    · exact sfx_step_other cfg sample_freq pitch hs hp hsp hF0 hFp hne
  refine ⟨hstep, ?_, uint32_cast_of_range _ (by omega) (by omega),
    uint32_cast_of_range _ hsp0 hsp, ?_, ?_⟩
  · have : (sfx_step cfg sample_freq pitch : Int) = sfx_step cfg sample_freq cfg.NORM_PITCH := by
      rw [hstep, hn]
    exact_mod_cast this
  · unfold int32_cast
    generalize cfg.PICO_SOUND_SAMPLE_FREQ * pitch = d at hFp hFp0
    omega
  · generalize (sample_freq : Int) * pitch = d at hsp hsp0
    omega

/-- C24 (witness). Rate 11025 at pitch 200 and output rate 44100: the step is
`11025 * 65536 / 44100 = 16384`. -/
theorem sfx_step_pitch_free_witness :
    ((11025 : Nat) < 65536 ∧ (1 : Int) ≤ 200 ∧ ((11025 : Nat) : Int) * 200 < 4294967296 ∧
      0 < test_cfg.PICO_SOUND_SAMPLE_FREQ ∧
      test_cfg.PICO_SOUND_SAMPLE_FREQ * 200 ≤ 2147483647) ∧
    (sfx_step test_cfg 11025 200 : Int) = spec_step 11025 test_cfg.PICO_SOUND_SAMPLE_FREQ ∧
    spec_step 11025 test_cfg.PICO_SOUND_SAMPLE_FREQ = 16384 :=
  ⟨by decide,
    (sfx_step_pitch_free test_cfg 11025 200 (by decide) (by decide) (by decide) (by decide)
      (by decide)).1, by decide⟩

/-- C24 (counterexample). Rate 8000 at pitch 50000 and output rate 44100:
`rate * pitch = 400000000` fits in 32 bits, but `44100 * 50000` does not fit
in an `int`; with the product wrapped the step is 0, whereas
`floor(8000 * 65536 / 44100)`, the step at `NORM_PITCH`, is 11888. -/
theorem sfx_step_pitch_free_counterexample :
    (8000 : Nat) < 65536 ∧ (1 : Int) ≤ 50000 ∧ ((8000 : Nat) : Int) * 50000 < 4294967296 ∧
    (2147483647 : Int) < test_cfg.PICO_SOUND_SAMPLE_FREQ * 50000 ∧
    sfx_step test_cfg 8000 50000 = 0 ∧
    sfx_step test_cfg 8000 test_cfg.NORM_PITCH = 11888 ∧
    spec_step 8000 test_cfg.PICO_SOUND_SAMPLE_FREQ = 11888 := by
  decide

theorem sfx_alpha256_exact (cfg : config_t) (sample_freq : Nat) (hs : sample_freq < 65536)
    (hF0 : 0 < cfg.PICO_SOUND_SAMPLE_FREQ)
    (hden : 201 * (sample_freq : Int) + 64 * cfg.PICO_SOUND_SAMPLE_FREQ < 4294967296) :
    (sfx_alpha256 cfg sample_freq : Int) = spec_alpha256 sample_freq cfg.PICO_SOUND_SAMPLE_FREQ ∧
    spec_alpha256 sample_freq cfg.PICO_SOUND_SAMPLE_FREQ < 256 ∧
    0 ≤ spec_alpha256 sample_freq cfg.PICO_SOUND_SAMPLE_FREQ := by
  have hq0 : 0 ≤ spec_alpha256 sample_freq cfg.PICO_SOUND_SAMPLE_FREQ :=
    Int.ediv_nonneg (by omega) (by omega)
  have hq1 : spec_alpha256 sample_freq cfg.PICO_SOUND_SAMPLE_FREQ < 256 := by
    unfold spec_alpha256
    apply Int.ediv_lt_of_lt_mul (by omega)
    omega
  refine ⟨?_, hq1, hq0⟩
  unfold sfx_alpha256
  rw [uint32_cast_of_range (256 * 201 * (sample_freq : Int)) (by omega) (by omega),
    uint32_cast_of_range cfg.PICO_SOUND_SAMPLE_FREQ (by omega) (by omega),
    uint32_cast_of_range (64 * cfg.PICO_SOUND_SAMPLE_FREQ) (by omega) (by omega),
    uint32_cast_of_range (201 * (sample_freq : Int) + 64 * cfg.PICO_SOUND_SAMPLE_FREQ)
      (by omega) (by omega)]
  unfold spec_alpha256 at hq0 hq1 ⊢
  unfold uint8_cast
  omega

/-- C25 (as amended). For every 16-bit source rate `s` and positive output
rate `F` with `201 * s + 64 * F < 2^32` (every `F` up to 66903043), the
smoothing coefficient stored by `init_channel_for_sfx` equals
`floor(256 * 201 * s / (201 * s + 64 * F))`, no 32-bit product or sum of the
computation wraps, and the value lies in `[0, 255]`, so the 8-bit field holds
it without truncation and `beta = 256 - alpha` is at least 1. -/
theorem sfx_alpha256_range (cfg : config_t) (sample_freq : Nat) (hs : sample_freq < 65536)
    (hF0 : 0 < cfg.PICO_SOUND_SAMPLE_FREQ)
    (hden : 201 * (sample_freq : Int) + 64 * cfg.PICO_SOUND_SAMPLE_FREQ < 4294967296) :
    (sfx_alpha256 cfg sample_freq : Int) = spec_alpha256 sample_freq cfg.PICO_SOUND_SAMPLE_FREQ ∧
    sfx_alpha256 cfg sample_freq ≤ 255 ∧
    1 ≤ 256 - (sfx_alpha256 cfg sample_freq : Int) ∧
    (uint32_cast (256 * 201 * (sample_freq : Int)) : Int) = 256 * 201 * (sample_freq : Int) ∧
    (uint32_cast (64 * (uint32_cast cfg.PICO_SOUND_SAMPLE_FREQ : Int)) : Int) =
      64 * cfg.PICO_SOUND_SAMPLE_FREQ ∧
    (uint32_cast (201 * (sample_freq : Int) + 64 * cfg.PICO_SOUND_SAMPLE_FREQ) : Int) =
      201 * (sample_freq : Int) + 64 * cfg.PICO_SOUND_SAMPLE_FREQ ∧
    (cfg.PICO_SOUND_SAMPLE_FREQ ≤ 66903043 →
      ∀ s : Nat, s < 65536 → 201 * (s : Int) + 64 * cfg.PICO_SOUND_SAMPLE_FREQ < 4294967296) := by
  obtain ⟨h1, h2, h3⟩ := sfx_alpha256_exact cfg sample_freq hs hF0 hden
  refine ⟨h1, by omega, by omega, uint32_cast_of_range _ (by omega) (by omega), ?_,
    uint32_cast_of_range _ (by omega) (by omega), fun hF s hs2 => by omega⟩
  rw [uint32_cast_of_range cfg.PICO_SOUND_SAMPLE_FREQ (by omega) (by omega)]
  exact uint32_cast_of_range _ (by omega) (by omega)

/-- C25 (witness). Rate 11025 at output rate 44100: the coefficient is
`floor(567302400 / 5038425) = 112`. -/
theorem sfx_alpha256_range_witness :
    ((11025 : Nat) < 65536 ∧ 0 < test_cfg.PICO_SOUND_SAMPLE_FREQ ∧
      201 * ((11025 : Nat) : Int) + 64 * test_cfg.PICO_SOUND_SAMPLE_FREQ < 4294967296) ∧
    (sfx_alpha256 test_cfg 11025 : Int) = spec_alpha256 11025 test_cfg.PICO_SOUND_SAMPLE_FREQ ∧
    spec_alpha256 11025 test_cfg.PICO_SOUND_SAMPLE_FREQ = 112 :=
  ⟨by decide,
    (sfx_alpha256_range test_cfg 11025 (by decide) (by decide) (by decide)).1, by decide⟩

/-- C25 (counterexample). At the positive output rate `2^26 + 1000` the
product `64 * F` wraps to 64000 in 32 bits: for rate 11025 the stored
coefficient is `floor(567302400 / 2280025) = 248`, whereas
`floor(256 * 201 * s / (201 * s + 64 * F))` is 0. -/
theorem sfx_alpha256_range_counterexample :
    (11025 : Nat) < 65536 ∧ 0 < test_cfg_fast.PICO_SOUND_SAMPLE_FREQ ∧
    test_cfg_fast.PICO_SOUND_SAMPLE_FREQ ≤ 2147483647 ∧
    uint32_cast (64 * (uint32_cast test_cfg_fast.PICO_SOUND_SAMPLE_FREQ : Int)) = 64000 ∧
    sfx_alpha256 test_cfg_fast 11025 = 248 ∧
    spec_alpha256 11025 test_cfg_fast.PICO_SOUND_SAMPLE_FREQ = 0 := by
  decide

theorem adpcm_byte_frame (inbuf : List Nat) (ip op i : Nat) (st : adpcm_state) (k : Nat)
    (h : k < op + i * 2 ∨ op + i * 2 + 2 ≤ k) :
    (adpcm_byte inbuf ip op i st).outbuf.getD k 0 = st.outbuf.getD k 0 := by
  unfold adpcm_byte adpcm_high_nibble adpcm_low_nibble
  simp only
  rw [getD_set_other _ _ _ _ (by omega), getD_set_other _ _ _ _ (by omega)]

theorem adpcm_chunk_frame (inbuf : List Nat) (ip op : Nat) (st : adpcm_state) (k : Nat)
    (h : k < op ∨ op + 8 ≤ k) :
    (adpcm_chunk inbuf ip op st).outbuf.getD k 0 = st.outbuf.getD k 0 := by
  have e : adpcm_chunk inbuf ip op st =
      adpcm_byte inbuf ip op 3 (adpcm_byte inbuf ip op 2 (adpcm_byte inbuf ip op 1
        (adpcm_byte inbuf ip op 0 st))) := rfl
  rw [e, adpcm_byte_frame _ _ _ _ _ _ (by omega), adpcm_byte_frame _ _ _ _ _ _ (by omega),
    adpcm_byte_frame _ _ _ _ _ _ (by omega), adpcm_byte_frame _ _ _ _ _ _ (by omega)]

theorem adpcm_chunks_frame (inbuf : List Nat) (c : Nat) :
    ∀ (ip op : Nat) (st : adpcm_state) (k : Nat), (k < op ∨ op + 8 * c ≤ k) →
      (adpcm_chunks inbuf c ip op st).outbuf.getD k 0 = st.outbuf.getD k 0 := by
  induction c with
  | zero => intro ip op st k _; rfl
  | succ c ih =>
    intro ip op st k h
    rw [adpcm_chunks, ih _ _ _ _ (by omega), adpcm_chunk_frame _ _ _ _ _ (by omega)]

theorem adpcm_decode_frame (outbuf : List Int) (inbuf : List Nat) (n : Int) (k : Nat)
    (h : max 1 (adpcm_decode_block_s8 outbuf inbuf n).samples.toNat ≤ k) :
    (adpcm_decode_block_s8 outbuf inbuf n).outbuf.getD k 0 = outbuf.getD k 0 := by
  by_cases h4 : n < 4
  · rw [adpcm_decode_reject_short outbuf inbuf n h4]
  · by_cases hb : inbuf.getD 2 0 > 88 ∨ inbuf.getD 3 0 ≠ 0
    · rw [adpcm_decode_reject_header outbuf inbuf n (by omega) hb]
      exact getD_set_other _ _ _ _ (by omega)
    · have hacc := adpcm_decode_accept outbuf inbuf n (by omega) (by omega) (by omega)
      rw [hacc] at h ⊢
      simp only at h ⊢
      rw [adpcm_chunks_frame _ _ _ _ _ _ (by omega)]
      exact getD_set_other _ _ _ _ (by omega)

/-- C27. For every block length `n <= 128` (`ADPCM_BLOCK_SIZE`), whatever
the bytes and the output buffer, `adpcm_decode_block_s8` returns a count in
`[0, 249]`, which the 8-bit `decompressed_size` holds unchanged, leaves the
length of the output buffer as it was and every entry at an index
`>= max(1, count)` as it was, so nothing at or beyond index 249 is written; a
128-byte block with a valid header yields exactly 249 samples. -/
theorem adpcm_decode_block_s8_bounds (outbuf : List Int) (inbuf : List Nat) (n : Int)
    (hn : n ≤ ADPCM_BLOCK_SIZE) :
    (0 ≤ (adpcm_decode_block_s8 outbuf inbuf n).samples ∧
      (adpcm_decode_block_s8 outbuf inbuf n).samples ≤ ADPCM_SAMPLES_PER_BLOCK_SIZE) ∧
    (uint8_cast (adpcm_decode_block_s8 outbuf inbuf n).samples : Int) =
      (adpcm_decode_block_s8 outbuf inbuf n).samples ∧
    (adpcm_decode_block_s8 outbuf inbuf n).outbuf.length = outbuf.length ∧
    (∀ k : Nat, max 1 (adpcm_decode_block_s8 outbuf inbuf n).samples.toNat ≤ k →
      (adpcm_decode_block_s8 outbuf inbuf n).outbuf.getD k 0 = outbuf.getD k 0) ∧
    (∀ k : Nat, ADPCM_SAMPLES_PER_BLOCK_SIZE ≤ k →
      (adpcm_decode_block_s8 outbuf inbuf n).outbuf.getD k 0 = outbuf.getD k 0) ∧
    (n = ADPCM_BLOCK_SIZE → inbuf.getD 2 0 ≤ 88 → inbuf.getD 3 0 = 0 →
      (adpcm_decode_block_s8 outbuf inbuf n).samples = ADPCM_SAMPLES_PER_BLOCK_SIZE) := by
  have hle := adpcm_decode_samples_le outbuf inbuf n hn
  have h249 : ((ADPCM_SAMPLES_PER_BLOCK_SIZE : Nat) : Int) = 249 := rfl
  refine ⟨⟨hle.1, by rw [h249]; exact hle.2⟩, ?_, adpcm_decode_length outbuf inbuf n,
    fun k hk => adpcm_decode_frame outbuf inbuf n k hk,
    fun k hk => adpcm_decode_frame outbuf inbuf n k ?_, ?_⟩
  · unfold uint8_cast
    omega
  · have : ADPCM_SAMPLES_PER_BLOCK_SIZE = 249 := rfl
    omega
  · intro h128 hidx hres
    have : ADPCM_BLOCK_SIZE = 128 := rfl
    rw [adpcm_decode_accept outbuf inbuf n (by omega) hidx hres, h249]
    simp only
    omega

/-- C27 (witness). An accepted 12-byte block decoded into a 249-entry
buffer. -/
theorem adpcm_decode_block_s8_bounds_witness :
    (12 : Int) ≤ ADPCM_BLOCK_SIZE ∧
    (adpcm_decode_block_s8 (List.replicate 249 0) [1, 2, 3, 0, 5, 6, 7, 8, 9, 10, 11, 12]
      12).samples ≤ ADPCM_SAMPLES_PER_BLOCK_SIZE ∧
    (adpcm_decode_block_s8 (List.replicate 249 0) [1, 2, 3, 0, 5, 6, 7, 8, 9, 10, 11, 12]
      12).outbuf.getD 17 0 = (List.replicate 249 (0 : Int)).getD 17 0 :=
  ⟨by decide,
    (adpcm_decode_block_s8_bounds (List.replicate 249 0) [1, 2, 3, 0, 5, 6, 7, 8, 9, 10, 11, 12]
      12 (by decide)).1.2,
    (adpcm_decode_block_s8_bounds (List.replicate 249 0) [1, 2, 3, 0, 5, 6, 7, 8, 9, 10, 11, 12]
      12 (by decide)).2.2.2.1 17
      (by rw [adpcm_decode_accept _ _ _ (by decide) (by decide) (by decide)]; decide)⟩

/-- C28. In the mixer with smoothing enabled, for every channel whose fields
are in the ranges of their types (coefficient and gains in `[0, 255]`,
decoded samples in `[-128, 127]`) and every `int16_t` buffer: after every
number `n` of slots of the channel's pass the smoothed sample is in
`[-128, 127]`, and so is the sample of the next slot; its products with the
two gains lie in `[-32640, 32385]`; and for every entry `existing` of the
buffer the sum `existing + sample * gain` is inside the 32-bit range, so the
two 32-bit conversions in the code leave it unchanged. -/
theorem mix_channel_no_overflow (n : Nat) (channel : pico_channel_t) (samples : List Int)
    (hc : channel_typed channel) (hb : int16_buffer samples) :
    (-128 ≤ (mix_channel_slots n channel samples).sample ∧
      (mix_channel_slots n channel samples).sample ≤ 127) ∧
    (-128 ≤ (mix_slot channel.left channel.right channel.alpha256 (256 - channel.alpha256) n
        (mix_channel_slots n channel samples)).sample ∧
      (mix_slot channel.left channel.right channel.alpha256 (256 - channel.alpha256) n
        (mix_channel_slots n channel samples)).sample ≤ 127) ∧
    ∀ gain : Nat, gain = channel.left ∨ gain = channel.right →
      (-32640 ≤ (mix_slot channel.left channel.right channel.alpha256 (256 - channel.alpha256) n
          (mix_channel_slots n channel samples)).sample * gain ∧
        (mix_slot channel.left channel.right channel.alpha256 (256 - channel.alpha256) n
          (mix_channel_slots n channel samples)).sample * gain ≤ 32385) ∧
      ∀ i : Nat,
        (-2147483648 ≤ (mix_channel_slots n channel samples).samples.getD i 0 +
            (mix_slot channel.left channel.right channel.alpha256 (256 - channel.alpha256) n
              (mix_channel_slots n channel samples)).sample * gain ∧
          (mix_channel_slots n channel samples).samples.getD i 0 +
            (mix_slot channel.left channel.right channel.alpha256 (256 - channel.alpha256) n
              (mix_channel_slots n channel samples)).sample * gain ≤ 2147483647) ∧
        int32_cast ((mix_channel_slots n channel samples).samples.getD i 0 + int32_cast
            ((mix_slot channel.left channel.right channel.alpha256 (256 - channel.alpha256) n
              (mix_channel_slots n channel samples)).sample * gain)) =
          (mix_channel_slots n channel samples).samples.getD i 0 +
            (mix_slot channel.left channel.right channel.alpha256 (256 - channel.alpha256) n
              (mix_channel_slots n channel samples)).sample * gain := by
  have hm := MixInv_channel_slots n channel samples hc hb
  obtain ⟨hl, hr, ha, _, _⟩ := hc
  have hs := (MixInv_slot channel.left channel.right channel.alpha256 n
    (mix_channel_slots n channel samples) hm (by omega) (by omega) (by omega) (by omega)
    (by omega) (by omega)).1.2.1
  refine ⟨hm.2.1, hs, ?_⟩
  intro gain hg
  have hg1 : (gain : Int) ≤ 255 := by rcases hg with h | h <;> omega
  have hp := gain_product_range _ (gain : Int) hs (by omega) hg1
  refine ⟨hp, fun i => ?_⟩
  have he := int16_buffer_getD _ hm.2.2 i
  generalize (mix_slot channel.left channel.right channel.alpha256 (256 - channel.alpha256) n
    (mix_channel_slots n channel samples)).sample * (gain : Int) = p at hp ⊢
  generalize (mix_channel_slots n channel samples).samples.getD i 0 = e at he ⊢
  refine ⟨by omega, ?_⟩
  unfold int32_cast
  omega

/-- C28 (witness). A playing channel with full left gain over a buffer that is
at the positive and negative limits. -/
theorem mix_channel_no_overflow_witness :
    (channel_typed test_channel ∧ int16_buffer [32767, -32768, 32767, -32768]) ∧
    -128 ≤ (mix_channel_slots 1 test_channel [32767, -32768, 32767, -32768]).sample ∧
    (mix_channel_slots 1 test_channel [32767, -32768, 32767, -32768]).sample ≤ 127 :=
  ⟨⟨by unfold channel_typed int8_buffer; decide, by unfold int16_buffer; decide⟩,
    (mix_channel_no_overflow 1 test_channel [32767, -32768, 32767, -32768]
      (by unfold channel_typed int8_buffer; decide) (by unfold int16_buffer; decide)).1⟩

theorem int8_cast_byte (b : Nat) (h : b < 256) : int8_cast (b : Int) = spec_signed b := by
  unfold int8_cast spec_signed
  split_ifs <;> omega

theorem getD_drop_nat (l : List Nat) (a i : Nat) : (l.drop a).getD i 0 = l.getD (a + i) 0 := by
  simp only [List.getD_eq_getElem?_getD, List.getElem?_drop]

theorem range_map_split (m r : Nat) (f : Nat → Int) (h : m ≤ r) :
    (List.range r).map f =
      (List.range m).map f ++ (List.range (r - m)).map (fun i => f (m + i)) := by
  have e : r = m + (r - m) := by omega
  conv_lhs => rw [e, List.range_add, List.map_append, List.map_map]
  rfl

theorem decompress_buffer_raw_block (ch : pico_channel_t) (hraw : ch.is_adpcm = false)
    (hbytes : ∀ b ∈ ch.mem, b < 256) (hlen : ch.decompressed.length = 249)
    (hd : ch.data < ch.data_end) :
    (decompress_buffer ch).decompressed.take (decompress_buffer ch).decompressed_size =
      (List.range (min 249 (ch.data_end - ch.data)).toNat).map
        (fun i => spec_signed (ch.mem.getD (ch.data.toNat + i) 0)) := by
  obtain ⟨e1, e2, _⟩ := decompress_buffer_raw ch hraw hd
  rw [e1, e2, raw_copy_take _ _ _ (by omega)]
  apply List.map_congr_left
  intro i _
  rw [getD_drop_nat]
  apply int8_cast_byte
  by_cases hi : ch.data.toNat + i < ch.mem.length
  · rw [List.getD_eq_getElem _ _ hi]
    exact hbytes _ (List.getElem_mem hi)
  · rw [List.getD_eq_default _ _ (by omega)]
    decide

theorem decompress_blocks_raw (n : Nat) :
    ∀ ch : pico_channel_t, ch.is_adpcm = false → (∀ b ∈ ch.mem, b < 256) →
      ch.decompressed.length = 249 → 0 ≤ ch.data → ch.data ≤ ch.data_end →
      ch.data_end - ch.data ≤ n →
      (decompress_blocks n ch).flatten = spec_payload ch := by
  induction n with
  | zero =>
    intro ch _ _ _ _ hle hn
    have e : (ch.data_end - ch.data).toNat = 0 := by omega
    unfold spec_payload
    rw [e]
    rfl
  | succ n ih =>
    intro ch hraw hbytes hlen h0 hle hn
    by_cases hd : ch.data = ch.data_end
    · have e : (ch.data_end - ch.data).toNat = 0 := by omega
      have hz : (decompress_buffer ch).decompressed_size = 0 := by
        unfold decompress_buffer
        rw [if_pos hd]
      unfold spec_payload
      rw [decompress_blocks, if_pos hz, e]
      rfl
    · have hlt : ch.data < ch.data_end := by omega
      obtain ⟨e1, e2, e3⟩ := decompress_buffer_raw ch hraw hlt
      obtain ⟨f1, f2, f3, _⟩ := decompress_buffer_fields ch
      have hb := decompress_buffer_raw_block ch hraw hbytes hlen hlt
      have hnz : ¬ (decompress_buffer ch).decompressed_size = 0 := by omega
      have hrec := ih (decompress_buffer ch) (by rw [f3]; exact hraw) (by rw [f1]; exact hbytes)
        (by rw [e2, raw_copy_length]; exact hlen) (by omega) (by omega) (by omega)
      rw [decompress_blocks, if_neg hnz, List.flatten_cons, hrec, hb]
      unfold spec_payload
      rw [f1, f2, e3,
        range_map_split (min 249 (ch.data_end - ch.data)).toNat (ch.data_end - ch.data).toNat
          _ (by omega)]
      congr 1
      have e5 : (ch.data_end - (ch.data + min 249 (ch.data_end - ch.data))).toNat =
          (ch.data_end - ch.data).toNat - (min 249 (ch.data_end - ch.data)).toNat := by omega
      rw [e5]
      apply List.map_congr_left
      intro i _
      have e6 : (ch.data + min 249 (ch.data_end - ch.data)).toNat + i =
          ch.data.toNat + ((min 249 (ch.data_end - ch.data)).toNat + i) := by omega
      rw [e6]

/-- C23. For a raw-PCM channel (cursor not before the start of its memory nor
past its end, memory of bytes, decode buffer of 249 entries) with `r > 0`
unread payload bytes, `decompress_buffer` sets `decompressed_size` to
`min(249, r)`, stores those bytes in order, each reinterpreted as a signed
8-bit value (`b >= 128` becomes `b - 256`), and advances the cursor by the
same amount; with `r = 0` it sets `decompressed_size` to 0; and the
concatenation of the blocks of successive calls is the whole unread payload
in order, every byte exactly once. -/
theorem decompress_buffer_raw_payload (ch : pico_channel_t) (hraw : ch.is_adpcm = false)
    (hbytes : ∀ b ∈ ch.mem, b < 256) (hlen : ch.decompressed.length = 249)
    (h0 : 0 ≤ ch.data) (hle : ch.data ≤ ch.data_end) :
    (ch.data < ch.data_end →
      ((decompress_buffer ch).decompressed_size : Int) = min 249 (ch.data_end - ch.data) ∧
      (decompress_buffer ch).decompressed.take (decompress_buffer ch).decompressed_size =
        (List.range (decompress_buffer ch).decompressed_size).map
          (fun i => spec_signed (ch.mem.getD (ch.data.toNat + i) 0)) ∧
      (decompress_buffer ch).data = ch.data + (decompress_buffer ch).decompressed_size) ∧
    (ch.data = ch.data_end → (decompress_buffer ch).decompressed_size = 0) ∧
    (∀ n : Nat, ch.data_end - ch.data ≤ n →
      (decompress_blocks n ch).flatten = spec_payload ch) ∧
    (spec_payload ch).length = (ch.data_end - ch.data).toNat := by
  refine ⟨fun hd => ?_, fun hd => ?_,
    fun n hn => decompress_blocks_raw n ch hraw hbytes hlen h0 hle hn, ?_⟩
  · obtain ⟨e1, _, e3⟩ := decompress_buffer_raw ch hraw hd
    have hb := decompress_buffer_raw_block ch hraw hbytes hlen hd
    rw [← e1] at hb
    refine ⟨by omega, hb, ?_⟩
    rw [e3, e1]
    omega
  · unfold decompress_buffer
    rw [if_pos hd]
  · unfold spec_payload
    rw [List.length_map, List.length_range]

/-- C23 (witness). A raw channel with 300 unread bytes: the first call decodes
249 of them, and two blocks make up the whole payload. -/
theorem decompress_buffer_raw_payload_witness :
    (test_channel_raw.is_adpcm = false ∧ (0 : Int) ≤ test_channel_raw.data ∧
      test_channel_raw.data ≤ test_channel_raw.data_end) ∧
    ((decompress_buffer test_channel_raw).decompressed_size : Int) = 249 ∧
    (decompress_blocks 300 test_channel_raw).flatten = spec_payload test_channel_raw ∧
    (spec_payload test_channel_raw).length = 300 :=
  ⟨by decide,
    (((decompress_buffer_raw_payload test_channel_raw rfl
      (by
        intro b hb
        simp only [test_channel_raw, List.mem_append, List.mem_replicate, List.mem_map,
          List.mem_range] at hb
        rcases hb with ⟨_, h⟩ | ⟨i, _, h⟩ <;> omega)
      (List.length_replicate 249 (0 : Int)) (by decide) (by decide)).1 (by decide)).1).trans
      (by decide),
    (decompress_buffer_raw_payload test_channel_raw rfl
      (by
        intro b hb
        simp only [test_channel_raw, List.mem_append, List.mem_replicate, List.mem_map,
          List.mem_range] at hb
        rcases hb with ⟨_, h⟩ | ⟨i, _, h⟩ <;> omega)
      (List.length_replicate 249 (0 : Int)) (by decide) (by decide)).2.2.1 300 (by decide),
    ((decompress_buffer_raw_payload test_channel_raw rfl
      (by
        intro b hb
        simp only [test_channel_raw, List.mem_append, List.mem_replicate, List.mem_map,
          List.mem_range] at hb
        rcases hb with ⟨_, h⟩ | ⟨i, _, h⟩ <;> omega)
      (List.length_replicate 249 (0 : Int)) (by decide) (by decide)).2.2.2).trans
      (by decide)⟩

theorem mix_advance_stop (c : pico_channel_t) (oe : Nat)
    (hcross : uint32_cast ((c.offset : Int) + c.step) ≥ oe)
    (hend : (mix_rewind c oe).offset ≥
      uint32_cast (((mix_rewind c oe).decompressed_size : Int) * 65536)) :
    mix_advance c oe = ({ mix_rewind c oe with decompressed_size := 0 },
      uint32_cast (((mix_rewind c oe).decompressed_size : Int) * 65536), true) := by
  unfold mix_rewind at hend ⊢
  unfold mix_advance
  simp only
  rw [if_pos hcross, if_pos hend]

theorem mix_slot_frame (voll volr alpha256 beta256 : Int) (s : Nat) (m : mix_state) (i : Nat)
    (h : i < 2 * s ∨ 2 * (s + 1) ≤ i) :
    (mix_slot voll volr alpha256 beta256 s m).samples.getD i 0 = m.samples.getD i 0 := by
  rw [(mix_slot_samples voll volr alpha256 beta256 s m).2,
    getD_set_other _ _ _ _ (by omega), getD_set_other _ _ _ _ (by omega)]

theorem mix_slots_frame (voll volr alpha256 beta256 : Int) (n : Nat) :
    ∀ (s : Nat) (m : mix_state) (i : Nat), (i < 2 * s ∨ 2 * (s + n) ≤ i) →
      (mix_slots voll volr alpha256 beta256 n s m).samples.getD i 0 = m.samples.getD i 0 := by
  induction n with
  | zero => intro s m i _; rfl
  | succ n ih =>
    intro s m i h
    rw [mix_slots]
    split_ifs
    · exact mix_slot_frame _ _ _ _ _ _ _ (by omega)
    · rw [ih _ _ _ (by omega)]
      exact mix_slot_frame _ _ _ _ _ _ _ (by omega)

theorem mix_slots_stopped (voll volr alpha256 beta256 : Int) (n s : Nat) (m : mix_state)
    (hm : m.stopped = false)
    (h : (mix_slots voll volr alpha256 beta256 n s m).stopped = true) (j : Nat) :
    mix_slots voll volr alpha256 beta256 (n + j) s m =
      mix_slots voll volr alpha256 beta256 n s m := by
  induction j with
  | zero => rfl
  | succ j ih =>
    have e : n + (j + 1) = n + j + 1 := by omega
    rw [e, mix_slots_snoc _ _ _ _ _ _ _ hm, ih, if_pos h]

theorem is_channel_playing_lt (g : sound_t) (ch : Int) (h : is_channel_playing g ch = true) :
    ch.toNat < g.channels.length := by
  unfold is_channel_playing get_channel at h
  by_contra hc
  rw [List.getD_eq_default _ _ (by omega)] at h
  simp [pico_channel_t.zero] at h

theorem mix_channel_slots_stop (k s : Nat) (channel : pico_channel_t) (samples : List Int)
    (hs : s < k) (hrun : (mix_channel_slots s channel samples).stopped = false)
    (hcross : uint32_cast (((mix_channel_slots s channel samples).channel.offset : Int) +
      (mix_channel_slots s channel samples).channel.step) ≥
        (mix_channel_slots s channel samples).offset_end)
    (hend : (mix_rewind (mix_channel_slots s channel samples).channel
        (mix_channel_slots s channel samples).offset_end).offset ≥
      uint32_cast (((mix_rewind (mix_channel_slots s channel samples).channel
        (mix_channel_slots s channel samples).offset_end).decompressed_size : Int) * 65536)) :
    (mix_channel_slots k channel samples).stopped = true ∧
    (mix_channel_slots k channel samples).channel =
      { mix_rewind (mix_channel_slots s channel samples).channel
          (mix_channel_slots s channel samples).offset_end with decompressed_size := 0 } ∧
    ∀ i : Nat, 2 * (s + 1) ≤ i →
      (mix_channel_slots k channel samples).samples.getD i 0 = samples.getD i 0 := by
  have hadv := mix_advance_stop _ _ hcross hend
  obtain ⟨a1, _, a3⟩ := mix_slot_advance channel.left channel.right channel.alpha256
    (256 - channel.alpha256) s (mix_channel_slots s channel samples)
  rw [hadv] at a1 a3
  rw [← mix_channel_slots_succ s channel samples hrun] at a1 a3
  have hk : mix_channel_slots k channel samples = mix_channel_slots (s + 1) channel samples := by
    have e : k = s + 1 + (k - (s + 1)) := by omega
    unfold mix_channel_slots at a3 ⊢
    rw [e]
    exact mix_slots_stopped _ _ _ _ _ _ _ rfl a3 _
  rw [hk]
  refine ⟨a3, a1, fun i hi => ?_⟩
  unfold mix_channel_slots
  rw [mix_slots_frame _ _ _ _ _ _ _ _ (by omega)]
  rfl

theorem set_channel_get_self (g : sound_t) (ch : Int) :
    set_channel g ch (get_channel g ch) = g := by
  unfold set_channel get_channel
  have e : g.channels.set ch.toNat (g.channels.getD ch.toNat pico_channel_t.zero) = g.channels := by
    by_cases h : ch.toNat < g.channels.length
    · apply List.ext_getElem?
      intro j
      rw [List.getElem?_set, List.getD_eq_getElem _ _ h]
      split_ifs with h1
      · rw [← h1, List.getElem?_eq_getElem h]
      · rfl
    · exact List.set_eq_of_length_le (by omega)
  rw [e]

theorem mix_channel_at_eq (k : Nat) (g : sound_t) (ch : Int) (samples : List Int) :
    mix_channel_at k g ch samples =
      (set_channel g ch (mix_channel k (get_channel g ch) samples).1,
       (mix_channel k (get_channel g ch) samples).2) := by
  unfold mix_channel_at mix_channel is_channel_playing
  by_cases h : (get_channel g ch).decompressed_size = 0
  · rw [if_pos (by simp [h]), if_pos h, set_channel_get_self]
  · rw [if_neg (by simp [h]), if_neg h]

theorem mix_channels_at_eq (k : Nat) (post : List pico_channel_t) :
    ∀ (pre : List pico_channel_t) (g : sound_t) (samples : List Int),
      g.channels = pre ++ post →
      mix_channels_at k post.length (pre.length : Nat) g samples =
        ({ g with channels := pre ++ (mix_channels k post samples).1 },
         (mix_channels k post samples).2) := by
  induction post with
  | nil =>
    intro pre g samples h
    simp only [mix_channels_at, mix_channels, List.length_nil]
    rw [← h]
  | cons c post ih =>
    intro pre g samples h
    have hget : get_channel g (pre.length : Nat) = c := by
      unfold get_channel
      rw [h, Int.toNat_ofNat, List.getD_append_right _ _ _ _ (le_refl _), Nat.sub_self]
      rfl
    have hset : (set_channel g (pre.length : Nat) (mix_channel k c samples).1).channels =
        (pre ++ [(mix_channel k c samples).1]) ++ post := by
      unfold set_channel
      simp only [Int.toNat_ofNat]
      rw [h, List.set_append_right _ _ (le_refl _)]
      simp
    have hlen : (((pre ++ [(mix_channel k c samples).1]).length : Nat) : Int) =
        ((pre.length : Nat) : Int) + 1 := by
      simp
    rw [List.length_cons, mix_channels_at, mix_channel_at_eq, hget, ← hlen,
      ih (pre ++ [(mix_channel k c samples).1]) _ _ hset, mix_channels_cons]
    simp only [List.append_assoc, List.singleton_append]
    rfl

theorem mix_channels_at_all (k : Nat) (g : sound_t) (samples : List Int) :
    mix_channels_at k g.channels.length 0 g samples =
      ({ g with channels := (mix_channels k g.channels samples).1 },
       (mix_channels k g.channels samples).2) :=
  mix_channels_at_eq k g.channels [] g samples rfl

/-- C22. In the pass of the playing channel `ch` over a buffer of `k` slots,
let slot `s` be reached with the loop still running, let
`offset + step >= offset_end` there (a block boundary is crossed) and let the
remaining offset of the channel after `decompress_buffer` be not below
`decompressed_size * 65536` of the new block. Then after the pass the
channel is stopped (`decompressed_size = 0`, not playing), every buffer
entry after slot `s` (index `>= 2 * (s + 1)`) holds what it held before the
pass, and every other channel of the module state is as it was before the
pass. A new block of `decompressed_size = 0` always meets the condition. -/
theorem mix_channel_stop_frame (k : Nat) (g : sound_t) (ch : Int) (samples : List Int) (s : Nat)
    (hplay : is_channel_playing g ch = true) (hs : s < k)
    (hrun : (mix_channel_slots s (get_channel g ch) samples).stopped = false)
    (hcross : uint32_cast
      (((mix_channel_slots s (get_channel g ch) samples).channel.offset : Int) +
        (mix_channel_slots s (get_channel g ch) samples).channel.step) ≥
        (mix_channel_slots s (get_channel g ch) samples).offset_end)
    (hend : (mix_rewind (mix_channel_slots s (get_channel g ch) samples).channel
        (mix_channel_slots s (get_channel g ch) samples).offset_end).offset ≥
      uint32_cast (((mix_rewind (mix_channel_slots s (get_channel g ch) samples).channel
        (mix_channel_slots s (get_channel g ch) samples).offset_end).decompressed_size : Int)
          * 65536)) :
    (get_channel (mix_channel_at k g ch samples).1 ch).decompressed_size = 0 ∧
    is_channel_playing (mix_channel_at k g ch samples).1 ch = false ∧
    (∀ i : Nat, 2 * (s + 1) ≤ i →
      (mix_channel_at k g ch samples).2.getD i 0 = samples.getD i 0) ∧
    (∀ c : Int, c.toNat ≠ ch.toNat →
      get_channel (mix_channel_at k g ch samples).1 c = get_channel g c) ∧
    (∀ (c : pico_channel_t) (oe : Nat), (mix_rewind c oe).decompressed_size = 0 →
      (mix_rewind c oe).offset ≥
        uint32_cast (((mix_rewind c oe).decompressed_size : Int) * 65536)) := by
  obtain ⟨_, h2, h3⟩ := mix_channel_slots_stop k s (get_channel g ch) samples hs hrun hcross hend
  have hlt := is_channel_playing_lt g ch hplay
  have e : mix_channel_at k g ch samples =
      (set_channel g ch (mix_channel_slots k (get_channel g ch) samples).channel,
       (mix_channel_slots k (get_channel g ch) samples).samples) := by
    unfold mix_channel_at
    rw [if_neg (by rw [hplay]; decide)]
  have hsz : (get_channel (mix_channel_at k g ch samples).1 ch).decompressed_size = 0 := by
    rw [e, get_set_channel _ _ _ hlt, h2]
  refine ⟨hsz, ?_, ?_, ?_, ?_⟩
  · unfold is_channel_playing
    rw [hsz]
    decide
  · intro i hi
    rw [e]
    exact h3 i hi
  · intro c hc
    rw [e]
    exact get_set_channel_ne _ _ _ _ (fun h => hc h.symm)
  · intro c oe hz
    rw [hz]
    exact Nat.zero_le _

/-- C22 (witness). Channel 1 of two plays a three-sample block whose payload is
exhausted; in a buffer of six slots it crosses the end of the block at slot 4
and is stopped there: slot 5 (entries 10 and 11) is untouched and channel 0
is as before. -/
theorem mix_channel_stop_frame_witness :
    (is_channel_playing test_sound_playing 1 = true ∧
      (mix_channel_slots 4 (get_channel test_sound_playing 1)
        [0, 0, 0, 0, 0, 0, 0, 0, 0, 0, 7, 9]).stopped = false) ∧
    (get_channel (mix_channel_at 6 test_sound_playing 1
      [0, 0, 0, 0, 0, 0, 0, 0, 0, 0, 7, 9]).1 1).decompressed_size = 0 ∧
    (mix_channel_at 6 test_sound_playing 1 [0, 0, 0, 0, 0, 0, 0, 0, 0, 0, 7, 9]).2.getD 10 0
      = 7 ∧
    get_channel (mix_channel_at 6 test_sound_playing 1
      [0, 0, 0, 0, 0, 0, 0, 0, 0, 0, 7, 9]).1 0 = get_channel test_sound_playing 0 :=
  ⟨by decide,
    (mix_channel_stop_frame 6 test_sound_playing 1 [0, 0, 0, 0, 0, 0, 0, 0, 0, 0, 7, 9] 4
      (by decide) (by decide) (by decide) (by decide) (by decide)).1,
    (mix_channel_stop_frame 6 test_sound_playing 1 [0, 0, 0, 0, 0, 0, 0, 0, 0, 0, 7, 9] 4
      (by decide) (by decide) (by decide) (by decide) (by decide)).2.2.1 10 (by decide),
    (mix_channel_stop_frame 6 test_sound_playing 1 [0, 0, 0, 0, 0, 0, 0, 0, 0, 0, 7, 9] 4
      (by decide) (by decide) (by decide) (by decide) (by decide)).2.2.2.1 0 (by decide)⟩

theorem fade_level_at_succ (fade_step : Int) (q : Nat) :
    ∀ L : Nat, fade_level_at fade_step L (q + 1) =
      uint16_cast ((fade_level_at fade_step L q : Int) + fade_step) := by
  induction q with
  | zero => intro L; rfl
  | succ q ih =>
    intro L
    rw [fade_level_at, ih]
    rfl

theorem fade_level_at_lt (fade_step : Int) (q : Nat) :
    ∀ L : Nat, L < 65536 → fade_level_at fade_step L q < 65536 := by
  induction q with
  | zero => intro L h; exact h
  | succ q ih =>
    intro L _
    rw [fade_level_at]
    apply ih
    unfold uint16_cast
    omega

theorem getD_set_self_or (l : List Int) (i : Nat) (v : Int) (h : i < l.length ∨ v = 0) :
    (l.set i v).getD i 0 = v := by
  by_cases hi : i < l.length
  · simp [List.getD_eq_getElem?_getD, List.getElem?_set, hi]
  · rcases h with h | h
    · exact absurd h hi
    · rw [List.getD_eq_default _ _ (by rw [List.length_set]; omega), h]

theorem fade_scale_zero (l : List Int) (i L : Nat) :
    i < l.length ∨ int16_cast ((l.getD i 0 * (L : Int)) >>> (16 : Nat)) = 0 := by
  by_cases hi : i < l.length
  · exact Or.inl hi
  · right
    rw [List.getD_eq_default _ _ (by omega)]
    simp [int16_cast]

theorem fade_loop_frame (fade_step : Int) (limit : Nat) (fuel : Nat) :
    ∀ (i : Nat) (samples : List Int) (L : Nat) (k : Nat), k < i →
      (fade_loop fade_step limit fuel i samples L).1.getD k 0 = samples.getD k 0 := by
  induction fuel with
  | zero => intro i samples L k _; rfl
  | succ fuel ih =>
    intro i samples L k hk
    unfold fade_loop
    split_ifs
    · simp only
      rw [ih _ _ _ _ (by omega), getD_set_other _ _ _ _ (by omega),
        getD_set_other _ _ _ _ (by omega)]
    · rfl

theorem fade_loop_samples (fade_step : Int) (n : Nat) (fuel : Nat) :
    ∀ (p : Nat) (samples : List Int) (L q : Nat), q < fuel → p + q < n →
      (∀ t : Nat, t ≤ q → fade_level_at fade_step L t ≠ 0) →
      (fade_loop fade_step (n * 2) fuel (2 * p) samples L).1.getD (2 * (p + q)) 0 =
        int16_cast ((samples.getD (2 * (p + q)) 0 * (fade_level_at fade_step L q : Int))
          >>> (16 : Nat)) ∧
      (fade_loop fade_step (n * 2) fuel (2 * p) samples L).1.getD (2 * (p + q) + 1) 0 =
        int16_cast ((samples.getD (2 * (p + q) + 1) 0 * (fade_level_at fade_step L q : Int))
          >>> (16 : Nat)) ∧
      2 * (p + q + 1) ≤ (fade_loop fade_step (n * 2) fuel (2 * p) samples L).2.2 := by
  induction fuel with
  | zero => intro p samples L q hq; omega
  | succ fuel ih =>
    intro p samples L q hq hpq hnz
    have hL : L ≠ 0 := hnz 0 (Nat.zero_le _)
    unfold fade_loop
    rw [if_pos ⟨by omega, hL⟩]
    simp only
    rw [show 2 * p + 2 = 2 * (p + 1) by ring]
    cases q with
    | zero =>
      simp only [Nat.add_zero]
      refine ⟨?_, ?_, ?_⟩
      · rw [fade_loop_frame _ _ _ _ _ _ _ (by omega), getD_set_other _ _ _ _ (by omega),
          getD_set_self_or _ _ _ (fade_scale_zero _ _ _)]
        rfl
      · rw [fade_loop_frame _ _ _ _ _ _ _ (by omega),
          getD_set_self_or _ _ _ (by
            rcases fade_scale_zero (samples.set (2 * p) (int16_cast
              ((samples.getD (2 * p) 0 * (L : Int)) >>> (16 : Nat)))) (2 * p + 1) L with h | h
            · exact Or.inl h
            · exact Or.inr h),
          getD_set_other _ _ _ _ (by omega)]
        rfl
      · have hi : ∀ (f i : Nat) (s : List Int) (l : Nat),
            i ≤ (fade_loop fade_step (n * 2) f i s l).2.2 := by
          intro f
          induction f with
          | zero => intro i s l; exact le_refl _
          | succ f ihf =>
            intro i s l
            unfold fade_loop
            split_ifs
            · exact le_trans (by omega) (ihf _ _ _)
            · exact le_refl _
        exact hi _ _ _ _
    | succ q =>
      have h := ih (p + 1) ((samples.set (2 * p) (int16_cast
          ((samples.getD (2 * p) 0 * (L : Int)) >>> (16 : Nat)))).set (2 * p + 1) (int16_cast
          (((samples.set (2 * p) (int16_cast ((samples.getD (2 * p) 0 * (L : Int))
            >>> (16 : Nat)))).getD (2 * p + 1) 0 * (L : Int)) >>> (16 : Nat))))
        (uint16_cast ((L : Int) + fade_step)) q (by omega) (by omega)
        (fun t ht => hnz (t + 1) (by omega))
      have e : p + 1 + q = p + (q + 1) := by omega
      rw [e] at h
      have e1 : ∀ (a b : Int) (idx : Nat), 2 * p + 1 < idx →
          ((samples.set (2 * p) a).set (2 * p + 1) b).getD idx 0 = samples.getD idx 0 := by
        intro a b idx hidx
        rw [getD_set_other _ _ _ _ (by omega), getD_set_other _ _ _ _ (by omega)]
      obtain ⟨h1, h2, h3⟩ := h
      rw [e1 _ _ _ (by omega)] at h1 h2
      exact ⟨h1, h2, h3⟩

theorem fade_zero_rest_frame (limit i : Nat) (samples : List Int) (k : Nat) (h : k < i) :
    (fade_zero_rest limit i samples).getD k 0 = samples.getD k 0 := by
  unfold fade_zero_rest
  have key : ∀ m : Nat, ((List.range m).foldl (fun d t => d.set (i + t) 0) samples).getD k 0 =
      samples.getD k 0 := by
    intro m
    induction m with
    | zero => rfl
    | succ m ih =>
      rw [List.range_succ, List.foldl_append]
      simp only [List.foldl_cons, List.foldl_nil]
      rw [getD_set_other _ _ _ _ (by omega), ih]
  exact key _

theorem fade_scale_int16 (x : Int) (L : Nat) (hx : -32768 ≤ x ∧ x ≤ 32767) (hL : L < 65536) :
    int16_cast ((x * (L : Int)) >>> (16 : Nat)) = (x * (L : Int)) >>> (16 : Nat) := by
  rw [Int.shiftRight_eq_div_pow]
  have h1 : -32768 * 65536 ≤ x * (L : Int) := by nlinarith
  have h2 : x * (L : Int) ≤ 32767 * 65536 := by nlinarith
  generalize x * (L : Int) = y at h1 h2
  unfold int16_cast
  norm_num
  omega

theorem fade_stage_samples (fade_state : fade_state_t) (L n : Nat) (samples : List Int) (k : Nat)
    (hst : fade_state = fade_state_t.FS_FADE_IN ∨ fade_state = fade_state_t.FS_FADE_OUT)
    (hk : k < (fade_loop (if fade_state = fade_state_t.FS_FADE_IN then FADE_STEP else -FADE_STEP)
      (n * 2) n 0 samples L).2.2) :
    (fade_stage fade_state L n samples).2.2.getD k 0 =
      (fade_loop (if fade_state = fade_state_t.FS_FADE_IN then FADE_STEP else -FADE_STEP)
        (n * 2) n 0 samples L).1.getD k 0 := by
  rcases hst with h | h <;> subst h
  · unfold fade_stage
    simp only [reduceCtorEq, ↓reduceIte, ne_eq, not_false_eq_true] at hk ⊢
    split_ifs <;> rfl
  · unfold fade_stage
    simp only [reduceCtorEq, ↓reduceIte, ne_eq, not_false_eq_true] at hk ⊢
    split_ifs
    · exact fade_zero_rest_frame _ _ _ _ hk
    · rfl

/-- C26. In `FS_FADE_IN` or `FS_FADE_OUT`, for a buffer of `int16_t` values
and a 16-bit level: every sample pair `q` of the buffer that the fade loop
processes while the level is nonzero (the level is nonzero before each of the
pairs `0..q`) has both its samples replaced by `(sample * level) >> 16`
(arithmetic shift, no truncation by the 16-bit store), `level` being the
level before that pair's step; the level after a pair is the level before it
plus `FADE_STEP` (fade in) or minus `FADE_STEP` (fade out) in 16 bits. In
`FS_NONE` the fade stage returns the buffer unchanged. The buffer the fade
stage works on is the one left by the channel loop, after all mixing. -/
theorem fade_stage_scaling (fade_state : fade_state_t) (L n : Nat) (samples : List Int)
    (q : Nat)
    (hst : fade_state = fade_state_t.FS_FADE_IN ∨ fade_state = fade_state_t.FS_FADE_OUT)
    (hL : L < 65536) (hb : int16_buffer samples) (hq : q < n)
    (hnz : ∀ t : Nat, t ≤ q → fade_level_at
      (if fade_state = fade_state_t.FS_FADE_IN then FADE_STEP else -FADE_STEP) L t ≠ 0) :
    (fade_stage fade_state L n samples).2.2.getD (2 * q) 0 =
      (samples.getD (2 * q) 0 * (fade_level_at
        (if fade_state = fade_state_t.FS_FADE_IN then FADE_STEP else -FADE_STEP) L q : Int))
        >>> (16 : Nat) ∧
    (fade_stage fade_state L n samples).2.2.getD (2 * q + 1) 0 =
      (samples.getD (2 * q + 1) 0 * (fade_level_at
        (if fade_state = fade_state_t.FS_FADE_IN then FADE_STEP else -FADE_STEP) L q : Int))
        >>> (16 : Nat) ∧
    fade_level_at (if fade_state = fade_state_t.FS_FADE_IN then FADE_STEP else -FADE_STEP) L 0
      = L ∧
    fade_level_at (if fade_state = fade_state_t.FS_FADE_IN then FADE_STEP else -FADE_STEP) L
        (q + 1) =
      uint16_cast ((fade_level_at
        (if fade_state = fade_state_t.FS_FADE_IN then FADE_STEP else -FADE_STEP) L q : Int) +
        (if fade_state = fade_state_t.FS_FADE_IN then FADE_STEP else -FADE_STEP)) ∧
    (∀ (l m : Nat) (s : List Int),
      fade_stage fade_state_t.FS_NONE l m s = (fade_state_t.FS_NONE, l, s)) ∧
    (∀ (g : sound_t) (b : audio_buffer_t),
      (mix_audio_buffer g b).2.samples =
        (fade_stage g.fade_state g.fade_level (pass_pairs g b)
          (mix_channels (pass_pairs g b) g.channels (mix_base g b).samples).2).2.2) := by
  have h := fade_loop_samples
    (if fade_state = fade_state_t.FS_FADE_IN then FADE_STEP else -FADE_STEP) n n 0 samples L q
    hq (by omega) hnz
  simp only [Nat.mul_zero, Nat.zero_add] at h
  obtain ⟨h1, h2, h3⟩ := h
  have hlev := fade_level_at_lt
    (if fade_state = fade_state_t.FS_FADE_IN then FADE_STEP else -FADE_STEP) q L hL
  refine ⟨?_, ?_, rfl, fade_level_at_succ _ _ _, fun l m s => fade_stage_none l m s,
    fun g b => ?_⟩
  · rw [fade_stage_samples fade_state L n samples (2 * q) hst (by omega), h1,
      fade_scale_int16 _ _ (int16_buffer_getD samples hb _) hlev]
  · rw [fade_stage_samples fade_state L n samples (2 * q + 1) hst (by omega), h2,
      fade_scale_int16 _ _ (int16_buffer_getD samples hb _) hlev]
  · rw [mix_audio_buffer_eq]

/-- C26 (witness). A fade-out at level 16 over four pairs: pair 1 is scaled
with level 8, the level before its step. -/
theorem fade_stage_scaling_witness :
    (int16_buffer [20000, -20000, 30000, -30000, 5, 6, 7, 8] ∧
      fade_level_at (-FADE_STEP) 16 1 = 8) ∧
    (fade_stage fade_state_t.FS_FADE_OUT 16 4
        [20000, -20000, 30000, -30000, 5, 6, 7, 8]).2.2.getD 2 0 = 3 ∧
    (fade_stage fade_state_t.FS_FADE_OUT 16 4
        [20000, -20000, 30000, -30000, 5, 6, 7, 8]).2.2.getD 3 0 = -4 :=
  ⟨⟨by unfold int16_buffer; decide, by decide⟩,
    ((fade_stage_scaling fade_state_t.FS_FADE_OUT 16 4
      [20000, -20000, 30000, -30000, 5, 6, 7, 8] 1 (Or.inr rfl) (by decide)
      (by unfold int16_buffer; decide) (by decide) (by decide)).1).trans (by decide),
    ((fade_stage_scaling fade_state_t.FS_FADE_OUT 16 4
      [20000, -20000, 30000, -30000, 5, 6, 7, 8] 1 (Or.inr rfl) (by decide)
      (by unfold int16_buffer; decide) (by decide) (by decide)).2.1).trans (by decide)⟩

theorem FadeInv_level (g : sound_t) (h : FadeInv g) :
    g.fade_level = 8 * (g.fade_level / 8) ∧ g.fade_level / 8 ≤ 8191 := by
  obtain ⟨⟨c, hc⟩, hlt, _, _⟩ := h
  unfold FADE_STEP at hc
  omega

theorem FadeInv_of_level (g : sound_t) (st : fade_state_t) (j : Nat) (hst : g.fade_state = st)
    (hl : g.fade_level = 8 * j) (hj : j ≤ 8191)
    (h1 : (st = fade_state_t.FS_FADE_IN ∨ st = fade_state_t.FS_FADE_OUT) → 1 ≤ j)
    (h2 : (st = fade_state_t.FS_NONE ∨ st = fade_state_t.FS_SILENT) → j = 0) : FadeInv g := by
  refine ⟨⟨(j : Int), ?_⟩, by omega, fun h => ?_, fun h => ?_⟩
  · unfold FADE_STEP
    omega
  · rw [hst] at h
    have := h1 h
    omega
  · rw [hst] at h
    have := h2 h
    omega

theorem FadeInv_fade (g : sound_t) (fade_in : Bool) : FadeInv (I_PicoSoundFade g fade_in) := by
  cases fade_in
  · exact FadeInv_of_level _ fade_state_t.FS_FADE_OUT 8191 rfl (I_PicoSoundFade_out g).2.1
      (by decide) (by decide) (by decide)
  · exact FadeInv_of_level _ fade_state_t.FS_FADE_IN 1 rfl
      (show uint16_cast FADE_STEP = 8 * 1 by decide) (by decide) (by decide) (by decide)

theorem mix_audio_buffer_fade (g : sound_t) (b : audio_buffer_t) :
    (mix_audio_buffer g b).1.fade_state = (fade_stage g.fade_state g.fade_level (pass_pairs g b)
      (mix_channels (pass_pairs g b) g.channels (mix_base g b).samples).2).1 ∧
    (mix_audio_buffer g b).1.fade_level = (fade_stage g.fade_state g.fade_level (pass_pairs g b)
      (mix_channels (pass_pairs g b) g.channels (mix_base g b).samples).2).2.1 := by
  rw [mix_audio_buffer_eq]
  exact ⟨rfl, rfl⟩

theorem FadeInv_mix_out (g : sound_t) (b : audio_buffer_t) (h : FadeInv g)
    (hs : g.fade_state = fade_state_t.FS_FADE_OUT) :
    (mix_audio_buffer g b).1.fade_state =
      (if g.fade_level / 8 ≤ pass_pairs g b then fade_state_t.FS_SILENT
        else fade_state_t.FS_FADE_OUT) ∧
    (mix_audio_buffer g b).1.fade_level = 8 * (g.fade_level / 8 - pass_pairs g b) := by
  obtain ⟨hl, hj⟩ := FadeInv_level g h
  obtain ⟨e1, e2⟩ := mix_audio_buffer_fade g b
  rw [e1, e2, hs]
  have hf := fade_stage_out (g.fade_level / 8) (pass_pairs g b)
    (mix_channels (pass_pairs g b) g.channels (mix_base g b).samples).2 hj
  rw [← hl] at hf
  exact ⟨hf.1, hf.2.1⟩

theorem FadeInv_mix_in (g : sound_t) (b : audio_buffer_t) (h : FadeInv g)
    (hs : g.fade_state = fade_state_t.FS_FADE_IN) :
    (mix_audio_buffer g b).1.fade_state =
      (if 8192 - g.fade_level / 8 ≤ pass_pairs g b then fade_state_t.FS_NONE
        else fade_state_t.FS_FADE_IN) ∧
    (mix_audio_buffer g b).1.fade_level =
      (if 8192 - g.fade_level / 8 ≤ pass_pairs g b then 0
        else 8 * (g.fade_level / 8 + pass_pairs g b)) := by
  obtain ⟨hl, hj⟩ := FadeInv_level g h
  have hnz := h.2.2.1 (Or.inl hs)
  obtain ⟨e1, e2⟩ := mix_audio_buffer_fade g b
  rw [e1, e2, hs]
  have hf := fade_stage_in (8192 - g.fade_level / 8) (pass_pairs g b)
    (mix_channels (pass_pairs g b) g.channels (mix_base g b).samples).2 (by omega) (by omega)
  have e : 8 * (8192 - (8192 - g.fade_level / 8)) = g.fade_level := by omega
  rw [e] at hf
  refine ⟨hf.1, ?_⟩
  rw [hf.2]
  split_ifs
  · rfl
  · omega

theorem FadeInv_mix (g : sound_t) (b : audio_buffer_t) (h : FadeInv g) :
    FadeInv (mix_audio_buffer g b).1 := by
  obtain ⟨hl, hj⟩ := FadeInv_level g h
  obtain ⟨e1, e2⟩ := mix_audio_buffer_fade g b
  cases hs : g.fade_state with
  | FS_NONE =>
    rw [hs, fade_stage_none] at e1 e2
    have hz := h.2.2.2 (Or.inl hs)
    exact FadeInv_of_level _ fade_state_t.FS_NONE 0 e1 (by rw [e2, hz]) (by omega)
      (by decide) (by decide)
  | FS_SILENT =>
    rw [hs, fade_stage_silent] at e1 e2
    have hz := h.2.2.2 (Or.inr hs)
    exact FadeInv_of_level _ fade_state_t.FS_SILENT 0 e1 (by rw [e2, hz]) (by omega)
      (by decide) (by decide)
  | FS_FADE_OUT =>
    obtain ⟨f1, f2⟩ := FadeInv_mix_out g b h hs
    have hnz := h.2.2.1 (Or.inr hs)
    by_cases hc : g.fade_level / 8 ≤ pass_pairs g b
    · rw [if_pos hc] at f1
      exact FadeInv_of_level _ fade_state_t.FS_SILENT (g.fade_level / 8 - pass_pairs g b) f1 f2
        (by omega) (fun hh => by rcases hh with hh | hh <;> exact absurd hh (by decide))
        (fun _ => by omega)
    · rw [if_neg hc] at f1
      exact FadeInv_of_level _ fade_state_t.FS_FADE_OUT (g.fade_level / 8 - pass_pairs g b) f1
        f2 (by omega) (fun _ => by omega)
        (fun hh => by rcases hh with hh | hh <;> exact absurd hh (by decide))
  | FS_FADE_IN =>
    obtain ⟨f1, f2⟩ := FadeInv_mix_in g b h hs
    have hnz := h.2.2.1 (Or.inl hs)
    by_cases hc : 8192 - g.fade_level / 8 ≤ pass_pairs g b
    · rw [if_pos hc] at f1 f2
      exact FadeInv_of_level _ fade_state_t.FS_NONE 0 f1 f2 (by omega) (by decide) (by decide)
    · rw [if_neg hc] at f1 f2
      exact FadeInv_of_level _ fade_state_t.FS_FADE_IN (g.fade_level / 8 + pass_pairs g b) f1
        f2 (by omega) (fun _ => by omega)
        (fun hh => by rcases hh with hh | hh <;> exact absurd hh (by decide))

theorem FadeInv_calls (calls : List fade_call_t) :
    ∀ g : sound_t, FadeInv g → FadeInv (fade_calls g calls) := by
  induction calls with
  | nil => intro g h; exact h
  | cons c rest ih =>
    intro g h
    cases c with
    | fade fade_in => exact ih _ (FadeInv_fade g fade_in)
    | mix buffer => exact ih _ (FadeInv_mix g buffer h)

/-- C29. In every module state reached from a state with `fade_state =
FS_NONE` and `fade_level = 0` by any sequence of `I_PicoSoundFade` calls and
mix passes, the 16-bit fade level is a multiple of `FADE_STEP`, is nonzero in
`FS_FADE_IN` and `FS_FADE_OUT` and is 0 in `FS_NONE` and `FS_SILENT`. Hence
a further mix pass in `FS_FADE_OUT` lowers the level by exactly `FADE_STEP`
for each of `min(level / FADE_STEP, pairs)` pairs, never past 0, and ends the
ramp in `FS_SILENT` when it has `level / FADE_STEP` pairs; in `FS_FADE_IN` it
raises the level by `FADE_STEP` per pair and ends the ramp in `FS_NONE` at
level 0 when it has `8192 - level / FADE_STEP` pairs. -/
theorem fade_level_invariant (g : sound_t) (calls : List fade_call_t)
    (h0 : g.fade_state = fade_state_t.FS_NONE) (h1 : g.fade_level = 0) :
    (FADE_STEP ∣ ((fade_calls g calls).fade_level : Int) ∧
      (fade_calls g calls).fade_level < 65536 ∧
      (((fade_calls g calls).fade_state = fade_state_t.FS_FADE_IN ∨
          (fade_calls g calls).fade_state = fade_state_t.FS_FADE_OUT) →
        (fade_calls g calls).fade_level ≠ 0) ∧
      (((fade_calls g calls).fade_state = fade_state_t.FS_NONE ∨
          (fade_calls g calls).fade_state = fade_state_t.FS_SILENT) →
        (fade_calls g calls).fade_level = 0)) ∧
    (∀ b : audio_buffer_t, (fade_calls g calls).fade_state = fade_state_t.FS_FADE_OUT →
      (mix_audio_buffer (fade_calls g calls) b).1.fade_level +
          8 * min ((fade_calls g calls).fade_level / 8) (pass_pairs (fade_calls g calls) b) =
        (fade_calls g calls).fade_level ∧
      (mix_audio_buffer (fade_calls g calls) b).1.fade_state =
        (if (fade_calls g calls).fade_level / 8 ≤ pass_pairs (fade_calls g calls) b
          then fade_state_t.FS_SILENT else fade_state_t.FS_FADE_OUT)) ∧
    (∀ b : audio_buffer_t, (fade_calls g calls).fade_state = fade_state_t.FS_FADE_IN →
      (mix_audio_buffer (fade_calls g calls) b).1.fade_level =
        (if 8192 - (fade_calls g calls).fade_level / 8 ≤ pass_pairs (fade_calls g calls) b
          then 0
          else (fade_calls g calls).fade_level + 8 * pass_pairs (fade_calls g calls) b) ∧
      (mix_audio_buffer (fade_calls g calls) b).1.fade_state =
        (if 8192 - (fade_calls g calls).fade_level / 8 ≤ pass_pairs (fade_calls g calls) b
          then fade_state_t.FS_NONE else fade_state_t.FS_FADE_IN)) := by
  have hinv : FadeInv (fade_calls g calls) :=
    FadeInv_calls calls g
      (FadeInv_of_level g fade_state_t.FS_NONE 0 h0 h1 (by decide) (by decide) (by decide))
  obtain ⟨hl, hj⟩ := FadeInv_level _ hinv
  refine ⟨hinv, fun b hs => ?_, fun b hs => ?_⟩
  · obtain ⟨f1, f2⟩ := FadeInv_mix_out _ b hinv hs
    refine ⟨?_, f1⟩
    rw [f2]
    omega
  · obtain ⟨f1, f2⟩ := FadeInv_mix_in _ b hinv hs
    refine ⟨?_, f1⟩
    rw [f2]
    split_ifs
    · rfl
    · omega

/-- C29 (witness). A fade-out, a mix pass of four pairs, a fade-in and a mix
pass of three pairs from the initial state: the level is `8 + 3 * 8 = 32`,
nonzero in `FS_FADE_IN`. -/
theorem fade_level_invariant_witness :
    ((test_sound 2).fade_state = fade_state_t.FS_NONE ∧ (test_sound 2).fade_level = 0) ∧
    (fade_calls (test_sound 2) [fade_call_t.fade false, fade_call_t.mix (test_buffer 4),
      fade_call_t.fade true, fade_call_t.mix (test_buffer 3)]).fade_state
        = fade_state_t.FS_FADE_IN ∧
    (fade_calls (test_sound 2) [fade_call_t.fade false, fade_call_t.mix (test_buffer 4),
      fade_call_t.fade true, fade_call_t.mix (test_buffer 3)]).fade_level ≠ 0 :=
  ⟨⟨rfl, rfl⟩, by decide,
    (fade_level_invariant (test_sound 2) [fade_call_t.fade false,
      fade_call_t.mix (test_buffer 4), fade_call_t.fade true, fade_call_t.mix (test_buffer 3)]
      rfl rfl).1.2.2.1 (Or.inl (by decide))⟩

theorem int16_buffer_of_getD (l : List Int)
    (h : ∀ i : Nat, -32768 ≤ l.getD i 0 ∧ l.getD i 0 ≤ 32767) : int16_buffer l := by
  intro x hx
  obtain ⟨i, hi, rfl⟩ := List.getElem_of_mem hx
  have := h i
  rwa [List.getD_eq_getElem _ _ hi] at this

theorem gain_product_small (sample vol : Int) (hs : -128 ≤ sample ∧ sample ≤ 127)
    (hv0 : 0 ≤ vol) (hv1 : vol ≤ 63) : -8064 ≤ sample * vol ∧ sample * vol ≤ 8064 := by
  have e1 : sample * vol ≤ 127 * vol := mul_le_mul_of_nonneg_right hs.2 hv0
  have e2 : (-128) * vol ≤ sample * vol := mul_le_mul_of_nonneg_right hs.1 hv0
  constructor <;> linarith

theorem clamp_delta (e p : Int) (he : -32768 ≤ e ∧ e ≤ 32767) (hp : -8064 ≤ p ∧ p ≤ 8064) :
    -8064 ≤ spec_clamp (e + p) (-32768) 32767 - e ∧
      spec_clamp (e + p) (-32768) 32767 - e ≤ 8064 := by
  unfold spec_clamp
  omega

theorem mix_slot_delta (voll volr alpha256 : Int) (hl0 : 0 ≤ voll) (hl1 : voll ≤ 63)
    (hr0 : 0 ≤ volr) (hr1 : volr ≤ 63) (ha0 : 0 ≤ alpha256) (ha1 : alpha256 ≤ 255)
    (orig : List Int) (s : Nat) (m : mix_state) (hm : MixInv m)
    (hf : ∀ i : Nat, 2 * s ≤ i → m.samples.getD i 0 = orig.getD i 0)
    (hd : ∀ i : Nat, -8064 ≤ m.samples.getD i 0 - orig.getD i 0 ∧
      m.samples.getD i 0 - orig.getD i 0 ≤ 8064) :
    MixInv (mix_slot voll volr alpha256 (256 - alpha256) s m) ∧
    (∀ i : Nat, 2 * (s + 1) ≤ i →
      (mix_slot voll volr alpha256 (256 - alpha256) s m).samples.getD i 0 = orig.getD i 0) ∧
    (∀ i : Nat,
      -8064 ≤ (mix_slot voll volr alpha256 (256 - alpha256) s m).samples.getD i 0
        - orig.getD i 0 ∧
      (mix_slot voll volr alpha256 (256 - alpha256) s m).samples.getD i 0 - orig.getD i 0
        ≤ 8064) := by
  obtain ⟨hM, hst⟩ := MixInv_slot voll volr alpha256 s m hm hl0 (by omega) hr0 (by omega) ha0 ha1
  have hpl := gain_product_small _ voll hM.2.1 hl0 hl1
  have hpr := gain_product_small _ volr hM.2.1 hr0 hr1
  refine ⟨hM, fun i hi => ?_, fun i => ?_⟩
  · rw [mix_slot_frame _ _ _ _ _ _ _ (Or.inr hi)]
    exact hf i (by omega)
  · by_cases h0 : i = 2 * s
    · subst h0
      rw [hst, getD_set_other _ _ _ _ (by omega)]
      rcases getD_set_cases m.samples (2 * s) (2 * s) (spec_clamp (m.samples.getD (2 * s) 0 +
        (mix_slot voll volr alpha256 (256 - alpha256) s m).sample * voll) (-32768) 32767)
        with h | h
      · rw [h]; exact hd _
      · rw [h, ← hf (2 * s) (le_refl _)]
        exact clamp_delta _ _ (int16_buffer_getD _ hm.2.2 _) hpl
    · by_cases h1 : i = 2 * s + 1
      · subst h1
        rw [hst]
        rcases getD_set_cases (m.samples.set (2 * s) (spec_clamp (m.samples.getD (2 * s) 0 +
          (mix_slot voll volr alpha256 (256 - alpha256) s m).sample * voll) (-32768) 32767))
          (2 * s + 1) (2 * s + 1) (spec_clamp (m.samples.getD (2 * s + 1) 0 +
          (mix_slot voll volr alpha256 (256 - alpha256) s m).sample * volr) (-32768) 32767)
          with h | h
        · rw [h, getD_set_other _ _ _ _ (by omega)]; exact hd _
        · rw [h, ← hf (2 * s + 1) (by omega)]
          exact clamp_delta _ _ (int16_buffer_getD _ hm.2.2 _) hpr
      · rw [mix_slot_frame _ _ _ _ _ _ _ (by omega)]
        exact hd i

theorem mix_slots_delta (voll volr alpha256 : Int) (hl0 : 0 ≤ voll) (hl1 : voll ≤ 63)
    (hr0 : 0 ≤ volr) (hr1 : volr ≤ 63) (ha0 : 0 ≤ alpha256) (ha1 : alpha256 ≤ 255)
    (orig : List Int) (n : Nat) :
    ∀ (s : Nat) (m : mix_state), MixInv m →
      (∀ i : Nat, 2 * s ≤ i → m.samples.getD i 0 = orig.getD i 0) →
      (∀ i : Nat, -8064 ≤ m.samples.getD i 0 - orig.getD i 0 ∧
        m.samples.getD i 0 - orig.getD i 0 ≤ 8064) →
      ∀ i : Nat,
        -8064 ≤ (mix_slots voll volr alpha256 (256 - alpha256) n s m).samples.getD i 0
          - orig.getD i 0 ∧
        (mix_slots voll volr alpha256 (256 - alpha256) n s m).samples.getD i 0 - orig.getD i 0
          ≤ 8064 := by
  induction n with
  | zero => intro s m _ _ hd; exact hd
  | succ n ih =>
    intro s m hm hf hd
    obtain ⟨h1, h2, h3⟩ := mix_slot_delta voll volr alpha256 hl0 hl1 hr0 hr1 ha0 ha1 orig s m hm
      hf hd
    unfold mix_slots
    split_ifs
    · exact h3
    · exact ih _ _ h1 h2 h3

theorem mix_channel_delta (k : Nat) (channel : pico_channel_t) (samples : List Int)
    (hc : channel_typed channel) (hl : channel.left ≤ 63) (hr : channel.right ≤ 63)
    (hb : int16_buffer samples) (i : Nat) :
    -8064 ≤ (mix_channel k channel samples).2.getD i 0 - samples.getD i 0 ∧
      (mix_channel k channel samples).2.getD i 0 - samples.getD i 0 ≤ 8064 := by
  unfold mix_channel
  split_ifs
  · simp
  · simp only
    unfold mix_channel_slots
    exact mix_slots_delta _ _ _ (by omega) (by omega) (by omega) (by omega) (by omega)
      (by have := hc.2.2.1; omega) samples k 0 _ (MixInv_enter channel samples hc hb)
      (fun _ _ => rfl) (fun _ => by simp [mix_enter]) i

theorem mix_channels_bound (k : Nat) (channels : List pico_channel_t) :
    ∀ (samples : List Int) (B : Int),
      (∀ ch ∈ channels, channel_typed ch ∧ ch.left ≤ 63 ∧ ch.right ≤ 63) →
      (∀ i : Nat, -B ≤ samples.getD i 0 ∧ samples.getD i 0 ≤ B) →
      B + 8064 * (channels.length : Int) ≤ 32767 →
      ∀ i : Nat, -(B + 8064 * (channels.length : Int)) ≤
          (mix_channels k channels samples).2.getD i 0 ∧
        (mix_channels k channels samples).2.getD i 0 ≤ B + 8064 * (channels.length : Int) := by
  induction channels with
  | nil =>
    intro samples B _ hb _ i
    simpa [mix_channels] using hb i
  | cons c cs ih =>
    intro samples B hch hb hB i
    obtain ⟨hc, hl, hr⟩ := hch c (List.mem_cons_self _ _)
    have hlen : ((c :: cs).length : Int) = (cs.length : Int) + 1 := by simp
    rw [hlen] at hB ⊢
    have h16 : int16_buffer samples :=
      int16_buffer_of_getD samples (fun j => by have := hb j; omega)
    have hstep : ∀ j : Nat, -(B + 8064) ≤ (mix_channel k c samples).2.getD j 0 ∧
        (mix_channel k c samples).2.getD j 0 ≤ B + 8064 := by
      intro j
      have h1 := mix_channel_delta k c samples hc hl hr h16 j
      have h2 := hb j
      omega
    have := ih (mix_channel k c samples).2 (B + 8064)
      (fun ch hmem => hch ch (List.mem_cons_of_mem _ hmem)) hstep (by omega) i
    rw [mix_channels_cons]
    simp only
    omega

theorem getD_replicate_zero (m i : Nat) : (List.replicate m (0 : Int)).getD i 0 = 0 := by
  by_cases h : i < m
  · rw [List.getD_eq_getElem _ _ (by rw [List.length_replicate]; exact h)]
    exact List.getElem_replicate _ _
  · rw [List.getD_eq_default _ _ (by rw [List.length_replicate]; omega)]

theorem spec_gains_small (vol sep : Int) (hv0 : 0 ≤ vol) (hv1 : vol ≤ 127) (hs0 : 0 ≤ sep)
    (hs1 : sep ≤ 254) :
    (spec_left vol sep = Int.tdiv (Int.tdiv ((254 - sep) * vol) 127) 4 ∧
      spec_right vol sep = Int.tdiv (Int.tdiv (sep * vol) 127) 4) ∧
    0 ≤ spec_left vol sep ∧ 0 ≤ spec_right vol sep ∧
    spec_left vol sep ≤ 63 ∧ spec_right vol sep ≤ 63 ∧
    spec_left vol sep + spec_right vol sep ≤ 63 := by
  have ha0 : 0 ≤ (254 - sep) * vol := mul_nonneg (by omega) hv0
  have hb0 : 0 ≤ sep * vol := mul_nonneg hs0 hv0
  have hab : (254 - sep) * vol + sep * vol = 254 * vol := by ring
  unfold spec_left spec_right spec_clamp
  rw [Int.tdiv_eq_ediv ha0 (by norm_num), Int.tdiv_eq_ediv hb0 (by norm_num),
    Int.tdiv_eq_ediv (Int.ediv_nonneg ha0 (by norm_num)) (by norm_num),
    Int.tdiv_eq_ediv (Int.ediv_nonneg hb0 (by norm_num)) (by norm_num)]
  generalize (254 - sep) * vol = a at ha0 hab ⊢
  generalize sep * vol = b at hb0 hab ⊢
  omega

/-- C30. For every `vol` in `[0, 127]` and `sep` in `[0, 254]`,
`I_Pico_UpdateSoundParams` on a valid handle stores
`left = (((254-sep)*vol)/127)/4` and `right = ((sep*vol)/127)/4` (the clamp to
`[0, 255]` does not change them) with `left <= 63`, `right <= 63` and
`left + right <= 63`. The pass of one channel with such gains changes every
entry of an `int16_t` buffer by at most `128 * 63 = 8064`, and the channel
loop over at most 4 such channels and a silent (all-zero) base leaves every
entry within `[-32256, 32256]`, inside the saturation bounds. -/
theorem gains_headroom (g : sound_t) (handle vol sep : Int)
    (hinit : g.sound_initialized = true) (h0 : 0 ≤ handle)
    (h1 : handle < (g.channels.length : Int))
    (hv0 : 0 ≤ vol) (hv1 : vol ≤ 127) (hs0 : 0 ≤ sep) (hs1 : sep ≤ 254) :
    (((get_channel (I_Pico_UpdateSoundParams g handle vol sep) handle).left : Int) =
        Int.tdiv (Int.tdiv ((254 - sep) * vol) 127) 4 ∧
      ((get_channel (I_Pico_UpdateSoundParams g handle vol sep) handle).right : Int) =
        Int.tdiv (Int.tdiv (sep * vol) 127) 4) ∧
    (get_channel (I_Pico_UpdateSoundParams g handle vol sep) handle).left ≤ 63 ∧
    (get_channel (I_Pico_UpdateSoundParams g handle vol sep) handle).right ≤ 63 ∧
    (get_channel (I_Pico_UpdateSoundParams g handle vol sep) handle).left +
      (get_channel (I_Pico_UpdateSoundParams g handle vol sep) handle).right ≤ 63 ∧
    (128 : Int) * 63 = 8064 ∧
    (∀ (k : Nat) (channel : pico_channel_t) (samples : List Int) (i : Nat),
      channel_typed channel → channel.left ≤ 63 → channel.right ≤ 63 → int16_buffer samples →
      -8064 ≤ (mix_channel k channel samples).2.getD i 0 - samples.getD i 0 ∧
        (mix_channel k channel samples).2.getD i 0 - samples.getD i 0 ≤ 8064) ∧
    (∀ (k m : Nat) (channels : List pico_channel_t) (i : Nat), channels.length ≤ 4 →
      (∀ ch ∈ channels, channel_typed ch ∧ ch.left ≤ 63 ∧ ch.right ≤ 63) →
      -32256 ≤ (mix_channels k channels (List.replicate m 0)).2.getD i 0 ∧
        (mix_channels k channels (List.replicate m 0)).2.getD i 0 ≤ 32256) := by
  have hn : handle.toNat < g.channels.length := by omega
  obtain ⟨⟨g1, g2⟩, g3, g4, g5, g6, g7⟩ := spec_gains_small vol sep hv0 hv1 hs0 hs1
  have hc : get_channel (I_Pico_UpdateSoundParams g handle vol sep) handle =
      { get_channel g handle with
        left := (spec_left vol sep).toNat, right := (spec_right vol sep).toNat } := by
    have ha0 : 0 ≤ (254 - sep) * vol := mul_nonneg (by omega) hv0
    have ha1 : (254 - sep) * vol ≤ 254 * 127 :=
      mul_le_mul (by omega) hv1 hv0 (by norm_num)
    have hb0 : 0 ≤ sep * vol := mul_nonneg hs0 hv0
    have hb1 : sep * vol ≤ 254 * 127 := mul_le_mul hs1 hv1 hv0 (by norm_num)
    rw [I_Pico_UpdateSoundParams_spec g handle vol sep hinit h0 h1 (by omega)
      ⟨by omega, by omega⟩ ⟨by omega, by omega⟩]
    exact get_set_channel _ _ _ hn
  rw [hc]
  simp only
  refine ⟨⟨by omega, by omega⟩, by omega, by omega, by omega, by norm_num,
    fun k channel samples i hct hl hr hb => mix_channel_delta k channel samples hct hl hr hb i,
    fun k m channels i hlen hch => ?_⟩
  have hlen4 : (channels.length : Int) ≤ 4 := by exact_mod_cast hlen
  have := mix_channels_bound k channels (List.replicate m 0) 0 hch
    (fun j => by rw [getD_replicate_zero]; omega) (by omega) i
  omega

/-- C30 (witness). Full volume at the centre: the gains are `(31, 32)`. -/
theorem gains_headroom_witness :
    ((test_sound 2).sound_initialized = true ∧ (0 : Int) ≤ 1 ∧
      (1 : Int) < ((test_sound 2).channels.length : Int)) ∧
    (get_channel (I_Pico_UpdateSoundParams (test_sound 2) 1 127 128) 1).left +
      (get_channel (I_Pico_UpdateSoundParams (test_sound 2) 1 127 128) 1).right ≤ 63 ∧
    (get_channel (I_Pico_UpdateSoundParams (test_sound 2) 1 127 128) 1).left = 31 ∧
    (get_channel (I_Pico_UpdateSoundParams (test_sound 2) 1 127 128) 1).right = 32 :=
  ⟨by decide,
    (gains_headroom (test_sound 2) 1 127 128 (by decide) (by decide) (by decide) (by decide)
      (by decide) (by decide) (by decide)).2.2.2.1, by decide, by decide⟩

end PicoSound
